import Mathlib

/-! NanoCBOR pretty printer (`src/helper.c`)

A shallow embedding of the recursive CBOR printer of `helper.c`
(`_print_indent`, `_print_separator`, `_parse_cbor`, `_parse_map`, `_parse_type`,
`nanocbor_print`) and theorems about it.

* The nanocbor decoder (`nanocbor/nanocbor.h`) is an input of the embedding: the
  printer is defined over any `Decoder σ`, a record of the cursor operations that
  `helper.c` calls.
* `printk` is modelled by an event log: every routine returns the list of events it
  produced, in order.  Besides the written text the log records every call of one of
  the three recursive routines (with its depth argument) and its return, so that
  statements on call chains can be made.
* Loops and recursion are bounded by a fuel argument; a result `none` means that the
  fuel was not sufficient.
-/

namespace NanoCBOR

/-! ## Output events -/

/-- The seven call sites of the recursive routines in `helper.c`. -/
inductive Site
  /-- Site `_parse_cbor(&it, 0)` in `nanocbor_print`. -/
  | top
  /-- Site `_parse_cbor(&arr, indent + 1)` in `_parse_type`. -/
  | arr
  /-- Site `_parse_map(&map, indent + 1)` in `_parse_type`. -/
  | map
  /-- Site `_parse_type(it, indent)` in `_parse_cbor`. -/
  | item
  /-- Site of the first `_parse_type(it, indent)` in `_parse_map`. -/
  | key
  /-- Site of the second `_parse_type(it, indent)` in `_parse_map`. -/
  | val
  /-- Site `_parse_type(value, 0)` in `_parse_type`. -/
  | tag
  deriving DecidableEq, Repr

/-- One observable step of a run. -/
inductive Ev
  /-- Text written by a `printk` of `_parse_cbor`, `_parse_map`, `_parse_type` or
  `nanocbor_print`. -/
  | out (s : String)
  /-- Text written by a `printk` of `_print_indent` or `_print_separator`. -/
  | ws (s : String)
  /-- A call of a recursive routine, with the value of its `indent` argument. -/
  | call (site : Site) (depth : Nat)
  /-- The return of that call; `res` is the returned `int` (0 for the `void` walkers). -/
  | ret (site : Site) (res : Int)
  deriving DecidableEq, Repr

/-- The characters an event writes to the sink. -/
def Ev.chars : Ev → List Char
  | .out s => s.data
  | .ws s => s.data
  | .call _ _ => []
  | .ret _ _ => []

/-- The text written by a run: the concatenation of everything passed to `printk`. -/
def text : List Ev → List Char
  | [] => []
  | e :: es => e.chars ++ text es

/-! ## Formatting done by `printk` -/

/-- Decimal digits of `n`, most significant first, in front of `acc`. -/
def dec_digits : Nat → Nat → List Char → List Char
  | 0, _, acc => acc
  | fuel + 1, n, acc =>
    if n / 10 = 0 then Char.ofNat (48 + n % 10) :: acc
    else dec_digits fuel (n / 10) (Char.ofNat (48 + n % 10) :: acc)

/-- Conversion `%u` of an unsigned value. -/
def fmt_u (n : Nat) : List Char := dec_digits (n + 1) n []

/-- Conversion `%PRIu64`: the argument is a `uint64_t`. -/
def fmt_u64 (n : Nat) : List Char := fmt_u (n % 2 ^ 64)

/-- Conversion `%PRIu32`: the argument is a `uint32_t`. -/
def fmt_u32 (n : Nat) : List Char := fmt_u (n % 2 ^ 32)

/-- The value of an `int64_t` holding `i` (two's complement wrap-around). -/
def wrap_i64 (i : Int) : Int := (i + 2 ^ 63) % 2 ^ 64 - 2 ^ 63

/-- Conversion `%PRIi64`: the argument is an `int64_t`. -/
def fmt_i64 (i : Int) : List Char :=
  if wrap_i64 i < 0 then '-' :: fmt_u (wrap_i64 i).natAbs else fmt_u (wrap_i64 i).toNat

/-- One lowercase hexadecimal digit. -/
def hex_digit (n : Nat) : Char :=
  if n < 10 then Char.ofNat (48 + n) else Char.ofNat (87 + n)

/-- Conversion `%.2x` of a `uint8_t`. -/
def fmt_x2 (b : Nat) : List Char := [hex_digit (b % 256 / 16), hex_digit (b % 256 % 16)]

/-- The loop `while (iter < len) printk("%.2x", buf[iter])` of the byte string case. -/
def hex_events : List Nat → List Ev
  | [] => []
  | b :: bs => Ev.out (String.mk (fmt_x2 b)) :: hex_events bs

/-- Conversion `%.*s` with precision `len` on the bytes at `buf`: at most `len` bytes
are written and the conversion stops at the first zero byte. -/
def fmt_s (buf : List Nat) : List Char :=
  (buf.takeWhile (fun b => b % 256 != 0)).map (fun b => Char.ofNat (b % 256))

/-! ## The decoder interface used by `helper.c` -/

/-- The operations of `nanocbor/nanocbor.h` that `helper.c` calls, over a cursor type
`σ` (`nanocbor_value_t`).  An operation that takes the cursor by pointer returns the
`int` status, the value stored through its out-parameter and the cursor after the call.
A byte string result is `none` when the returned pointer is `NULL`, and otherwise the
`len` bytes at the returned pointer; a text string result is the `len` bytes at the
returned pointer.  A `float` or `double` result is the bit pattern of the value.
`printk_float` and `printk_double` are the `%f` conversion of the sink for a `float`
argument (promoted by the call) and for a `double` argument, on these bit patterns. -/
structure Decoder (σ : Type) where
  decoder_init : List Nat → Nat → σ
  at_end : σ → Bool
  get_type : σ → Int
  get_uint64 : σ → Int × Nat × σ
  get_int64 : σ → Int × Int × σ
  get_bstr : σ → Int × Option (List Nat) × σ
  get_tstr : σ → Int × List Nat × σ
  enter_array : σ → Int × σ
  enter_map : σ → Int × σ
  leave_container : σ → σ → σ
  get_bool : σ → Int × Bool × σ
  get_null : σ → Int × σ
  get_undefined : σ → Int × σ
  get_simple : σ → Int × Nat × σ
  get_float : σ → Int × Nat × σ
  get_double : σ → Int × Nat × σ
  get_tag : σ → Int × Nat × σ
  skip : σ → Int × σ
  printk_float : Nat → String
  printk_double : Nat → String

/-- Modelled from the spec: the type tags of `nanocbor/nanocbor.h`, which is not part of
the sources; the values are the CBOR major types. -/
def NANOCBOR_TYPE_UINT : Nat := 0
/-- Modelled from the spec: type tag of a negative integer (see `NANOCBOR_TYPE_UINT`). -/
def NANOCBOR_TYPE_NINT : Nat := 1
/-- Modelled from the spec: type tag of a byte string (see `NANOCBOR_TYPE_UINT`). -/
def NANOCBOR_TYPE_BSTR : Nat := 2
/-- Modelled from the spec: type tag of a text string (see `NANOCBOR_TYPE_UINT`). -/
def NANOCBOR_TYPE_TSTR : Nat := 3
/-- Modelled from the spec: type tag of an array (see `NANOCBOR_TYPE_UINT`). -/
def NANOCBOR_TYPE_ARR : Nat := 4
/-- Modelled from the spec: type tag of a map (see `NANOCBOR_TYPE_UINT`). -/
def NANOCBOR_TYPE_MAP : Nat := 5
/-- Modelled from the spec: type tag of a tag (see `NANOCBOR_TYPE_UINT`). -/
def NANOCBOR_TYPE_TAG : Nat := 6
/-- Modelled from the spec: type tag of floats and simple values
(see `NANOCBOR_TYPE_UINT`). -/
def NANOCBOR_TYPE_FLOAT : Nat := 7
/-- Modelled from the spec: the success status of `nanocbor/nanocbor.h`. -/
def NANOCBOR_OK : Int := 0

/-! ## The printer -/

/-- The macro `MAX_DEPTH`. -/
def MAX_DEPTH : Nat := 20

/-- The function `_print_indent`: with `_pretty` set, `indent` times two spaces. -/
def _print_indent (pretty : Bool) (indent : Nat) : List Ev :=
  if pretty then List.replicate indent (Ev.ws "  ") else []

/-- The function `_print_separator`: with `_pretty` set, a newline. -/
def _print_separator (pretty : Bool) : List Ev :=
  if pretty then [Ev.ws "\n"] else []

/-- The statement `if (!nanocbor_at_end(it)) printk(", ")` of both walkers. -/
def comma {σ : Type} (D : Decoder σ) (it : σ) : List Ev :=
  if D.at_end it then [] else [Ev.out ", "]

/-- The local `uint8_t type = nanocbor_get_type(value)` of `_parse_type`: the `int`
returned by the decoder, converted to `uint8_t`. -/
def type_of {σ : Type} (D : Decoder σ) (value : σ) : Nat := (D.get_type value % 256).toNat

/-- The text of `test ? printk("true") : printk("false")`. -/
def print_bool (test : Bool) : String := if test then "true" else "false"

/-- The `NANOCBOR_TYPE_FLOAT` case of `_parse_type`: the six extractions in order. -/
def parse_float {σ : Type} (D : Decoder σ) (value : σ) : Int × σ × List Ev :=
  let r1 := D.get_bool value
  if r1.1 ≥ NANOCBOR_OK then
    (1, r1.2.2, [Ev.out (print_bool r1.2.1)])
  else
    let r2 := D.get_null r1.2.2
    if r2.1 ≥ NANOCBOR_OK then (1, r2.2, [Ev.out "null"])
    else
      let r3 := D.get_undefined r2.2
      if r3.1 ≥ NANOCBOR_OK then (1, r3.2, [Ev.out "\"undefined\""])
      else
        let r4 := D.get_simple r3.2
        if r4.1 ≥ NANOCBOR_OK then
          (1, r4.2.2,
            [Ev.out (String.mk ("\"simple(".data ++ fmt_u (r4.2.1 % 256) ++ ")\"".data))])
        else
          let r5 := D.get_float r4.2.2
          if r5.1 ≥ 0 then (1, r5.2.2, [Ev.out (D.printk_float r5.2.1)])
          else
            let r6 := D.get_double r5.2.2
            if r6.1 ≥ 0 then (1, r6.2.2, [Ev.out (D.printk_double r6.2.1)])
            else (-1, r6.2.2, [])

mutual

/-- The function `_parse_cbor` (the sequence walker); one unit of fuel per iteration of
the `while` loop.  Returns the cursor `*it` after the loop and the events. -/
def _parse_cbor {σ : Type} (D : Decoder σ) (pretty : Bool) :
    Nat → σ → Nat → Option (σ × List Ev)
  | 0, _, _ => none
  | fuel + 1, it, indent =>
    if D.at_end it then some (it, [])
    else
      match _parse_type D pretty fuel it indent with
      | none => none
      | some (res, it1, t) =>
        if res < 0 then
          some (it1, _print_indent pretty indent ++ Ev.call Site.item indent :: t ++
            [Ev.ret Site.item res, Ev.out "Err\n"])
        else
          match _parse_cbor D pretty fuel it1 indent with
          | none => none
          | some (it2, t2) =>
            some (it2, _print_indent pretty indent ++ Ev.call Site.item indent :: t ++
              Ev.ret Site.item res :: comma D it1 ++ _print_separator pretty ++ t2)

/-- The function `_parse_map` (the map walker); one unit of fuel per iteration of the
`while` loop.  Returns the cursor `*it` after the loop and the events. -/
def _parse_map {σ : Type} (D : Decoder σ) (pretty : Bool) :
    Nat → σ → Nat → Option (σ × List Ev)
  | 0, _, _ => none
  | fuel + 1, it, indent =>
    if D.at_end it then some (it, [])
    else
      match _parse_type D pretty fuel it indent with
      | none => none
      | some (res, it1, t) =>
        if res < 0 then
          some (it1, _print_indent pretty indent ++ Ev.call Site.key indent :: t ++
            [Ev.ret Site.key res, Ev.out ": ", Ev.out "Err\n"])
        else
          match _parse_type D pretty fuel it1 indent with
          | none => none
          | some (res2, it2, t2) =>
            if res2 < 0 then
              some (it2, _print_indent pretty indent ++ Ev.call Site.key indent :: t ++
                Ev.ret Site.key res :: Ev.out ": " :: Ev.call Site.val indent :: t2 ++
                [Ev.ret Site.val res2, Ev.out "Err\n"])
            else
              match _parse_map D pretty fuel it2 indent with
              | none => none
              | some (it3, t3) =>
                some (it3, _print_indent pretty indent ++ Ev.call Site.key indent :: t ++
                  Ev.ret Site.key res :: Ev.out ": " :: Ev.call Site.val indent :: t2 ++
                  Ev.ret Site.val res2 :: comma D it2 ++ _print_separator pretty ++ t3)

/-- The function `_parse_type` (the type dispatcher).  Returns the returned `int`, the
cursor `*value` after the call and the events. -/
def _parse_type {σ : Type} (D : Decoder σ) (pretty : Bool) :
    Nat → σ → Nat → Option (Int × σ × List Ev)
  | 0, _, _ => none
  | fuel + 1, value, indent =>
    let type := type_of D value
    if indent > MAX_DEPTH then some (-2, value, [])
    else if type = NANOCBOR_TYPE_UINT then
      let r := D.get_uint64 value
      if r.1 ≥ 0 then some (1, r.2.2, [Ev.out (String.mk (fmt_u64 r.2.1))])
      else some (-1, r.2.2, [])
    else if type = NANOCBOR_TYPE_NINT then
      let r := D.get_int64 value
      if r.1 ≥ 0 then some (1, r.2.2, [Ev.out (String.mk (fmt_i64 r.2.1))])
      else some (-1, r.2.2, [])
    else if type = NANOCBOR_TYPE_BSTR then
      let r := D.get_bstr value
      if r.1 ≥ 0 then
        match r.2.1 with
        | some buf => some (1, r.2.2, Ev.out "h\x27" :: hex_events buf ++ [Ev.out "\x27"])
        | none => some (-1, r.2.2, [])
      else some (-1, r.2.2, [])
    else if type = NANOCBOR_TYPE_TSTR then
      let r := D.get_tstr value
      if r.1 ≥ 0 then
        some (1, r.2.2, [Ev.out (String.mk ('"' :: fmt_s r.2.1 ++ ['"']))])
      else some (-1, r.2.2, [])
    else if type = NANOCBOR_TYPE_ARR then
      let r := D.enter_array value
      if r.1 ≥ 0 then
        match _parse_cbor D pretty fuel r.2 (indent + 1) with
        | none => none
        | some (arr, t) =>
          some (1, D.leave_container value arr,
            Ev.out "[" :: _print_separator pretty ++ Ev.call Site.arr (indent + 1) :: t ++
              Ev.ret Site.arr 0 :: _print_indent pretty indent ++ [Ev.out "]"])
      else some (-1, value, [])
    else if type = NANOCBOR_TYPE_MAP then
      let r := D.enter_map value
      if r.1 ≥ NANOCBOR_OK then
        match _parse_map D pretty fuel r.2 (indent + 1) with
        | none => none
        | some (map, t) =>
          some (1, D.leave_container value map,
            Ev.out "\x7b" :: _print_separator pretty ++ Ev.call Site.map (indent + 1) :: t ++
              Ev.ret Site.map 0 :: _print_indent pretty indent ++ [Ev.out "\x7d"])
      else some (-1, value, [])
    else if type = NANOCBOR_TYPE_FLOAT then
      some (parse_float D value)
    else if type = NANOCBOR_TYPE_TAG then
      let r := D.get_tag value
      if r.1 ≥ NANOCBOR_OK then
        match _parse_type D pretty fuel r.2.2 0 with
        | none => none
        | some (res, value1, t) =>
          some (1, value1,
            Ev.out (String.mk (fmt_u32 r.2.1 ++ ['('])) :: Ev.call Site.tag 0 :: t ++
              [Ev.ret Site.tag res, Ev.out ")"])
      else some (-1, r.2.2, [])
    else some (-1, value, [Ev.out "Unsupported type\n"])

end

/-- The dry-run loop of `nanocbor_print`:
`while (!nanocbor_at_end(&it)) if (nanocbor_skip(&it) < 0) break;`. -/
def dry_run {σ : Type} (D : Decoder σ) : Nat → σ → Option σ
  | 0, _ => none
  | fuel + 1, it =>
    if D.at_end it then some it
    else
      let r := D.skip it
      if r.1 < 0 then some r.2 else dry_run D fuel r.2

/-- The function `nanocbor_print`.  Returns the returned `int` and the events.  The
length is written by `%u`, in decimal. -/
def nanocbor_print {σ : Type} (D : Decoder σ) (fuel : Nat) (buffer : List Nat) (len : Nat)
    (pretty : Bool) : Option (Int × List Ev) :=
  match dry_run D fuel (D.decoder_init buffer len) with
  | none => none
  | some _ =>
    match _parse_cbor D pretty fuel (D.decoder_init buffer len) 0 with
    | none => none
    | some (_, t) =>
      some (0, Ev.out (String.mk ("Start decoding ".data ++ fmt_u len ++ " bytes:\n".data)) ::
        Ev.call Site.top 0 :: t ++ [Ev.ret Site.top 0, Ev.out "\n"])

/-! ## A byte-level decoder -/

/-- Modelled from the spec: the decoding library behind `nanocbor/nanocbor.h` is not
part of the sources.  The model below offers the capability set of section 6 of the
spec on the CBOR encoding (an item starts with a head byte that holds the major type
in its upper three bits and the argument, or the number of bytes of the argument, in
its lower five bits).  This is its cursor `nanocbor_value_t`: `buf` is the buffer the cursor was initialised over, `cur`
and `stop` are offsets into it (the current position and the end), `remaining` is the
number of items left in a definite-length container, and the two flags say whether the
cursor is a container cursor and whether that container has indefinite length. -/
structure nanocbor_value_t where
  buf : List Nat
  cur : Nat
  stop : Nat
  remaining : Nat
  in_container : Bool
  indefinite : Bool
  deriving DecidableEq, Repr

namespace nanocbor_value_t

/-- Modelled from the spec: the byte at offset `i` from the current position. -/
def byte (c : nanocbor_value_t) (i : Nat) : Nat := c.buf.getD (c.cur + i) 0 % 256

/-- Modelled from the spec: the big-endian value of the `n` bytes that start at offset
`i` from the current position. -/
def be (c : nanocbor_value_t) (i : Nat) : Nat → Nat
  | 0 => 0
  | n + 1 => be c i n * 256 + c.byte (i + n)

/-- Modelled from the spec: the `n` bytes that start at offset `i` from the current
position. -/
def bytes (c : nanocbor_value_t) (i n : Nat) : List Nat :=
  (List.range n).map (fun k => c.byte (i + k))

/-- Modelled from the spec: move the cursor `n` bytes forward, one item consumed. -/
def advance (c : nanocbor_value_t) (n : Nat) : nanocbor_value_t :=
  { c with cur := c.cur + n, remaining := c.remaining - 1 }

end nanocbor_value_t

/-- Modelled from the spec: "initialize a cursor over `(buffer, length)`". -/
def nanocbor_decoder_init (buf : List Nat) (len : Nat) : nanocbor_value_t :=
  { buf := buf, cur := 0, stop := len, remaining := 0, in_container := false,
    indefinite := false }

/-- Modelled from the spec: "`at_end(cursor) -> bool`": the input is exhausted, or the
cursor is in an indefinite-length container and stands at the break byte `0xff`, or it
is in a definite-length container with no item left. -/
def nanocbor_at_end (c : nanocbor_value_t) : Bool :=
  decide (c.stop ≤ c.cur) || (c.indefinite && c.byte 0 == 0xff) ||
    (!c.indefinite && c.in_container && c.remaining == 0)

/-- Modelled from the spec: "`get_type(cursor) -> type_tag` (peek, non-consuming)": the
major type of the current byte, a negative status at the end. -/
def nanocbor_get_type (c : nanocbor_value_t) : Int :=
  if nanocbor_at_end c then -3 else ((c.byte 0 / 32 : Nat) : Int)

/-- Modelled from the spec: the argument of the item head at the cursor when the item
has major type `type` and its additional information is at most `max`: status (the
number of bytes of the head, or negative) and value. -/
def get_head (c : nanocbor_value_t) (max : Nat) (type : Nat) : Int × Nat :=
  if nanocbor_get_type c < 0 then (nanocbor_get_type c, 0)
  else if nanocbor_get_type c ≠ (type : Int) then (-2, 0)
  else if c.byte 0 % 32 < 24 then (1, c.byte 0 % 32)
  else if c.byte 0 % 32 > max then (-1, 0)
  else if c.stop ≤ c.cur + 2 ^ (c.byte 0 % 32 - 24) then (-3, 0)
  else (((1 + 2 ^ (c.byte 0 % 32 - 24) : Nat) : Int), c.be 1 (2 ^ (c.byte 0 % 32 - 24)))

/-- Modelled from the spec: "`get_uint64`": extract an unsigned integer and advance. -/
def nanocbor_get_uint64 (c : nanocbor_value_t) : Int × Nat × nanocbor_value_t :=
  let r := get_head c 27 NANOCBOR_TYPE_UINT
  if r.1 > 0 then (r.1, r.2, c.advance r.1.toNat) else (r.1, 0, c)

/-- Modelled from the spec: "`get_int64`": extract a (negative or unsigned) integer that
fits 64 signed bits and advance. -/
def nanocbor_get_int64 (c : nanocbor_value_t) : Int × Int × nanocbor_value_t :=
  if nanocbor_get_type c = 1 then
    let r := get_head c 27 NANOCBOR_TYPE_NINT
    if r.1 > 0 then
      if r.2 < 2 ^ 63 then (r.1, -1 - (r.2 : Int), c.advance r.1.toNat) else (-1, 0, c)
    else (r.1, 0, c)
  else if nanocbor_get_type c = 0 then
    let r := get_head c 27 NANOCBOR_TYPE_UINT
    if r.1 > 0 then
      if r.2 < 2 ^ 63 then (r.1, (r.2 : Int), c.advance r.1.toNat) else (-1, 0, c)
    else (r.1, 0, c)
  else if nanocbor_get_type c < 0 then (nanocbor_get_type c, 0, c)
  else (-2, 0, c)

/-- Modelled from the spec: extraction of a string of major type `type`: the head gives
the length, the bytes follow and must lie inside the input. -/
def get_str (c : nanocbor_value_t) (type : Nat) : Int × List Nat × nanocbor_value_t :=
  let r := get_head c 27 type
  if r.1 > 0 then
    if c.cur + r.1.toNat + r.2 ≤ c.stop then
      (0, c.bytes r.1.toNat r.2, c.advance (r.1.toNat + r.2))
    else (-3, [], c)
  else (r.1, [], c)

/-- Modelled from the spec: "`get_bstr`"; on success the pointer is never `NULL`. -/
def nanocbor_get_bstr (c : nanocbor_value_t) : Int × Option (List Nat) × nanocbor_value_t :=
  let r := get_str c NANOCBOR_TYPE_BSTR
  if r.1 ≥ 0 then (r.1, some r.2.1, r.2.2) else (r.1, none, r.2.2)

/-- Modelled from the spec: "`get_tstr`". -/
def nanocbor_get_tstr (c : nanocbor_value_t) : Int × List Nat × nanocbor_value_t :=
  get_str c NANOCBOR_TYPE_TSTR

/-- Modelled from the spec: "`enter_array(cursor) -> (sub_cursor, status)`" and
"`enter_map`", for major type `type`; a map of `n` pairs holds `2 n` items. -/
def enter_container (c : nanocbor_value_t) (type : Nat) : Int × nanocbor_value_t :=
  if c.cur < c.stop ∧ c.byte 0 = type * 32 + 31 then
    (0, { c with cur := c.cur + 1, remaining := 0, in_container := true,
                 indefinite := true })
  else
    let r := get_head c 27 type
    if r.1 > 0 then
      (0, { c with cur := c.cur + r.1.toNat,
                   remaining := if type = NANOCBOR_TYPE_MAP then 2 * r.2 else r.2,
                   in_container := true, indefinite := false })
    else (r.1, c)

/-- Modelled from the spec: "`enter_array`". -/
def nanocbor_enter_array (c : nanocbor_value_t) : Int × nanocbor_value_t :=
  enter_container c NANOCBOR_TYPE_ARR

/-- Modelled from the spec: "`enter_map`". -/
def nanocbor_enter_map (c : nanocbor_value_t) : Int × nanocbor_value_t :=
  enter_container c NANOCBOR_TYPE_MAP

/-- Modelled from the spec: "`leave_container(cursor, sub_cursor)`": the cursor
continues where the sub-cursor stands (after the break byte for an indefinite-length
container), one item of the enclosing container consumed. -/
def nanocbor_leave_container (it container : nanocbor_value_t) : nanocbor_value_t :=
  { it with cur := if container.indefinite then container.cur + 1 else container.cur,
            remaining := it.remaining - 1 }

/-- Modelled from the spec: consume the current byte when it is exactly `val`. -/
def value_match_exact (c : nanocbor_value_t) (val : Nat) : Int × nanocbor_value_t :=
  if c.stop ≤ c.cur then (-3, c)
  else if c.byte 0 = val then (0, c.advance 1)
  else (-2, c)

/-- Modelled from the spec: "`get_bool`": the bytes `0xf4` (false) and `0xf5` (true). -/
def nanocbor_get_bool (c : nanocbor_value_t) : Int × Bool × nanocbor_value_t :=
  if (value_match_exact c 0xf4).1 ≥ 0 then (0, false, (value_match_exact c 0xf4).2)
  else ((value_match_exact c 0xf5).1, true, (value_match_exact c 0xf5).2)

/-- Modelled from the spec: "`get_null`": the byte `0xf6`. -/
def nanocbor_get_null (c : nanocbor_value_t) : Int × nanocbor_value_t :=
  value_match_exact c 0xf6

/-- Modelled from the spec: "`get_undefined`": the byte `0xf7`. -/
def nanocbor_get_undefined (c : nanocbor_value_t) : Int × nanocbor_value_t :=
  value_match_exact c 0xf7

/-- Modelled from the spec: "`get_simple`": a simple value, in the head byte or in the
byte after `0xf8`. -/
def nanocbor_get_simple (c : nanocbor_value_t) : Int × Nat × nanocbor_value_t :=
  let r := get_head c 24 NANOCBOR_TYPE_FLOAT
  if r.1 > 0 then (0, r.2, c.advance r.1.toNat) else (r.1, 0, c)

/-- Modelled from the spec: "`get_float`": the four bytes after `0xfa`, as a bit
pattern. -/
def nanocbor_get_float (c : nanocbor_value_t) : Int × Nat × nanocbor_value_t :=
  if nanocbor_get_type c < 0 then (nanocbor_get_type c, 0, c)
  else if c.byte 0 = 0xfa then
    if c.cur + 5 ≤ c.stop then (5, c.be 1 4, c.advance 5) else (-3, 0, c)
  else (-2, 0, c)

/-- Modelled from the spec: "`get_double`": the eight bytes after `0xfb`, as a bit
pattern. -/
def nanocbor_get_double (c : nanocbor_value_t) : Int × Nat × nanocbor_value_t :=
  if nanocbor_get_type c < 0 then (nanocbor_get_type c, 0, c)
  else if c.byte 0 = 0xfb then
    if c.cur + 9 ≤ c.stop then (9, c.be 1 8, c.advance 9) else (-3, 0, c)
  else (-2, 0, c)

/-- Modelled from the spec: "`get_tag`": the 32-bit tag number; the cursor moves to the
wrapped item, which belongs to the same item of the enclosing container. -/
def nanocbor_get_tag (c : nanocbor_value_t) : Int × Nat × nanocbor_value_t :=
  let r := get_head c 26 NANOCBOR_TYPE_TAG
  if r.1 > 0 then (0, r.2, { c with cur := c.cur + r.1.toNat }) else (r.1, 0, c)

/-- Modelled from the spec: skip of an item that is neither a container nor a tag. -/
def nanocbor_skip_simple (c : nanocbor_value_t) : Int × nanocbor_value_t :=
  if nanocbor_get_type c = 2 ∨ nanocbor_get_type c = 3 then
    ((get_str c (nanocbor_get_type c).toNat).1, (get_str c (nanocbor_get_type c).toNat).2.2)
  else if nanocbor_get_type c < 0 then (nanocbor_get_type c, c)
  else
    let r := get_head c 27 (nanocbor_get_type c).toNat
    if r.1 > 0 then (0, c.advance r.1.toNat) else (r.1, c)

mutual

/-- Modelled from the spec: "`skip(cursor) -> status` (consume and discard one item)":
a string or scalar is consumed with its head, a container with all of its items, a tag
with the item it wraps.  The first argument is fuel. -/
def skip_item : Nat → nanocbor_value_t → Int × nanocbor_value_t
  | 0, c => (-4, c)
  | fuel + 1, c =>
    if nanocbor_get_type c = 4 ∨ nanocbor_get_type c = 5 then
      let r := enter_container c (nanocbor_get_type c).toNat
      if r.1 ≥ 0 then
        let s := skip_items fuel r.2
        (s.1, nanocbor_leave_container c s.2)
      else (r.1, c)
    else if nanocbor_get_type c = 6 then
      let r := nanocbor_get_tag c
      if r.1 ≥ 0 then skip_item fuel r.2.2 else (r.1, c)
    else nanocbor_skip_simple c

/-- Modelled from the spec: the loop of `skip` over the items of an entered container:
skip item after item until the container is at its end or an item fails. -/
def skip_items : Nat → nanocbor_value_t → Int × nanocbor_value_t
  | 0, c => (-4, c)
  | fuel + 1, c =>
    if nanocbor_at_end c then (0, c)
    else
      let r := skip_item fuel c
      if r.1 < 0 then r else skip_items fuel r.2

end

/-- Modelled from the spec: "`skip`"; the fuel given is never used up
(`nanocbor_skip_fuel`). -/
def nanocbor_skip (c : nanocbor_value_t) : Int × nanocbor_value_t :=
  skip_item (2 * (c.stop - c.cur) + 2) c

/-- Modelled from the spec: the `%f` conversion of the sink is not described; the model
writes the bit pattern in decimal. -/
def printk_f (bits : Nat) : String := String.mk (fmt_u bits)

/-- Modelled from the spec: the decoding library, as the capability set of section 6. -/
def nanocbor : Decoder nanocbor_value_t where
  decoder_init := nanocbor_decoder_init
  at_end := nanocbor_at_end
  get_type := nanocbor_get_type
  get_uint64 := nanocbor_get_uint64
  get_int64 := nanocbor_get_int64
  get_bstr := nanocbor_get_bstr
  get_tstr := nanocbor_get_tstr
  enter_array := nanocbor_enter_array
  enter_map := nanocbor_enter_map
  leave_container := nanocbor_leave_container
  get_bool := nanocbor_get_bool
  get_null := nanocbor_get_null
  get_undefined := nanocbor_get_undefined
  get_simple := nanocbor_get_simple
  get_float := nanocbor_get_float
  get_double := nanocbor_get_double
  get_tag := nanocbor_get_tag
  skip := nanocbor_skip
  printk_float := printk_f
  printk_double := printk_f

/-! ## Laws of a decoder -/

/-- A decoder operation with status `status` took the cursor from `c` to `c1` in the
forward direction: within the same input (`bound`), with no more input left (`size`)
than before, and with strictly less when the operation succeeded. -/
structure Forward {σ : Type} (size bound : σ → Nat) (c : σ) (status : Int) (c1 : σ) :
    Prop where
  bound_eq : bound c1 = bound c
  size_le : size c1 ≤ size c
  size_lt : 0 ≤ status → size c1 < size c

/-- Modelled from the spec: the decoding library is not part of the sources; section 6
says that an extraction is "consuming on success" and that `skip` does "consume and
discard one item".  `Progress D size bound` states this for a measure `size` of the
input left behind a cursor: every operation moves the cursor forward, a successful one
strictly; the cursor of an entered container has strictly less input left than the
enclosing cursor, and leaving a container puts the enclosing cursor no further back
than the container cursor stands. -/
structure Progress {σ : Type} (D : Decoder σ) (size bound : σ → Nat) : Prop where
  get_uint64 : ∀ c, Forward size bound c (D.get_uint64 c).1 (D.get_uint64 c).2.2
  get_int64 : ∀ c, Forward size bound c (D.get_int64 c).1 (D.get_int64 c).2.2
  get_bstr : ∀ c, Forward size bound c (D.get_bstr c).1 (D.get_bstr c).2.2
  get_tstr : ∀ c, Forward size bound c (D.get_tstr c).1 (D.get_tstr c).2.2
  get_bool : ∀ c, Forward size bound c (D.get_bool c).1 (D.get_bool c).2.2
  get_null : ∀ c, Forward size bound c (D.get_null c).1 (D.get_null c).2
  get_undefined : ∀ c, Forward size bound c (D.get_undefined c).1 (D.get_undefined c).2
  get_simple : ∀ c, Forward size bound c (D.get_simple c).1 (D.get_simple c).2.2
  get_float : ∀ c, Forward size bound c (D.get_float c).1 (D.get_float c).2.2
  get_double : ∀ c, Forward size bound c (D.get_double c).1 (D.get_double c).2.2
  get_tag : ∀ c, Forward size bound c (D.get_tag c).1 (D.get_tag c).2.2
  skip : ∀ c, Forward size bound c (D.skip c).1 (D.skip c).2
  enter_array : ∀ c, 0 ≤ (D.enter_array c).1 →
    bound (D.enter_array c).2 = bound c ∧ size (D.enter_array c).2 < size c
  enter_map : ∀ c, 0 ≤ (D.enter_map c).1 →
    bound (D.enter_map c).2 = bound c ∧ size (D.enter_map c).2 < size c
  leave_container : ∀ c a, bound a = bound c →
    bound (D.leave_container c a) = bound c ∧ size (D.leave_container c a) ≤ size a

/-- The number of bytes between the position of a cursor and the end of its input. -/
def nanocbor_value_t.left (c : nanocbor_value_t) : Nat := c.stop - c.cur

/-! ## Notions used in the statements -/

/-- The number written by a string of decimal digits. -/
def dec_value (s : List Char) : Nat := s.foldl (fun a ch => 10 * a + (ch.toNat - 48)) 0

/-- The decoder `D` with `skip` replaced by `sk`: the dry-run pass of `nanocbor_print`
may then fail or succeed at any item. -/
def set_skip {σ : Type} (D : Decoder σ) (sk : σ → Int × σ) : Decoder σ :=
  { D with skip := sk }

/-- The sites at which a walker calls the dispatcher. -/
def Site.walker : Site → Bool
  | .item => true
  | .key => true
  | .val => true
  | _ => false

/-- Every failing return of a dispatch made by a walker is directly followed by the
marker `Err` (after the separator `: ` when the key of a map failed). -/
def marked : List Ev → Prop
  | [] => True
  | Ev.ret s r :: rest =>
    (s.walker = true → r < 0 →
      (∃ tl, rest = Ev.out "Err\n" :: tl) ∨
      (∃ tl, rest = Ev.out ": " :: Ev.out "Err\n" :: tl)) ∧ marked rest
  | _ :: rest => marked rest

/-- The events of `t` keep a log marked, whatever follows. -/
def Good (t : List Ev) : Prop := ∀ post, marked post → marked (t ++ post)

/-- The value of a lowercase hexadecimal digit. -/
def hex_val (ch : Char) : Nat := if ch.toNat < 58 then ch.toNat - 48 else ch.toNat - 87

/-- The bytes written by a string of hexadecimal digits, two digits per byte. -/
def hex_decode : List Char → List Nat
  | a :: b :: rest => (16 * hex_val a + hex_val b) :: hex_decode rest
  | _ => []

/-- The encoding of the integer 1 enclosed by `k` nested one-item arrays (`81`). -/
def nested_arrays : Nat → List Nat
  | 0 => [0x01]
  | k + 1 => 0x81 :: nested_arrays k

/-- The encoding of the integer 1 enclosed by `k` nested one-item arrays, each array
wrapped by tag 1 (`c1 81`). -/
def nested_tagged_arrays : Nat → List Nat
  | 0 => [0x01]
  | k + 1 => 0xc1 :: 0x81 :: nested_tagged_arrays k

/-- Check of the depth arguments along the call chains of a log, given the depths of
the calls that are open (innermost first): every call has a depth of at most `limit`,
and no call has a smaller depth than its caller (the caller of the first call counts
as depth 0).  With `strict = false` the second condition is not imposed on the
dispatch of the item wrapped by a tag. -/
def chain_ok (limit : Nat) (strict : Bool) : List Nat → List Ev → Bool
  | _, [] => true
  | st, Ev.call s d :: es =>
    decide (d ≤ limit) && (decide (st.headD 0 ≤ d) || (!strict && decide (s = Site.tag))) &&
      chain_ok limit strict (d :: st) es
  | st, Ev.ret _ _ :: es => chain_ok limit strict st.tail es
  | st, Ev.out _ :: es => chain_ok limit strict st es
  | st, Ev.ws _ :: es => chain_ok limit strict st es

/-- The events of `t`, produced by a routine that runs with depth `d`, pass the check
of `chain_ok` with limit 21 and leave the open calls as they are. -/
def Chained (d : Nat) (t : List Ev) : Prop :=
  ∀ st post, chain_ok 21 false (d :: st) (t ++ post) = chain_ok 21 false (d :: st) post

/-- A list of events that only write text. -/
def quiet (t : List Ev) : Prop := ∀ e ∈ t, ∃ s, e = Ev.out s ∨ e = Ev.ws s

/-- No call recorded in the log `t` returned a failure. -/
def NoFail (t : List Ev) : Prop := ∀ s r, Ev.ret s r ∈ t → 0 ≤ r

/-- The cursor `a1` is reached from `a` by skipping item after item, each skip
succeeding, until the end of the container (or input) is reached. -/
inductive SkipAll {σ : Type} (D : Decoder σ) : σ → σ → Prop
  | done (a : σ) : D.at_end a = true → SkipAll D a a
  | step (a a1 : σ) : D.at_end a = false → 0 ≤ (D.skip a).1 → SkipAll D (D.skip a).2 a1 →
      SkipAll D a a1

/-- Modelled from the spec: the decoding library is not part of the sources; by
section 6 `skip` does "consume and discard one item", an extraction is "consuming on
success" and `get_type` is a peek.  `SkipLaws D` states how `skip` agrees with the
other operations: at the end no item type is reported; a failed extraction of a
float/simple value leaves the cursor where it was; skipping an item whose extraction
succeeds moves the cursor as that extraction does; skipping a tag moves the cursor as
skipping the wrapped item after the tag number does; skipping an array or map moves
the cursor as entering it, skipping its items to the end and leaving it does. -/
structure SkipLaws {σ : Type} (D : Decoder σ) : Prop where
  at_end_type : ∀ c, D.at_end c = true → 8 ≤ type_of D c
  bool_fail : ∀ c, (D.get_bool c).1 < 0 → (D.get_bool c).2.2 = c
  null_fail : ∀ c, (D.get_null c).1 < 0 → (D.get_null c).2 = c
  undefined_fail : ∀ c, (D.get_undefined c).1 < 0 → (D.get_undefined c).2 = c
  simple_fail : ∀ c, (D.get_simple c).1 < 0 → (D.get_simple c).2.2 = c
  float_fail : ∀ c, (D.get_float c).1 < 0 → (D.get_float c).2.2 = c
  skip_uint : ∀ c, type_of D c = NANOCBOR_TYPE_UINT → 0 ≤ (D.get_uint64 c).1 →
    0 ≤ (D.skip c).1 ∧ (D.skip c).2 = (D.get_uint64 c).2.2
  skip_nint : ∀ c, type_of D c = NANOCBOR_TYPE_NINT → 0 ≤ (D.get_int64 c).1 →
    0 ≤ (D.skip c).1 ∧ (D.skip c).2 = (D.get_int64 c).2.2
  skip_bstr : ∀ c, type_of D c = NANOCBOR_TYPE_BSTR → 0 ≤ (D.get_bstr c).1 →
    0 ≤ (D.skip c).1 ∧ (D.skip c).2 = (D.get_bstr c).2.2
  skip_tstr : ∀ c, type_of D c = NANOCBOR_TYPE_TSTR → 0 ≤ (D.get_tstr c).1 →
    0 ≤ (D.skip c).1 ∧ (D.skip c).2 = (D.get_tstr c).2.2
  skip_bool : ∀ c, type_of D c = NANOCBOR_TYPE_FLOAT → 0 ≤ (D.get_bool c).1 →
    0 ≤ (D.skip c).1 ∧ (D.skip c).2 = (D.get_bool c).2.2
  skip_null : ∀ c, type_of D c = NANOCBOR_TYPE_FLOAT → 0 ≤ (D.get_null c).1 →
    0 ≤ (D.skip c).1 ∧ (D.skip c).2 = (D.get_null c).2
  skip_undefined : ∀ c, type_of D c = NANOCBOR_TYPE_FLOAT → 0 ≤ (D.get_undefined c).1 →
    0 ≤ (D.skip c).1 ∧ (D.skip c).2 = (D.get_undefined c).2
  skip_simple : ∀ c, type_of D c = NANOCBOR_TYPE_FLOAT → 0 ≤ (D.get_simple c).1 →
    0 ≤ (D.skip c).1 ∧ (D.skip c).2 = (D.get_simple c).2.2
  skip_float : ∀ c, type_of D c = NANOCBOR_TYPE_FLOAT → 0 ≤ (D.get_float c).1 →
    0 ≤ (D.skip c).1 ∧ (D.skip c).2 = (D.get_float c).2.2
  skip_double : ∀ c, type_of D c = NANOCBOR_TYPE_FLOAT → 0 ≤ (D.get_double c).1 →
    0 ≤ (D.skip c).1 ∧ (D.skip c).2 = (D.get_double c).2.2
  skip_tag : ∀ c, type_of D c = NANOCBOR_TYPE_TAG → 0 ≤ (D.get_tag c).1 →
    0 ≤ (D.skip (D.get_tag c).2.2).1 →
    0 ≤ (D.skip c).1 ∧ (D.skip c).2 = (D.skip (D.get_tag c).2.2).2
  skip_arr : ∀ c a1, type_of D c = NANOCBOR_TYPE_ARR → 0 ≤ (D.enter_array c).1 →
    SkipAll D (D.enter_array c).2 a1 →
    0 ≤ (D.skip c).1 ∧ (D.skip c).2 = D.leave_container c a1
  skip_map : ∀ c a1, type_of D c = NANOCBOR_TYPE_MAP → 0 ≤ (D.enter_map c).1 →
    SkipAll D (D.enter_map c).2 a1 →
    0 ≤ (D.skip c).1 ∧ (D.skip c).2 = D.leave_container c a1

/-! ## Notions used in the statements on strings and tags -/

/-- The character written for a raw byte. -/
def byte_char (b : Nat) : Char := Char.ofNat (b % 256)

/-- A decoder that differs from the byte-level decoder in `get_bstr` only: the
extraction reports success and stores a `NULL` pointer. -/
def null_bstr_decoder : Decoder nanocbor_value_t :=
  { nanocbor with get_bstr := fun c => (0, none, c) }

/-! ## The cursor along the extractions of the float/simple case -/

/-- The cursor `*value` when `nanocbor_get_null` is called in the float/simple case
of `_parse_type` (after `nanocbor_get_bool`). -/
def cur_null {σ : Type} (D : Decoder σ) (c : σ) : σ := (D.get_bool c).2.2

/-- The cursor `*value` when `nanocbor_get_undefined` is called. -/
def cur_undefined {σ : Type} (D : Decoder σ) (c : σ) : σ := (D.get_null (cur_null D c)).2

/-- The cursor `*value` when `nanocbor_get_simple` is called. -/
def cur_simple {σ : Type} (D : Decoder σ) (c : σ) : σ :=
  (D.get_undefined (cur_undefined D c)).2

/-- The cursor `*value` when `nanocbor_get_float` is called. -/
def cur_float {σ : Type} (D : Decoder σ) (c : σ) : σ := (D.get_simple (cur_simple D c)).2.2

/-- The cursor `*value` when `nanocbor_get_double` is called. -/
def cur_double {σ : Type} (D : Decoder σ) (c : σ) : σ := (D.get_float (cur_float D c)).2.2

/-! ## Notions used in the statement on the pretty flag -/

/-- The log without the text written by `_print_indent` and `_print_separator`. -/
def erase_ws : List Ev → List Ev
  | [] => []
  | Ev.ws _ :: es => erase_ws es
  | Ev.out s :: es => Ev.out s :: erase_ws es
  | Ev.call s d :: es => Ev.call s d :: erase_ws es
  | Ev.ret s r :: es => Ev.ret s r :: erase_ws es

/-- The decoder `D` made to record its operations: the cursor carries the list of the
operations performed so far through it, each with its status, in order.  The cursor of
an entered container continues the list of the enclosing cursor, and leaving the
container hands the list back.  The two peeks `at_end` and `get_type`, which return no
cursor, are not recorded. -/
def logged {σ : Type} (D : Decoder σ) : Decoder (σ × List (String × Int)) where
  decoder_init := fun b l => (D.decoder_init b l, [])
  at_end := fun c => D.at_end c.1
  get_type := fun c => D.get_type c.1
  get_uint64 := fun c =>
    ((D.get_uint64 c.1).1, (D.get_uint64 c.1).2.1,
      ((D.get_uint64 c.1).2.2, c.2 ++ [("get_uint64", (D.get_uint64 c.1).1)]))
  get_int64 := fun c =>
    ((D.get_int64 c.1).1, (D.get_int64 c.1).2.1,
      ((D.get_int64 c.1).2.2, c.2 ++ [("get_int64", (D.get_int64 c.1).1)]))
  get_bstr := fun c =>
    ((D.get_bstr c.1).1, (D.get_bstr c.1).2.1,
      ((D.get_bstr c.1).2.2, c.2 ++ [("get_bstr", (D.get_bstr c.1).1)]))
  get_tstr := fun c =>
    ((D.get_tstr c.1).1, (D.get_tstr c.1).2.1,
      ((D.get_tstr c.1).2.2, c.2 ++ [("get_tstr", (D.get_tstr c.1).1)]))
  enter_array := fun c =>
    ((D.enter_array c.1).1,
      ((D.enter_array c.1).2, c.2 ++ [("enter_array", (D.enter_array c.1).1)]))
  enter_map := fun c =>
    ((D.enter_map c.1).1,
      ((D.enter_map c.1).2, c.2 ++ [("enter_map", (D.enter_map c.1).1)]))
  leave_container := fun c a =>
    (D.leave_container c.1 a.1, a.2 ++ [("leave_container", 0)])
  get_bool := fun c =>
    ((D.get_bool c.1).1, (D.get_bool c.1).2.1,
      ((D.get_bool c.1).2.2, c.2 ++ [("get_bool", (D.get_bool c.1).1)]))
  get_null := fun c =>
    ((D.get_null c.1).1, ((D.get_null c.1).2, c.2 ++ [("get_null", (D.get_null c.1).1)]))
  get_undefined := fun c =>
    ((D.get_undefined c.1).1,
      ((D.get_undefined c.1).2, c.2 ++ [("get_undefined", (D.get_undefined c.1).1)]))
  get_simple := fun c =>
    ((D.get_simple c.1).1, (D.get_simple c.1).2.1,
      ((D.get_simple c.1).2.2, c.2 ++ [("get_simple", (D.get_simple c.1).1)]))
  get_float := fun c =>
    ((D.get_float c.1).1, (D.get_float c.1).2.1,
      ((D.get_float c.1).2.2, c.2 ++ [("get_float", (D.get_float c.1).1)]))
  get_double := fun c =>
    ((D.get_double c.1).1, (D.get_double c.1).2.1,
      ((D.get_double c.1).2.2, c.2 ++ [("get_double", (D.get_double c.1).1)]))
  get_tag := fun c =>
    ((D.get_tag c.1).1, (D.get_tag c.1).2.1,
      ((D.get_tag c.1).2.2, c.2 ++ [("get_tag", (D.get_tag c.1).1)]))
  skip := fun c =>
    ((D.skip c.1).1, ((D.skip c.1).2, c.2 ++ [("skip", (D.skip c.1).1)]))
  printk_float := D.printk_float
  printk_double := D.printk_double


/-! ## Iterations of the walkers -/

/-- The events of one iteration of the loop of `_parse_cbor` whose dispatch succeeded:
`t` is the log of the dispatch, `res` its result, `it1` the cursor after it. -/
def item_events {σ : Type} (D : Decoder σ) (p : Bool) (d : Nat) (res : Int) (it1 : σ)
    (t : List Ev) : List Ev :=
  _print_indent p d ++ Ev.call Site.item d :: t ++
    Ev.ret Site.item res :: comma D it1 ++ _print_separator p

/-- The events of one iteration of the loop of `_parse_map` whose two dispatches
succeeded. -/
def pair_events {σ : Type} (D : Decoder σ) (p : Bool) (d : Nat) (res res2 : Int) (it2 : σ)
    (t t2 : List Ev) : List Ev :=
  _print_indent p d ++ Ev.call Site.key d :: t ++
    Ev.ret Site.key res :: Ev.out ": " :: Ev.call Site.val d :: t2 ++
    Ev.ret Site.val res2 :: comma D it2 ++ _print_separator p

/-- `Walked D p d c rs tr ck`: from the cursor `c` the loop of `_parse_cbor` at depth `d`
runs `rs.length` iterations, each with a successful dispatch, and then stands at `ck`;
`rs` lists the text written by each dispatch and `tr` is the log of these iterations. -/
inductive Walked {σ : Type} (D : Decoder σ) (p : Bool) (d : Nat) :
    σ → List (List Char) → List Ev → σ → Prop
  | done (c : σ) : Walked D p d c [] [] c
  | item (c c1 ck : σ) (fuel : Nat) (res : Int) (t : List Ev) (rs : List (List Char))
      (tr : List Ev) :
      D.at_end c = false → _parse_type D p fuel c d = some (res, c1, t) → 0 ≤ res →
      Walked D p d c1 rs tr ck →
      Walked D p d c (text t :: rs) (item_events D p d res c1 t ++ tr) ck

/-- `WalkedMap D p d c rs tr ck`: from the cursor `c` the loop of `_parse_map` at depth
`d` runs `rs.length` iterations, each with a successful key and value dispatch, and then
stands at `ck`; `rs` lists the texts written by the two dispatches of each iteration and
`tr` is the log of these iterations. -/
inductive WalkedMap {σ : Type} (D : Decoder σ) (p : Bool) (d : Nat) :
    σ → List (List Char × List Char) → List Ev → σ → Prop
  | done (c : σ) : WalkedMap D p d c [] [] c
  | pair (c c1 c2 ck : σ) (fuel fuel2 : Nat) (res res2 : Int) (t t2 : List Ev)
      (rs : List (List Char × List Char)) (tr : List Ev) :
      D.at_end c = false → _parse_type D p fuel c d = some (res, c1, t) → 0 ≤ res →
      _parse_type D p fuel2 c1 d = some (res2, c2, t2) → 0 ≤ res2 →
      WalkedMap D p d c2 rs tr ck →
      WalkedMap D p d c ((text t, text t2) :: rs)
        (pair_events D p d res res2 c2 t t2 ++ tr) ck

/-- The text of a loop of a walker whose iterations wrote the texts `rs`: every
iteration writes the indentation, its text, `, ` unless it is the last one, and the
separator. -/
def layout (p : Bool) (d : Nat) : List (List Char) → List Char
  | [] => []
  | [r] => text (_print_indent p d) ++ r ++ text (_print_separator p)
  | r :: r2 :: rs =>
    text (_print_indent p d) ++ r ++ ", ".data ++ text (_print_separator p) ++
      layout p d (r2 :: rs)

/-- The lines of a container in the formatted layout: every item is preceded by `n`
spaces and followed by a newline, with `, ` before the newline if and only if more
items remain. -/
def pretty_lines (n : Nat) : List (List Char) → List Char
  | [] => []
  | [r] => List.replicate n ' ' ++ r ++ ['\n']
  | r :: r2 :: rs =>
    List.replicate n ' ' ++ r ++ ", ".data ++ ['\n'] ++ pretty_lines n (r2 :: rs)

/-- The text of a key/value pair: the key, `: `, the value. -/
def pair_text (kv : List Char × List Char) : List Char := kv.1 ++ ": ".data ++ kv.2

/-! ## Brackets -/

/-- The effect of one `printk` call on the stack of open brackets: a call that writes an
opening bracket pushes the closing bracket it needs, a call that writes a closing
bracket pops it if it is the one on top of the stack and fails otherwise, and any other
call leaves the stack as it is. -/
def bracket_step (st : List String) (s : String) : Option (List String) :=
  if s = "[" then some ("]" :: st)
  else if s = "\x7b" then some ("\x7d" :: st)
  else if s = "]" ∨ s = "\x7d" then
    match st with
    | [] => none
    | x :: st1 => if x = s then some st1 else none
  else some st

/-- The stack of open brackets after a log, from the stack `st`; `none` when a closing
bracket does not match. -/
def brackets : List String → List Ev → Option (List String)
  | st, [] => some st
  | st, Ev.out s :: es =>
    match bracket_step st s with
    | none => none
    | some st1 => brackets st1 es
  | st, Ev.ws _ :: es => brackets st es
  | st, Ev.call _ _ :: es => brackets st es
  | st, Ev.ret _ _ :: es => brackets st es

/-- A text that is not a bracket on its own. -/
def plain (s : String) : Prop := s ≠ "[" ∧ s ≠ "]" ∧ s ≠ "\x7b" ∧ s ≠ "\x7d"

/-- A log in which every opening bracket is closed by its closing bracket: it leaves
every stack of open brackets as it found it. -/
def Matched (t : List Ev) : Prop :=
  ∀ st post, brackets st (t ++ post) = brackets st post
/-! ## Basic facts on the event log -/

@[simp] theorem text_nil : text [] = [] := rfl

@[simp] theorem text_cons (e : Ev) (es : List Ev) : text (e :: es) = e.chars ++ text es := rfl

@[simp] theorem text_append (a b : List Ev) : text (a ++ b) = text a ++ text b := by
  induction a with
  | nil => rfl
  | cons e es ih => simp [ih]

@[simp] theorem chars_out (s : String) : (Ev.out s).chars = s.data := rfl
@[simp] theorem chars_ws (s : String) : (Ev.ws s).chars = s.data := rfl
@[simp] theorem chars_call (s : Site) (d : Nat) : (Ev.call s d).chars = [] := rfl
@[simp] theorem chars_ret (s : Site) (r : Int) : (Ev.ret s r).chars = [] := rfl

/-! ## The cases of the dispatcher -/

section cases
variable {σ : Type} (D : Decoder σ) (p : Bool)

theorem parse_type_deep (n : Nat) (c : σ) (d : Nat) (hd : MAX_DEPTH < d) :
    _parse_type D p (n + 1) c d = some (-2, c, []) := by
  simp [_parse_type, hd]

theorem parse_type_uint (n : Nat) (c : σ) (d : Nat) (hd : d ≤ MAX_DEPTH)
    (ht : type_of D c = NANOCBOR_TYPE_UINT) :
    _parse_type D p (n + 1) c d =
      if (D.get_uint64 c).1 ≥ 0 then
        some ((1 : Int), (D.get_uint64 c).2.2, [Ev.out (String.mk (fmt_u64 (D.get_uint64 c).2.1))])
      else some (-1, (D.get_uint64 c).2.2, []) := by
  simp [_parse_type, Nat.not_lt.mpr hd, ht]

theorem parse_type_nint (n : Nat) (c : σ) (d : Nat) (hd : d ≤ MAX_DEPTH)
    (ht : type_of D c = NANOCBOR_TYPE_NINT) :
    _parse_type D p (n + 1) c d =
      if (D.get_int64 c).1 ≥ 0 then
        some ((1 : Int), (D.get_int64 c).2.2, [Ev.out (String.mk (fmt_i64 (D.get_int64 c).2.1))])
      else some (-1, (D.get_int64 c).2.2, []) := by
  simp [_parse_type, Nat.not_lt.mpr hd, ht, NANOCBOR_TYPE_NINT, NANOCBOR_TYPE_UINT]

theorem parse_type_bstr (n : Nat) (c : σ) (d : Nat) (hd : d ≤ MAX_DEPTH)
    (ht : type_of D c = NANOCBOR_TYPE_BSTR) :
    _parse_type D p (n + 1) c d =
      if (D.get_bstr c).1 ≥ 0 then
        match (D.get_bstr c).2.1 with
        | some buf =>
          some ((1 : Int), (D.get_bstr c).2.2, Ev.out "h\x27" :: hex_events buf ++ [Ev.out "\x27"])
        | none => some (-1, (D.get_bstr c).2.2, [])
      else some (-1, (D.get_bstr c).2.2, []) := by
  simp [_parse_type, Nat.not_lt.mpr hd, ht, NANOCBOR_TYPE_BSTR, NANOCBOR_TYPE_NINT,
    NANOCBOR_TYPE_UINT]

theorem parse_type_tstr (n : Nat) (c : σ) (d : Nat) (hd : d ≤ MAX_DEPTH)
    (ht : type_of D c = NANOCBOR_TYPE_TSTR) :
    _parse_type D p (n + 1) c d =
      if (D.get_tstr c).1 ≥ 0 then
        some ((1 : Int), (D.get_tstr c).2.2,
          [Ev.out (String.mk ('"' :: fmt_s (D.get_tstr c).2.1 ++ ['"']))])
      else some (-1, (D.get_tstr c).2.2, []) := by
  simp [_parse_type, Nat.not_lt.mpr hd, ht, NANOCBOR_TYPE_TSTR, NANOCBOR_TYPE_BSTR,
    NANOCBOR_TYPE_NINT, NANOCBOR_TYPE_UINT]

theorem parse_type_arr (n : Nat) (c : σ) (d : Nat) (hd : d ≤ MAX_DEPTH)
    (ht : type_of D c = NANOCBOR_TYPE_ARR) :
    _parse_type D p (n + 1) c d =
      if (D.enter_array c).1 ≥ 0 then
        match _parse_cbor D p n (D.enter_array c).2 (d + 1) with
        | none => none
        | some (arr, t) =>
          some ((1 : Int), D.leave_container c arr,
            Ev.out "[" :: _print_separator p ++ Ev.call Site.arr (d + 1) :: t ++
              Ev.ret Site.arr 0 :: _print_indent p d ++ [Ev.out "]"])
      else some (-1, c, []) := by
  simp [_parse_type, Nat.not_lt.mpr hd, ht, NANOCBOR_TYPE_ARR, NANOCBOR_TYPE_TSTR,
    NANOCBOR_TYPE_BSTR, NANOCBOR_TYPE_NINT, NANOCBOR_TYPE_UINT]

theorem parse_type_map (n : Nat) (c : σ) (d : Nat) (hd : d ≤ MAX_DEPTH)
    (ht : type_of D c = NANOCBOR_TYPE_MAP) :
    _parse_type D p (n + 1) c d =
      if (D.enter_map c).1 ≥ 0 then
        match _parse_map D p n (D.enter_map c).2 (d + 1) with
        | none => none
        | some (map, t) =>
          some ((1 : Int), D.leave_container c map,
            Ev.out "\x7b" :: _print_separator p ++ Ev.call Site.map (d + 1) :: t ++
              Ev.ret Site.map 0 :: _print_indent p d ++ [Ev.out "\x7d"])
      else some (-1, c, []) := by
  simp [_parse_type, Nat.not_lt.mpr hd, ht, NANOCBOR_TYPE_MAP, NANOCBOR_TYPE_ARR,
    NANOCBOR_TYPE_TSTR, NANOCBOR_TYPE_BSTR, NANOCBOR_TYPE_NINT, NANOCBOR_TYPE_UINT,
    NANOCBOR_OK]

theorem parse_type_float (n : Nat) (c : σ) (d : Nat) (hd : d ≤ MAX_DEPTH)
    (ht : type_of D c = NANOCBOR_TYPE_FLOAT) :
    _parse_type D p (n + 1) c d = some (parse_float D c) := by
  simp [_parse_type, Nat.not_lt.mpr hd, ht, NANOCBOR_TYPE_FLOAT, NANOCBOR_TYPE_MAP,
    NANOCBOR_TYPE_ARR, NANOCBOR_TYPE_TSTR, NANOCBOR_TYPE_BSTR, NANOCBOR_TYPE_NINT,
    NANOCBOR_TYPE_UINT]

theorem parse_type_tag (n : Nat) (c : σ) (d : Nat) (hd : d ≤ MAX_DEPTH)
    (ht : type_of D c = NANOCBOR_TYPE_TAG) :
    _parse_type D p (n + 1) c d =
      if (D.get_tag c).1 ≥ 0 then
        match _parse_type D p n (D.get_tag c).2.2 0 with
        | none => none
        | some (res, value1, t) =>
          some ((1 : Int), value1,
            Ev.out (String.mk (fmt_u32 (D.get_tag c).2.1 ++ ['('])) :: Ev.call Site.tag 0 ::
              t ++ [Ev.ret Site.tag res, Ev.out ")"])
      else some (-1, (D.get_tag c).2.2, []) := by
  simp [_parse_type, Nat.not_lt.mpr hd, ht, NANOCBOR_TYPE_TAG, NANOCBOR_TYPE_FLOAT,
    NANOCBOR_TYPE_MAP, NANOCBOR_TYPE_ARR, NANOCBOR_TYPE_TSTR, NANOCBOR_TYPE_BSTR,
    NANOCBOR_TYPE_NINT, NANOCBOR_TYPE_UINT, NANOCBOR_OK]

theorem parse_type_default (n : Nat) (c : σ) (d : Nat) (hd : d ≤ MAX_DEPTH)
    (ht : 8 ≤ type_of D c) :
    _parse_type D p (n + 1) c d = some (-1, c, [Ev.out "Unsupported type\n"]) := by
  have h0 : type_of D c ≠ 0 := by omega
  have h1 : type_of D c ≠ 1 := by omega
  have h2 : type_of D c ≠ 2 := by omega
  have h3 : type_of D c ≠ 3 := by omega
  have h4 : type_of D c ≠ 4 := by omega
  have h5 : type_of D c ≠ 5 := by omega
  have h6 : type_of D c ≠ 6 := by omega
  have h7 : type_of D c ≠ 7 := by omega
  simp [_parse_type, Nat.not_lt.mpr hd, NANOCBOR_TYPE_TAG, NANOCBOR_TYPE_FLOAT,
    NANOCBOR_TYPE_MAP, NANOCBOR_TYPE_ARR, NANOCBOR_TYPE_TSTR, NANOCBOR_TYPE_BSTR,
    NANOCBOR_TYPE_NINT, NANOCBOR_TYPE_UINT, h0, h1, h2, h3, h4, h5, h6, h7]

/-- The nine ways through `_parse_type`. -/
theorem type_cases (c : σ) (d : Nat) :
    MAX_DEPTH < d ∨ d ≤ MAX_DEPTH ∧
      (type_of D c = NANOCBOR_TYPE_UINT ∨ type_of D c = NANOCBOR_TYPE_NINT ∨
       type_of D c = NANOCBOR_TYPE_BSTR ∨ type_of D c = NANOCBOR_TYPE_TSTR ∨
       type_of D c = NANOCBOR_TYPE_ARR ∨ type_of D c = NANOCBOR_TYPE_MAP ∨
       type_of D c = NANOCBOR_TYPE_FLOAT ∨ type_of D c = NANOCBOR_TYPE_TAG ∨
       8 ≤ type_of D c) := by
  simp only [NANOCBOR_TYPE_TAG, NANOCBOR_TYPE_FLOAT, NANOCBOR_TYPE_MAP, NANOCBOR_TYPE_ARR,
    NANOCBOR_TYPE_TSTR, NANOCBOR_TYPE_BSTR, NANOCBOR_TYPE_NINT, NANOCBOR_TYPE_UINT]
  omega

end cases

/-! ## Fuel -/

section fuel
variable {σ : Type} (D : Decoder σ) (p : Bool)

theorem fuel_succ (n : Nat) :
    (∀ c d r, _parse_cbor D p n c d = some r → _parse_cbor D p (n + 1) c d = some r) ∧
    (∀ c d r, _parse_map D p n c d = some r → _parse_map D p (n + 1) c d = some r) ∧
    (∀ c d r, _parse_type D p n c d = some r → _parse_type D p (n + 1) c d = some r) := by
  induction n with
  | zero =>
    refine ⟨?_, ?_, ?_⟩ <;> intro c d r h
    · simp [_parse_cbor] at h
    · simp [_parse_map] at h
    · simp [_parse_type] at h
  | succ n ih =>
    obtain ⟨ihc, ihm, iht⟩ := ih
    refine ⟨?_, ?_, ?_⟩
    · intro c d r h
      rw [_parse_cbor] at h ⊢
      split_ifs at h ⊢ with h1
      · exact h
      · cases ht : _parse_type D p n c d with
        | none => simp [ht] at h
        | some x =>
          obtain ⟨res, it1, t⟩ := x
          rw [iht _ _ _ ht]
          simp only [ht] at h ⊢
          split_ifs at h ⊢ with h2
          · exact h
          · cases hc : _parse_cbor D p n it1 d with
            | none => simp [hc] at h
            | some y =>
              rw [ihc _ _ _ hc]
              simp only [hc] at h
              exact h
    · intro c d r h
      rw [_parse_map] at h ⊢
      split_ifs at h ⊢ with h1
      · exact h
      · cases ht : _parse_type D p n c d with
        | none => simp [ht] at h
        | some x =>
          obtain ⟨res, it1, t⟩ := x
          rw [iht _ _ _ ht]
          simp only [ht] at h ⊢
          split_ifs at h ⊢ with h2
          · exact h
          · cases ht2 : _parse_type D p n it1 d with
            | none => simp [ht2] at h
            | some x2 =>
              obtain ⟨res2, it2, t2⟩ := x2
              rw [iht _ _ _ ht2]
              simp only [ht2] at h ⊢
              split_ifs at h ⊢ with h3
              · exact h
              · cases hc : _parse_map D p n it2 d with
                | none => simp [hc] at h
                | some y =>
                  rw [ihm _ _ _ hc]
                  simp only [hc] at h
                  exact h
    · intro c d r h
      rcases type_cases D c d with hd | ⟨hd, ht | ht | ht | ht | ht | ht | ht | ht | ht⟩
      · rw [parse_type_deep D p _ c d hd] at h ⊢; exact h
      · rw [parse_type_uint D p _ c d hd ht] at h ⊢; exact h
      · rw [parse_type_nint D p _ c d hd ht] at h ⊢; exact h
      · rw [parse_type_bstr D p _ c d hd ht] at h ⊢; exact h
      · rw [parse_type_tstr D p _ c d hd ht] at h ⊢; exact h
      · rw [parse_type_arr D p _ c d hd ht] at h ⊢
        split_ifs at h ⊢ with h1
        · cases hc : _parse_cbor D p n (D.enter_array c).2 (d + 1) with
          | none => simp [hc] at h
          | some y =>
            rw [ihc _ _ _ hc]
            simp only [hc] at h
            exact h
        · exact h
      · rw [parse_type_map D p _ c d hd ht] at h ⊢
        split_ifs at h ⊢ with h1
        · cases hc : _parse_map D p n (D.enter_map c).2 (d + 1) with
          | none => simp [hc] at h
          | some y =>
            rw [ihm _ _ _ hc]
            simp only [hc] at h
            exact h
        · exact h
      · rw [parse_type_float D p _ c d hd ht] at h ⊢; exact h
      · rw [parse_type_tag D p _ c d hd ht] at h ⊢
        split_ifs at h ⊢ with h1
        · cases hc : _parse_type D p n (D.get_tag c).2.2 0 with
          | none => simp [hc] at h
          | some y =>
            rw [iht _ _ _ hc]
            simp only [hc] at h
            exact h
        · exact h
      · rw [parse_type_default D p _ c d hd ht] at h ⊢; exact h

theorem parse_cbor_fuel {n m : Nat} (hnm : n ≤ m) {c : σ} {d : Nat} {r : σ × List Ev}
    (h : _parse_cbor D p n c d = some r) : _parse_cbor D p m c d = some r := by
  induction hnm with
  | refl => exact h
  | step _ ih => exact (fuel_succ D p _).1 _ _ _ ih

theorem parse_map_fuel {n m : Nat} (hnm : n ≤ m) {c : σ} {d : Nat} {r : σ × List Ev}
    (h : _parse_map D p n c d = some r) : _parse_map D p m c d = some r := by
  induction hnm with
  | refl => exact h
  | step _ ih => exact (fuel_succ D p _).2.1 _ _ _ ih

theorem parse_type_fuel {n m : Nat} (hnm : n ≤ m) {c : σ} {d : Nat} {r : Int × σ × List Ev}
    (h : _parse_type D p n c d = some r) : _parse_type D p m c d = some r := by
  induction hnm with
  | refl => exact h
  | step _ ih => exact (fuel_succ D p _).2.2 _ _ _ ih

theorem dry_run_fuel {n m : Nat} (hnm : n ≤ m) {c r : σ}
    (h : dry_run D n c = some r) : dry_run D m c = some r := by
  induction n generalizing m c with
  | zero => simp [dry_run] at h
  | succ n ih =>
    obtain ⟨m, rfl⟩ : ∃ k, m = k + 1 := ⟨m - 1, by omega⟩
    rw [dry_run] at h ⊢
    simp only at h ⊢
    split_ifs at h ⊢ with h1 h2
    · exact h
    · exact h
    · exact ih (by omega) h

end fuel

/-! ## Termination under the progress laws -/

section total
variable {σ : Type} {D : Decoder σ} {size bound : σ → Nat}

theorem Forward.refl_neg (c : σ) {s : Int} (hs : s < 0) : Forward size bound c s c :=
  ⟨rfl, le_rfl, fun h => absurd h (by omega)⟩

theorem Forward.trans {c c1 c2 : σ} {s s1 : Int} (h : Forward size bound c s c1)
    (h1 : Forward size bound c1 s1 c2) : Forward size bound c s1 c2 :=
  ⟨h1.bound_eq.trans h.bound_eq, h1.size_le.trans h.size_le,
    fun hs => lt_of_lt_of_le (h1.size_lt hs) h.size_le⟩

theorem Forward.status {c c1 : σ} {s : Int} (s1 : Int) (h : Forward size bound c s c1)
    (hs : 0 ≤ s1 → 0 ≤ s) : Forward size bound c s1 c1 :=
  ⟨h.bound_eq, h.size_le, fun h1 => h.size_lt (hs h1)⟩

theorem parse_float_forward (P : Progress D size bound) (c : σ) :
    Forward size bound c (parse_float D c).1 (parse_float D c).2.1 := by
  have h1 := P.get_bool c
  have h2 := h1.trans (P.get_null (D.get_bool c).2.2)
  have h3 := h2.trans (P.get_undefined (D.get_null (D.get_bool c).2.2).2)
  have h4 := h3.trans (P.get_simple (D.get_undefined (D.get_null (D.get_bool c).2.2).2).2)
  have h5 := h4.trans (P.get_float
    (D.get_simple (D.get_undefined (D.get_null (D.get_bool c).2.2).2).2).2.2)
  have h6 := h5.trans (P.get_double (D.get_float
    (D.get_simple (D.get_undefined (D.get_null (D.get_bool c).2.2).2).2).2.2).2.2)
  simp only [parse_float, NANOCBOR_OK]
  split_ifs with g1 g2 g3 g4 g5 g6
  · exact h1.status _ (fun _ => g1)
  · exact h2.status _ (fun _ => g2)
  · exact h3.status _ (fun _ => g3)
  · exact h4.status _ (fun _ => g4)
  · exact h5.status _ (fun _ => g5)
  · exact h6.status _ (fun _ => g6)
  · exact h6.status (-1) (fun h => absurd h (by decide))

/-- One more level of `_parse_type`, given the three routines on cursors with less
input left. -/
theorem parse_type_total_step (P : Progress D size bound) (p : Bool) (n : Nat)
    (ihc : ∀ c d, size c < n → ∃ r, _parse_cbor D p (2 * n) c d = some r ∧
      bound r.1 = bound c ∧ size r.1 ≤ size c)
    (ihm : ∀ c d, size c < n → ∃ r, _parse_map D p (2 * n) c d = some r ∧
      bound r.1 = bound c ∧ size r.1 ≤ size c)
    (iht : ∀ c d, size c < n → ∃ r, _parse_type D p (2 * n) c d = some r ∧
      Forward size bound c r.1 r.2.1)
    (c : σ) (d : Nat) (hc : size c ≤ n) :
    ∃ r, _parse_type D p (2 * n + 1) c d = some r ∧ Forward size bound c r.1 r.2.1 := by
  rcases type_cases D c d with hd | ⟨hd, ht | ht | ht | ht | ht | ht | ht | ht | ht⟩
  · exact ⟨_, parse_type_deep D p _ c d hd, Forward.refl_neg c (by simp)⟩
  · rw [parse_type_uint D p _ c d hd ht]
    split_ifs with h1
    · exact ⟨_, rfl, (P.get_uint64 c).status _ (fun _ => h1)⟩
    · exact ⟨_, rfl, (P.get_uint64 c).status (-1) (fun h => absurd h (by decide))⟩
  · rw [parse_type_nint D p _ c d hd ht]
    split_ifs with h1
    · exact ⟨_, rfl, (P.get_int64 c).status _ (fun _ => h1)⟩
    · exact ⟨_, rfl, (P.get_int64 c).status (-1) (fun h => absurd h (by decide))⟩
  · rw [parse_type_bstr D p _ c d hd ht]
    split_ifs with h1
    · cases hb : (D.get_bstr c).2.1 with
      | none => exact ⟨_, rfl, (P.get_bstr c).status (-1) (fun h => absurd h (by decide))⟩
      | some buf => exact ⟨_, rfl, (P.get_bstr c).status _ (fun _ => h1)⟩
    · exact ⟨_, rfl, (P.get_bstr c).status (-1) (fun h => absurd h (by decide))⟩
  · rw [parse_type_tstr D p _ c d hd ht]
    split_ifs with h1
    · exact ⟨_, rfl, (P.get_tstr c).status _ (fun _ => h1)⟩
    · exact ⟨_, rfl, (P.get_tstr c).status (-1) (fun h => absurd h (by decide))⟩
  · rw [parse_type_arr D p _ c d hd ht]
    split_ifs with h1
    · obtain ⟨hb, hs⟩ := P.enter_array c h1
      obtain ⟨r, hr, hrb, hrs⟩ := ihc (D.enter_array c).2 (d + 1) (by omega)
      obtain ⟨hlb, hls⟩ := P.leave_container c r.1 (hrb.trans hb)
      rw [hr]
      exact ⟨_, rfl, hlb, by simp only; omega, fun _ => by simp only; omega⟩
    · exact ⟨_, rfl, Forward.refl_neg c (by simp)⟩
  · rw [parse_type_map D p _ c d hd ht]
    split_ifs with h1
    · obtain ⟨hb, hs⟩ := P.enter_map c h1
      obtain ⟨r, hr, hrb, hrs⟩ := ihm (D.enter_map c).2 (d + 1) (by omega)
      obtain ⟨hlb, hls⟩ := P.leave_container c r.1 (hrb.trans hb)
      rw [hr]
      exact ⟨_, rfl, hlb, by simp only; omega, fun _ => by simp only; omega⟩
    · exact ⟨_, rfl, Forward.refl_neg c (by simp)⟩
  · rw [parse_type_float D p _ c d hd ht]
    exact ⟨_, rfl, parse_float_forward P c⟩
  · rw [parse_type_tag D p _ c d hd ht]
    split_ifs with h1
    · have hg := P.get_tag c
      obtain ⟨r, hr, hf⟩ := iht (D.get_tag c).2.2 0 (by have := hg.size_lt h1; omega)
      rw [hr]
      refine ⟨_, rfl, ?_⟩
      have h2 := hg.trans hf
      exact ⟨h2.bound_eq, h2.size_le, fun _ => lt_of_le_of_lt hf.size_le (hg.size_lt h1)⟩
    · exact ⟨_, rfl, (P.get_tag c).status (-1) (fun h => absurd h (by decide))⟩
  · exact ⟨_, parse_type_default D p _ c d hd ht, Forward.refl_neg c (by simp)⟩

theorem parse_cbor_total_step (p : Bool) (n : Nat)
    (hT : ∀ c d, size c ≤ n → ∃ r, _parse_type D p (2 * n + 1) c d = some r ∧
      Forward size bound c r.1 r.2.1)
    (ihc : ∀ c d, size c < n → ∃ r, _parse_cbor D p (2 * n) c d = some r ∧
      bound r.1 = bound c ∧ size r.1 ≤ size c)
    (c : σ) (d : Nat) (hc : size c ≤ n) :
    ∃ r, _parse_cbor D p (2 * n + 2) c d = some r ∧
      bound r.1 = bound c ∧ size r.1 ≤ size c := by
  rw [show 2 * n + 2 = (2 * n + 1) + 1 from rfl, _parse_cbor]
  split_ifs with h1
  · exact ⟨_, rfl, rfl, le_rfl⟩
  · obtain ⟨⟨res, it1, t⟩, hr, hf⟩ := hT c d hc
    rw [hr]
    simp only
    split_ifs with h2
    · exact ⟨_, rfl, hf.bound_eq, hf.size_le⟩
    · have hlt := hf.size_lt (by simpa using h2)
      simp only at hlt
      obtain ⟨r2, hr2, hb2, hs2⟩ := ihc it1 d (by omega)
      rw [parse_cbor_fuel D p (Nat.le_succ _) hr2]
      exact ⟨_, rfl, hb2.trans hf.bound_eq, by simp only; omega⟩

theorem parse_map_total_step (p : Bool) (n : Nat)
    (hT : ∀ c d, size c ≤ n → ∃ r, _parse_type D p (2 * n + 1) c d = some r ∧
      Forward size bound c r.1 r.2.1)
    (ihm : ∀ c d, size c < n → ∃ r, _parse_map D p (2 * n) c d = some r ∧
      bound r.1 = bound c ∧ size r.1 ≤ size c)
    (c : σ) (d : Nat) (hc : size c ≤ n) :
    ∃ r, _parse_map D p (2 * n + 2) c d = some r ∧
      bound r.1 = bound c ∧ size r.1 ≤ size c := by
  rw [show 2 * n + 2 = (2 * n + 1) + 1 from rfl, _parse_map]
  split_ifs with h1
  · exact ⟨_, rfl, rfl, le_rfl⟩
  · obtain ⟨⟨res, it1, t⟩, hr, hf⟩ := hT c d hc
    rw [hr]
    simp only
    split_ifs with h2
    · exact ⟨_, rfl, hf.bound_eq, hf.size_le⟩
    · have hlt := hf.size_lt (by simpa using h2)
      simp only at hlt
      obtain ⟨⟨res2, it2, t2⟩, hr2, hf2⟩ := hT it1 d (by omega)
      rw [hr2]
      simp only
      have hle2 := hf2.size_le
      have hb2 := hf2.bound_eq
      simp only at hle2 hb2
      split_ifs with h3
      · exact ⟨_, rfl, hb2.trans hf.bound_eq, by simp only; omega⟩
      · obtain ⟨r3, hr3, hb3, hs3⟩ := ihm it2 d (by omega)
        rw [parse_map_fuel D p (Nat.le_succ _) hr3]
        exact ⟨_, rfl, hb3.trans (hb2.trans hf.bound_eq), by simp only; omega⟩

/-- With fuel `2 n + 1` (dispatcher) and `2 n + 2` (walkers) the routines return on
every cursor that has at most `n` left, and they move the cursor forward. -/
theorem parse_total (P : Progress D size bound) (p : Bool) (n : Nat) :
    (∀ c d, size c ≤ n → ∃ r, _parse_type D p (2 * n + 1) c d = some r ∧
      Forward size bound c r.1 r.2.1) ∧
    (∀ c d, size c ≤ n → ∃ r, _parse_cbor D p (2 * n + 2) c d = some r ∧
      bound r.1 = bound c ∧ size r.1 ≤ size c) ∧
    (∀ c d, size c ≤ n → ∃ r, _parse_map D p (2 * n + 2) c d = some r ∧
      bound r.1 = bound c ∧ size r.1 ≤ size c) := by
  induction n with
  | zero =>
    have hT := parse_type_total_step P p 0 (fun c d h => absurd h (Nat.not_lt_zero _))
      (fun c d h => absurd h (Nat.not_lt_zero _)) (fun c d h => absurd h (Nat.not_lt_zero _))
    exact ⟨hT,
      parse_cbor_total_step p 0 hT (fun c d h => absurd h (Nat.not_lt_zero _)),
      parse_map_total_step p 0 hT (fun c d h => absurd h (Nat.not_lt_zero _))⟩
  | succ n ih =>
    obtain ⟨iht, ihc, ihm⟩ := ih
    have ihc1 : ∀ c d, size c < n + 1 → ∃ r, _parse_cbor D p (2 * (n + 1)) c d = some r ∧
        bound r.1 = bound c ∧ size r.1 ≤ size c := fun c d h => ihc c d (by omega)
    have ihm1 : ∀ c d, size c < n + 1 → ∃ r, _parse_map D p (2 * (n + 1)) c d = some r ∧
        bound r.1 = bound c ∧ size r.1 ≤ size c := fun c d h => ihm c d (by omega)
    have iht1 : ∀ c d, size c < n + 1 → ∃ r, _parse_type D p (2 * (n + 1)) c d = some r ∧
        Forward size bound c r.1 r.2.1 := by
      intro c d h
      obtain ⟨r, hr, hf⟩ := iht c d (by omega)
      exact ⟨r, parse_type_fuel D p (by omega) hr, hf⟩
    have hT := parse_type_total_step P p (n + 1) ihc1 ihm1 iht1
    exact ⟨hT, parse_cbor_total_step p (n + 1) hT ihc1,
      parse_map_total_step p (n + 1) hT ihm1⟩

theorem parse_type_total (P : Progress D size bound) (p : Bool) (c : σ) (d fuel : Nat)
    (hf : 2 * size c + 1 ≤ fuel) :
    ∃ r, _parse_type D p fuel c d = some r ∧ Forward size bound c r.1 r.2.1 := by
  obtain ⟨r, hr, h⟩ := (parse_total P p (size c)).1 c d le_rfl
  exact ⟨r, parse_type_fuel D p hf hr, h⟩

theorem parse_cbor_total (P : Progress D size bound) (p : Bool) (c : σ) (d fuel : Nat)
    (hf : 2 * size c + 2 ≤ fuel) :
    ∃ r, _parse_cbor D p fuel c d = some r ∧ bound r.1 = bound c ∧ size r.1 ≤ size c := by
  obtain ⟨r, hr, h⟩ := (parse_total P p (size c)).2.1 c d le_rfl
  exact ⟨r, parse_cbor_fuel D p hf hr, h⟩

theorem parse_map_total (P : Progress D size bound) (p : Bool) (c : σ) (d fuel : Nat)
    (hf : 2 * size c + 2 ≤ fuel) :
    ∃ r, _parse_map D p fuel c d = some r ∧ bound r.1 = bound c ∧ size r.1 ≤ size c := by
  obtain ⟨r, hr, h⟩ := (parse_total P p (size c)).2.2 c d le_rfl
  exact ⟨r, parse_map_fuel D p hf hr, h⟩

theorem dry_run_total (P : Progress D size bound) (n : Nat) :
    ∀ c, size c < n → ∃ r, dry_run D n c = some r := by
  induction n with
  | zero => intro c h; exact absurd h (Nat.not_lt_zero _)
  | succ n ih =>
    intro c h
    rw [dry_run]
    simp only
    split_ifs with h1 h2
    · exact ⟨_, rfl⟩
    · exact ⟨_, rfl⟩
    · exact ih _ (by have := (P.skip c).size_lt (by omega); omega)

/-- The function `nanocbor_print` returns when the fuel is at least twice the size of
the initial cursor plus two. -/
theorem nanocbor_print_total (P : Progress D size bound) (p : Bool) (buffer : List Nat)
    (len fuel : Nat) (hf : 2 * size (D.decoder_init buffer len) + 2 ≤ fuel) :
    ∃ it t, _parse_cbor D p fuel (D.decoder_init buffer len) 0 = some (it, t) ∧
      nanocbor_print D fuel buffer len p =
        some (0, Ev.out (String.mk ("Start decoding ".data ++ fmt_u len ++ " bytes:\n".data)) ::
          Ev.call Site.top 0 :: t ++ [Ev.ret Site.top 0, Ev.out "\n"]) := by
  obtain ⟨⟨it, t⟩, hr, -⟩ := parse_cbor_total P p (D.decoder_init buffer len) 0 fuel hf
  obtain ⟨r0, hr0⟩ := dry_run_total P fuel (D.decoder_init buffer len) (by omega)
  exact ⟨it, t, hr, by simp [nanocbor_print, hr, hr0]⟩

end total

/-! ## The byte-level decoder obeys the progress laws -/

section concrete

theorem not_at_end_lt {c : nanocbor_value_t} (h : 0 ≤ nanocbor_get_type c) :
    c.cur < c.stop := by
  unfold nanocbor_get_type at h
  split_ifs at h with h1
  · exact absurd h (by decide)
  · simp only [nanocbor_at_end, Bool.or_eq_true, decide_eq_true_eq, not_or] at h1
    omega

theorem get_head_pos (c : nanocbor_value_t) (m t : Nat) (h : 0 ≤ (get_head c m t).1) :
    0 < (get_head c m t).1 ∧ 1 ≤ (get_head c m t).1.toNat ∧
      c.cur + (get_head c m t).1.toNat ≤ c.stop := by
  unfold get_head at h ⊢
  split_ifs at h ⊢ with h1 h2 h3 h4 h5
  · exact absurd h (by omega)
  · exact absurd h (by decide)
  · have := not_at_end_lt (c := c) (by omega)
    simp only [Int.toNat_one]
    omega
  · exact absurd h (by decide)
  · exact absurd h (by decide)
  · simp only [Int.toNat_ofNat]
    have : 0 < 2 ^ (c.byte 0 % 32 - 24) := Nat.pos_pow_of_pos _ (by decide)
    omega

theorem forward_advance (c : nanocbor_value_t) (k : Nat) (s : Int) (hk : 1 ≤ k)
    (hc : c.cur < c.stop) :
    Forward nanocbor_value_t.left nanocbor_value_t.stop c s (c.advance k) :=
  ⟨rfl, by simp only [nanocbor_value_t.left, nanocbor_value_t.advance]; omega,
    fun _ => by simp only [nanocbor_value_t.left, nanocbor_value_t.advance]; omega⟩

theorem forward_same (c : nanocbor_value_t) (s : Int) (hs : 0 ≤ s → False) :
    Forward nanocbor_value_t.left nanocbor_value_t.stop c s c :=
  ⟨rfl, le_rfl, fun h => (hs h).elim⟩

theorem forward_head (c : nanocbor_value_t) (m t : Nat) :
    Forward nanocbor_value_t.left nanocbor_value_t.stop c (get_head c m t).1
      (if (get_head c m t).1 > 0 then c.advance (get_head c m t).1.toNat else c) := by
  split_ifs with h
  · obtain ⟨-, h1, h2⟩ := get_head_pos c m t (by omega)
    exact forward_advance c _ _ h1 (by omega)
  · exact forward_same c _ (fun h0 => h (get_head_pos c m t h0).1)

theorem forward_get_uint64 (c : nanocbor_value_t) :
    Forward nanocbor_value_t.left nanocbor_value_t.stop c (nanocbor_get_uint64 c).1
      (nanocbor_get_uint64 c).2.2 := by
  have h := forward_head c 27 NANOCBOR_TYPE_UINT
  unfold nanocbor_get_uint64
  simp only
  split_ifs at h ⊢ with h1 <;> exact h

theorem forward_get_int64 (c : nanocbor_value_t) :
    Forward nanocbor_value_t.left nanocbor_value_t.stop c (nanocbor_get_int64 c).1
      (nanocbor_get_int64 c).2.2 := by
  have hn := forward_head c 27 NANOCBOR_TYPE_NINT
  have hu := forward_head c 27 NANOCBOR_TYPE_UINT
  unfold nanocbor_get_int64
  simp only
  split_ifs at hn hu ⊢ with h1 h2 h3 h4 h5 h6 h7 h8
  all_goals first
    | exact hn
    | exact hu
    | exact forward_same c _ (by omega)

theorem forward_get_str (c : nanocbor_value_t) (t : Nat) :
    Forward nanocbor_value_t.left nanocbor_value_t.stop c (get_str c t).1
      (get_str c t).2.2 := by
  unfold get_str
  simp only
  split_ifs with h1 h2
  · obtain ⟨-, h3, h4⟩ := get_head_pos c 27 t (by omega)
    exact forward_advance c _ _ (by omega) (by omega)
  · exact forward_same c _ (by omega)
  · exact forward_same c _ (fun h0 => h1 (get_head_pos c 27 t h0).1)

theorem forward_get_bstr (c : nanocbor_value_t) :
    Forward nanocbor_value_t.left nanocbor_value_t.stop c (nanocbor_get_bstr c).1
      (nanocbor_get_bstr c).2.2 := by
  have h := forward_get_str c NANOCBOR_TYPE_BSTR
  unfold nanocbor_get_bstr
  simp only
  split_ifs <;> exact h

theorem forward_match (c : nanocbor_value_t) (v : Nat) :
    Forward nanocbor_value_t.left nanocbor_value_t.stop c (value_match_exact c v).1
      (value_match_exact c v).2 := by
  unfold value_match_exact
  split_ifs with h1 h2
  · exact forward_same c _ (by omega)
  · exact forward_advance c 1 _ le_rfl (by omega)
  · exact forward_same c _ (by omega)

theorem forward_get_bool (c : nanocbor_value_t) :
    Forward nanocbor_value_t.left nanocbor_value_t.stop c (nanocbor_get_bool c).1
      (nanocbor_get_bool c).2.2 := by
  unfold nanocbor_get_bool
  split_ifs with h1
  · exact (forward_match c 0xf4).status _ (fun _ => h1)
  · exact forward_match c 0xf5

theorem forward_get_simple (c : nanocbor_value_t) :
    Forward nanocbor_value_t.left nanocbor_value_t.stop c (nanocbor_get_simple c).1
      (nanocbor_get_simple c).2.2 := by
  have h := forward_head c 24 NANOCBOR_TYPE_FLOAT
  unfold nanocbor_get_simple
  simp only
  split_ifs at h ⊢ with h1
  · exact h.status _ (fun _ => by omega)
  · exact h

theorem forward_get_float (c : nanocbor_value_t) :
    Forward nanocbor_value_t.left nanocbor_value_t.stop c (nanocbor_get_float c).1
      (nanocbor_get_float c).2.2 := by
  unfold nanocbor_get_float
  split_ifs with h1 h2 h3
  · exact forward_same c _ (by omega)
  · exact forward_advance c 5 _ (by decide) (by omega)
  · exact forward_same c _ (by omega)
  · exact forward_same c _ (by omega)

theorem forward_get_double (c : nanocbor_value_t) :
    Forward nanocbor_value_t.left nanocbor_value_t.stop c (nanocbor_get_double c).1
      (nanocbor_get_double c).2.2 := by
  unfold nanocbor_get_double
  split_ifs with h1 h2 h3
  · exact forward_same c _ (by omega)
  · exact forward_advance c 9 _ (by decide) (by omega)
  · exact forward_same c _ (by omega)
  · exact forward_same c _ (by omega)

theorem forward_get_tag (c : nanocbor_value_t) :
    Forward nanocbor_value_t.left nanocbor_value_t.stop c (nanocbor_get_tag c).1
      (nanocbor_get_tag c).2.2 := by
  unfold nanocbor_get_tag
  simp only
  split_ifs with h1
  · obtain ⟨-, h3, h4⟩ := get_head_pos c 26 NANOCBOR_TYPE_TAG (by omega)
    exact ⟨rfl, by simp only [nanocbor_value_t.left]; omega,
      fun _ => by simp only [nanocbor_value_t.left]; omega⟩
  · exact forward_same c _ (fun h0 => h1 (get_head_pos c 26 _ h0).1)

theorem enter_container_lt (c : nanocbor_value_t) (t : Nat)
    (h : 0 ≤ (enter_container c t).1) :
    (enter_container c t).2.stop = c.stop ∧
      (enter_container c t).2.left < c.left := by
  unfold enter_container at h ⊢
  by_cases h1 : c.cur < c.stop ∧ c.byte 0 = t * 32 + 31
  · rw [if_pos h1]
    exact ⟨rfl, by simp only [nanocbor_value_t.left]; omega⟩
  · rw [if_neg h1] at h ⊢
    simp only at h ⊢
    by_cases h2 : (get_head c 27 t).1 > 0
    · rw [if_pos h2]
      obtain ⟨-, h3, h4⟩ := get_head_pos c 27 t (by omega)
      exact ⟨rfl, by simp only [nanocbor_value_t.left]; omega⟩
    · rw [if_neg h2] at h
      exact absurd (get_head_pos c 27 t h).1 h2

theorem leave_container_le (c a : nanocbor_value_t) (h : a.stop = c.stop) :
    (nanocbor_leave_container c a).stop = c.stop ∧
      (nanocbor_leave_container c a).left ≤ a.left := by
  refine ⟨rfl, ?_⟩
  simp only [nanocbor_leave_container, nanocbor_value_t.left]
  split_ifs <;> omega

theorem forward_skip_simple (c : nanocbor_value_t) :
    Forward nanocbor_value_t.left nanocbor_value_t.stop c (nanocbor_skip_simple c).1
      (nanocbor_skip_simple c).2 := by
  unfold nanocbor_skip_simple
  simp only
  split_ifs with h1 h2 h3
  · exact forward_get_str c _
  · exact forward_same c _ (by omega)
  · obtain ⟨-, h4, h5⟩ := get_head_pos c 27 (nanocbor_get_type c).toNat (by omega)
    exact forward_advance c _ _ h4 (by omega)
  · exact forward_same c _ (fun h0 => h3 (get_head_pos c 27 _ h0).1)

theorem forward_skip_item (n : Nat) :
    (∀ c, Forward nanocbor_value_t.left nanocbor_value_t.stop c (skip_item n c).1
      (skip_item n c).2) ∧
    (∀ c, (skip_items n c).2.stop = c.stop ∧ (skip_items n c).2.left ≤ c.left) := by
  induction n with
  | zero =>
    exact ⟨fun c => by simpa [skip_item] using forward_same c (-4) (by omega),
      fun c => by simp [skip_items]⟩
  | succ n ih =>
    obtain ⟨ih1, ih2⟩ := ih
    constructor
    · intro c
      rw [skip_item]
      simp only
      split_ifs with h1 h2 h3 h4
      · obtain ⟨e1, e2⟩ := enter_container_lt c _ h2
        obtain ⟨s1, s2⟩ := ih2 (enter_container c (nanocbor_get_type c).toNat).2
        obtain ⟨l1, l2⟩ := leave_container_le c
          (skip_items n (enter_container c (nanocbor_get_type c).toNat).2).2 (s1.trans e1)
        exact ⟨l1, by simp only; omega, fun _ => by simp only; omega⟩
      · exact forward_same c _ (by omega)
      · exact (forward_get_tag c).trans (ih1 _) |>.status _ id |> fun h =>
          ⟨h.bound_eq, h.size_le, fun _ =>
            lt_of_le_of_lt (ih1 _).size_le ((forward_get_tag c).size_lt h4)⟩
      · exact forward_same c _ (by omega)
      · exact forward_skip_simple c
    · intro c
      rw [skip_items]
      simp only
      split_ifs with h1 h2
      · exact ⟨rfl, le_rfl⟩
      · exact ⟨(ih1 c).bound_eq, (ih1 c).size_le⟩
      · obtain ⟨s1, s2⟩ := ih2 (skip_item n c).2
        exact ⟨s1.trans (ih1 c).bound_eq, s2.trans (ih1 c).size_le⟩

/-- The byte-level decoder obeys the progress laws, for the number of bytes left. -/
theorem nanocbor_progress : Progress nanocbor nanocbor_value_t.left nanocbor_value_t.stop where
  get_uint64 := forward_get_uint64
  get_int64 := forward_get_int64
  get_bstr := forward_get_bstr
  get_tstr := fun c => forward_get_str c _
  get_bool := forward_get_bool
  get_null := fun c => forward_match c _
  get_undefined := fun c => forward_match c _
  get_simple := forward_get_simple
  get_float := forward_get_float
  get_double := forward_get_double
  get_tag := forward_get_tag
  skip := fun c => (forward_skip_item _).1 c
  enter_array := fun c h => enter_container_lt c _ h
  enter_map := fun c h => enter_container_lt c _ h
  leave_container := leave_container_le

end concrete

/-! ## Decimal conversion -/

section decimal

theorem dec_digits_succ (fuel n : Nat) (acc : List Char) :
    dec_digits (fuel + 1) n acc =
      if n / 10 = 0 then Char.ofNat (48 + n % 10) :: acc
      else dec_digits fuel (n / 10) (Char.ofNat (48 + n % 10) :: acc) := rfl

theorem dec_digits_eq (n : Nat) : ∀ fuel acc, n < fuel →
    dec_digits fuel n acc = fmt_u n ++ acc := by
  induction n using Nat.strong_induction_on with
  | _ n ih =>
    intro fuel acc hf
    obtain ⟨f, rfl⟩ : ∃ f, fuel = f + 1 := ⟨fuel - 1, by omega⟩
    unfold fmt_u
    rw [dec_digits_succ, dec_digits_succ]
    split_ifs with h
    · rfl
    · have hlt : n / 10 < n := Nat.div_lt_self (by omega) (by decide)
      rw [ih _ hlt f _ (by omega), ih _ hlt n _ hlt]
      simp

theorem fmt_u_small (n : Nat) (h : n < 10) : fmt_u n = [Char.ofNat (48 + n)] := by
  unfold fmt_u
  rw [dec_digits_succ, if_pos (by omega), Nat.mod_eq_of_lt h]

theorem fmt_u_large (n : Nat) (h : 10 ≤ n) :
    fmt_u n = fmt_u (n / 10) ++ [Char.ofNat (48 + n % 10)] := by
  have hlt : n / 10 < n := Nat.div_lt_self (by omega) (by decide)
  conv_lhs => unfold fmt_u
  rw [dec_digits_succ, if_neg (by omega), dec_digits_eq _ _ _ hlt]

theorem digit_toNat (k : Nat) (h : k < 10) : (Char.ofNat (48 + k)).toNat - 48 = k := by
  interval_cases k <;> rfl

theorem dec_value_append (s : List Char) (ch : Char) :
    dec_value (s ++ [ch]) = 10 * dec_value s + (ch.toNat - 48) := by
  simp [dec_value, List.foldl_append]

/-- The digits written for `n` denote `n`. -/
theorem dec_value_fmt_u (n : Nat) : dec_value (fmt_u n) = n := by
  induction n using Nat.strong_induction_on with
  | _ n ih =>
    by_cases h : n < 10
    · rw [fmt_u_small n h]
      simp only [dec_value, List.foldl_cons, List.foldl_nil, Nat.mul_zero, Nat.zero_add]
      exact digit_toNat n h
    · rw [fmt_u_large n (by omega), dec_value_append, ih _ (by omega),
        digit_toNat _ (Nat.mod_lt _ (by decide))]
      omega

/-- Every character written for `n` is a decimal digit. -/
theorem fmt_u_digits (n : Nat) : ∀ ch ∈ fmt_u n, ch.isDigit = true := by
  induction n using Nat.strong_induction_on with
  | _ n ih =>
    intro ch hch
    by_cases h : n < 10
    · rw [fmt_u_small n h] at hch
      simp only [List.mem_singleton] at hch
      subst hch
      interval_cases n <;> rfl
    · rw [fmt_u_large n (by omega)] at hch
      rcases List.mem_append.mp hch with h1 | h1
      · exact ih _ (by omega) ch h1
      · simp only [List.mem_singleton] at h1
        subst h1
        have : n % 10 < 10 := Nat.mod_lt _ (by decide)
        interval_cases n % 10 <;> rfl

/-- No leading zero: the first character written for `n` is `0` only for `n = 0`. -/
theorem fmt_u_head (n : Nat) : ∃ ch rest, fmt_u n = ch :: rest ∧ (ch = '0' → n = 0) := by
  induction n using Nat.strong_induction_on with
  | _ n ih =>
    by_cases h : n < 10
    · refine ⟨_, [], fmt_u_small n h, ?_⟩
      intro h0
      interval_cases n <;> first | rfl | exact absurd h0 (by decide)
    · obtain ⟨ch, rest, h1, h2⟩ := ih (n / 10) (by omega)
      refine ⟨ch, rest ++ [Char.ofNat (48 + n % 10)], ?_, ?_⟩
      · rw [fmt_u_large n (by omega), h1]; rfl
      · intro h0
        have := h2 h0
        omega

theorem digitChar_eq (k : Nat) (h : k < 10) : Nat.digitChar k = Char.ofNat (48 + k) := by
  interval_cases k <;> rfl

theorem toDigitsCore_eq (fuel : Nat) : ∀ n acc,
    Nat.toDigitsCore 10 fuel n acc = dec_digits fuel n acc := by
  induction fuel with
  | zero => intro n acc; rfl
  | succ f ih =>
    intro n acc
    rw [dec_digits_succ, Nat.toDigitsCore]
    simp only [digitChar_eq _ (Nat.mod_lt n (by decide : 0 < 10)), ih]

/-- The conversion `fmt_u` writes the usual decimal representation. -/
theorem fmt_u_eq_repr (n : Nat) : fmt_u n = (Nat.repr n).data := by
  simp [Nat.repr, Nat.toDigits, toDigitsCore_eq, fmt_u, List.asString]

end decimal

/-! ## The dry-run pass -/

section dry
variable {σ : Type} (D : Decoder σ) (sk : σ → Int × σ) (p : Bool)

/-- The three routines never call `skip`. -/
theorem parse_set_skip (n : Nat) :
    (∀ c d, _parse_cbor (set_skip D sk) p n c d = _parse_cbor D p n c d) ∧
    (∀ c d, _parse_map (set_skip D sk) p n c d = _parse_map D p n c d) ∧
    (∀ c d, _parse_type (set_skip D sk) p n c d = _parse_type D p n c d) := by
  induction n with
  | zero => exact ⟨fun _ _ => rfl, fun _ _ => rfl, fun _ _ => rfl⟩
  | succ n ih =>
    obtain ⟨ihc, ihm, iht⟩ := ih
    refine ⟨?_, ?_, ?_⟩
    · intro c d
      rw [_parse_cbor, _parse_cbor]
      simp only [ihc, iht]
      rfl
    · intro c d
      rw [_parse_map, _parse_map]
      simp only [ihm, iht]
      rfl
    · intro c d
      rw [_parse_type, _parse_type]
      simp only [ihc, ihm, iht]
      rfl

end dry

/-- C1: for every buffer, length and pretty flag, `nanocbor_print` returns 0 and writes
`Start decoding <len> bytes:\n`, then the output of `_parse_cbor` run at depth 0 on a
cursor freshly initialised over the buffer, then `\n`; status and text are the same
whatever the dry-run pass does (whatever `skip` returns, at any item). -/
theorem nanocbor_print_text {σ : Type} (D : Decoder σ) (size bound : σ → Nat)
    (P : Progress D size bound) (buffer : List Nat) (len : Nat) (pretty : Bool) :
    ∃ it t,
      (∃ n, ∀ fuel, n ≤ fuel →
        _parse_cbor D pretty fuel (D.decoder_init buffer len) 0 = some (it, t)) ∧
      (∃ n, ∀ fuel, n ≤ fuel → ∃ tr,
        nanocbor_print D fuel buffer len pretty = some (0, tr) ∧
        text tr = "Start decoding ".data ++ (Nat.repr len).data ++ " bytes:\n".data ++
          text t ++ "\n".data) ∧
      (∀ sk fuel r, nanocbor_print (set_skip D sk) fuel buffer len pretty = some r →
        r.1 = 0 ∧
        text r.2 = "Start decoding ".data ++ (Nat.repr len).data ++ " bytes:\n".data ++
          text t ++ "\n".data) := by
  obtain ⟨it, t, h1, -⟩ := nanocbor_print_total P pretty buffer len _ le_rfl
  refine ⟨it, t, ⟨2 * size (D.decoder_init buffer len) + 2,
    fun fuel hf => parse_cbor_fuel D pretty hf h1⟩,
    ⟨2 * size (D.decoder_init buffer len) + 2, fun fuel hf => ?_⟩, ?_⟩
  · obtain ⟨it2, t2, h2, h3⟩ := nanocbor_print_total P pretty buffer len fuel hf
    rw [parse_cbor_fuel D pretty hf h1] at h2
    obtain ⟨-, rfl⟩ := Prod.mk.inj (Option.some.inj h2)
    exact ⟨_, h3, by simp [fmt_u_eq_repr]⟩
  · intro sk fuel r hr
    unfold nanocbor_print at hr
    cases hd : dry_run (set_skip D sk) fuel ((set_skip D sk).decoder_init buffer len) with
    | none => simp [hd] at hr
    | some c0 =>
      simp only [hd, (parse_set_skip D sk pretty fuel).1] at hr
      have e : (set_skip D sk).decoder_init buffer len = D.decoder_init buffer len := rfl
      rw [e] at hr
      cases hp : _parse_cbor D pretty fuel (D.decoder_init buffer len) 0 with
      | none => simp [hp] at hr
      | some x =>
        have h4 := parse_cbor_fuel D pretty (Nat.le_max_left fuel
          (2 * size (D.decoder_init buffer len) + 2)) hp
        rw [parse_cbor_fuel D pretty (Nat.le_max_right fuel
          (2 * size (D.decoder_init buffer len) + 2)) h1] at h4
        obtain rfl := Option.some.inj h4
        simp only [hp] at hr
        obtain rfl := Option.some.inj hr
        exact ⟨rfl, by simp [fmt_u_eq_repr]⟩

/-- Witness of C1: the byte-level decoder on the encoding `18 2a` of 42. -/
theorem nanocbor_print_text_witness :
    Progress nanocbor nanocbor_value_t.left nanocbor_value_t.stop ∧
    ∃ it t,
      (∃ n, ∀ fuel, n ≤ fuel →
        _parse_cbor nanocbor false fuel (nanocbor.decoder_init [0x18, 0x2a] 2) 0 =
          some (it, t)) ∧
      (∃ n, ∀ fuel, n ≤ fuel → ∃ tr,
        nanocbor_print nanocbor fuel [0x18, 0x2a] 2 false = some (0, tr) ∧
        text tr = "Start decoding ".data ++ (Nat.repr 2).data ++ " bytes:\n".data ++
          text t ++ "\n".data) ∧
      (∀ sk fuel r, nanocbor_print (set_skip nanocbor sk) fuel [0x18, 0x2a] 2 false = some r →
        r.1 = 0 ∧
        text r.2 = "Start decoding ".data ++ (Nat.repr 2).data ++ " bytes:\n".data ++
          text t ++ "\n".data) :=
  ⟨nanocbor_progress,
    nanocbor_print_text nanocbor _ _ nanocbor_progress [0x18, 0x2a] 2 false⟩

/-! ## Failing dispatches of the walkers are marked -/

section marks

theorem Good.nil : Good [] := fun _ h => h

theorem Good.append {a b : List Ev} (ha : Good a) (hb : Good b) : Good (a ++ b) := by
  intro post h
  rw [List.append_assoc]
  exact ha _ (hb _ h)

theorem Good.out (s : String) {t : List Ev} (h : Good t) : Good (Ev.out s :: t) :=
  fun post hp => h post hp

theorem Good.ws (s : String) {t : List Ev} (h : Good t) : Good (Ev.ws s :: t) :=
  fun post hp => h post hp

theorem Good.call (s : Site) (d : Nat) {t : List Ev} (h : Good t) : Good (Ev.call s d :: t) :=
  fun post hp => h post hp

theorem Good.ret_ok (s : Site) (r : Int) (hr : s.walker = true → 0 ≤ r) {t : List Ev}
    (h : Good t) : Good (Ev.ret s r :: t) :=
  fun post hp => ⟨fun hs hlt => absurd (hr hs) (by omega), h post hp⟩

theorem Good.ret_err (s : Site) (r : Int) : Good [Ev.ret s r, Ev.out "Err\n"] :=
  fun post hp => ⟨fun _ _ => Or.inl ⟨post, rfl⟩, hp⟩

theorem Good.ret_key_err (s : Site) (r : Int) :
    Good [Ev.ret s r, Ev.out ": ", Ev.out "Err\n"] :=
  fun post hp => ⟨fun _ _ => Or.inr ⟨post, rfl⟩, hp⟩

theorem Good.marked {t : List Ev} (h : Good t) : marked t := by
  have := h [] trivial
  rwa [List.append_nil] at this

theorem good_indent (p : Bool) (d : Nat) : Good (_print_indent p d) := by
  unfold _print_indent
  split_ifs
  · induction d with
    | zero => exact Good.nil
    | succ d ih => exact Good.ws _ ih
  · exact Good.nil

theorem good_separator (p : Bool) : Good (_print_separator p) := by
  unfold _print_separator
  split_ifs
  · exact Good.ws _ Good.nil
  · exact Good.nil

theorem good_comma {σ : Type} (D : Decoder σ) (c : σ) : Good (comma D c) := by
  unfold comma
  split_ifs
  · exact Good.nil
  · exact Good.out _ Good.nil

theorem good_hex (bs : List Nat) : Good (hex_events bs) := by
  induction bs with
  | nil => exact Good.nil
  | cons b bs ih => exact Good.out _ ih

theorem good_float {σ : Type} (D : Decoder σ) (c : σ) : Good (parse_float D c).2.2 := by
  simp only [parse_float]
  split_ifs <;> first | exact Good.out _ Good.nil | exact Good.nil

variable {σ : Type} (D : Decoder σ) (p : Bool)

theorem good_parse (n : Nat) :
    (∀ c d r, _parse_cbor D p n c d = some r → Good r.2) ∧
    (∀ c d r, _parse_map D p n c d = some r → Good r.2) ∧
    (∀ c d r, _parse_type D p n c d = some r → Good r.2.2) := by
  induction n with
  | zero =>
    refine ⟨?_, ?_, ?_⟩ <;> intro c d r h
    · simp [_parse_cbor] at h
    · simp [_parse_map] at h
    · simp [_parse_type] at h
  | succ n ih =>
    obtain ⟨ihc, ihm, iht⟩ := ih
    refine ⟨?_, ?_, ?_⟩
    · intro c d r h
      rw [_parse_cbor] at h
      split_ifs at h with h1
      · obtain rfl := Option.some.inj h
        exact Good.nil
      · cases ht : _parse_type D p n c d with
        | none => simp [ht] at h
        | some x =>
          obtain ⟨res, it1, t⟩ := x
          have gt : Good t := iht _ _ _ ht
          simp only [ht] at h
          split_ifs at h with h2
          · obtain rfl := Option.some.inj h
            try simp only [List.append_assoc, List.cons_append, List.nil_append, List.append_eq]
            exact (good_indent p d).append (Good.call _ _ (gt.append (Good.ret_err _ _)))
          · cases hc : _parse_cbor D p n it1 d with
            | none => simp [hc] at h
            | some y =>
              have gy : Good y.2 := ihc _ _ _ hc
              simp only [hc] at h
              obtain rfl := Option.some.inj h
              try simp only [List.append_assoc, List.cons_append, List.nil_append, List.append_eq]
              exact (good_indent p d).append (Good.call _ _ (gt.append
                (Good.ret_ok Site.item res (fun _ => by omega)
                  ((good_comma D it1).append ((good_separator p).append gy)))))
    · intro c d r h
      rw [_parse_map] at h
      split_ifs at h with h1
      · obtain rfl := Option.some.inj h
        exact Good.nil
      · cases ht : _parse_type D p n c d with
        | none => simp [ht] at h
        | some x =>
          obtain ⟨res, it1, t⟩ := x
          have gt : Good t := iht _ _ _ ht
          simp only [ht] at h
          split_ifs at h with h2
          · obtain rfl := Option.some.inj h
            try simp only [List.append_assoc, List.cons_append, List.nil_append, List.append_eq]
            exact (good_indent p d).append (Good.call _ _ (gt.append (Good.ret_key_err _ _)))
          · cases ht2 : _parse_type D p n it1 d with
            | none => simp [ht2] at h
            | some x2 =>
              obtain ⟨res2, it2, t2⟩ := x2
              have gt2 : Good t2 := iht _ _ _ ht2
              simp only [ht2] at h
              split_ifs at h with h3
              · obtain rfl := Option.some.inj h
                try simp only [List.append_assoc, List.cons_append, List.nil_append, List.append_eq]
                exact (good_indent p d).append (Good.call _ _ (gt.append
                  (Good.ret_ok Site.key res (fun _ => by omega) (Good.out _ (Good.call _ _
                    (gt2.append (Good.ret_err _ _)))))))
              · cases hc : _parse_map D p n it2 d with
                | none => simp [hc] at h
                | some y =>
                  have gy : Good y.2 := ihm _ _ _ hc
                  simp only [hc] at h
                  obtain rfl := Option.some.inj h
                  try simp only [List.append_assoc, List.cons_append, List.nil_append, List.append_eq]
                  exact (good_indent p d).append (Good.call _ _ (gt.append
                    (Good.ret_ok Site.key res (fun _ => by omega) (Good.out _ (Good.call _ _
                      (gt2.append (Good.ret_ok Site.val res2 (fun _ => by omega)
                        ((good_comma D it2).append ((good_separator p).append gy)))))))))
    · intro c d r h
      rcases type_cases D c d with hd | ⟨hd, ht | ht | ht | ht | ht | ht | ht | ht | ht⟩
      · rw [parse_type_deep D p _ c d hd] at h
        obtain rfl := Option.some.inj h
        exact Good.nil
      · rw [parse_type_uint D p _ c d hd ht] at h
        split_ifs at h <;> obtain rfl := Option.some.inj h
        · exact Good.out _ Good.nil
        · exact Good.nil
      · rw [parse_type_nint D p _ c d hd ht] at h
        split_ifs at h <;> obtain rfl := Option.some.inj h
        · exact Good.out _ Good.nil
        · exact Good.nil
      · rw [parse_type_bstr D p _ c d hd ht] at h
        split_ifs at h
        · cases hb : (D.get_bstr c).2.1 with
          | none =>
            simp only [hb] at h
            obtain rfl := Option.some.inj h
            exact Good.nil
          | some buf =>
            simp only [hb] at h
            obtain rfl := Option.some.inj h
            try simp only [List.append_assoc, List.cons_append, List.nil_append, List.append_eq]
            exact Good.out _ ((good_hex buf).append (Good.out _ Good.nil))
        · obtain rfl := Option.some.inj h
          exact Good.nil
      · rw [parse_type_tstr D p _ c d hd ht] at h
        split_ifs at h <;> obtain rfl := Option.some.inj h
        · exact Good.out _ Good.nil
        · exact Good.nil
      · rw [parse_type_arr D p _ c d hd ht] at h
        split_ifs at h
        · cases hc : _parse_cbor D p n (D.enter_array c).2 (d + 1) with
          | none => simp [hc] at h
          | some y =>
            have gy : Good y.2 := ihc _ _ _ hc
            simp only [hc] at h
            obtain rfl := Option.some.inj h
            try simp only [List.append_assoc, List.cons_append, List.nil_append, List.append_eq]
            exact Good.out _ ((good_separator p).append (Good.call _ _ (gy.append
              (Good.ret_ok Site.arr 0 (fun _ => le_rfl)
                ((good_indent p d).append (Good.out _ Good.nil))))))
        · obtain rfl := Option.some.inj h
          exact Good.nil
      · rw [parse_type_map D p _ c d hd ht] at h
        split_ifs at h
        · cases hc : _parse_map D p n (D.enter_map c).2 (d + 1) with
          | none => simp [hc] at h
          | some y =>
            have gy : Good y.2 := ihm _ _ _ hc
            simp only [hc] at h
            obtain rfl := Option.some.inj h
            try simp only [List.append_assoc, List.cons_append, List.nil_append, List.append_eq]
            exact Good.out _ ((good_separator p).append (Good.call _ _ (gy.append
              (Good.ret_ok Site.map 0 (fun _ => le_rfl)
                ((good_indent p d).append (Good.out _ Good.nil))))))
        · obtain rfl := Option.some.inj h
          exact Good.nil
      · rw [parse_type_float D p _ c d hd ht] at h
        obtain rfl := Option.some.inj h
        exact good_float D c
      · rw [parse_type_tag D p _ c d hd ht] at h
        split_ifs at h
        · cases hc : _parse_type D p n (D.get_tag c).2.2 0 with
          | none => simp [hc] at h
          | some y =>
            have gy : Good y.2.2 := iht _ _ _ hc
            simp only [hc] at h
            obtain rfl := Option.some.inj h
            try simp only [List.append_assoc, List.cons_append, List.nil_append, List.append_eq]
            exact Good.out _ (Good.call _ _ (gy.append
              (Good.ret_ok Site.tag y.1 (fun hs => by simp [Site.walker] at hs)
                (Good.out _ Good.nil))))
        · obtain rfl := Option.some.inj h
          exact Good.nil
      · rw [parse_type_default D p _ c d hd ht] at h
        obtain rfl := Option.some.inj h
        exact Good.out _ Good.nil

end marks

section closing
variable {σ : Type} (D : Decoder σ) (p : Bool)

theorem marked_tail {e : Ev} {t : List Ev} (h : marked (e :: t)) : marked t := by
  cases e with
  | out s => exact h
  | ws s => exact h
  | call s d => exact h
  | ret s r => exact h.2

theorem infix_cons_text (e : Ev) {t : List Ev} {m : List Char} (h : m <:+: text t) :
    m <:+: text (e :: t) := by
  rw [text_cons]
  exact h.trans (List.suffix_append _ _).isInfix

/-- In a marked log, a failing return of a walker's dispatch puts `Err` into the text. -/
theorem marked_err : ∀ (t : List Ev), marked t → ∀ s r, s.walker = true → r < 0 →
    Ev.ret s r ∈ t → "Err".data <:+: text t := by
  intro t
  induction t with
  | nil => intro _ s r _ _ h; simp at h
  | cons e t ih =>
    intro hm s r hs hr hmem
    rcases List.mem_cons.mp hmem with h1 | h1
    · subst h1
      rcases hm.1 hs hr with ⟨tl, rfl⟩ | ⟨tl, rfl⟩
      · exact ⟨[], "\n".data ++ text tl, by simp⟩
      · exact ⟨": ".data, "\n".data ++ text tl, by simp⟩
    · exact infix_cons_text e (ih (marked_tail hm) s r hs hr h1)

theorem text_indent_sep_no_ret (p : Bool) (d : Nat) (s : Site) (r : Int) :
    Ev.ret s r ∉ _print_separator p ∧ Ev.ret s r ∉ _print_indent p d := by
  constructor
  · unfold _print_separator
    split_ifs <;> simp
  · unfold _print_indent
    split_ifs
    · intro h
      have := List.eq_of_mem_replicate h
      simp at this
    · simp

end closing

/-- Containers close after a failure that a walker saw: an array that is entered at depth
at most 20 is reported as a success by `_parse_type`; its text begins with `[` and ends
with `]`, and when a dispatch made by a walker (for an item, a key or a value) failed,
the text between the brackets contains `Err`.  The same holds for a map, with the two
braces.  A failing dispatch of the item wrapped by a tag is not covered: its result is
discarded by the tag case. -/
theorem container_closes_after_failure {σ : Type} (D : Decoder σ) (size bound : σ → Nat)
    (P : Progress D size bound) (p : Bool) (c : σ) (d : Nat) (hd : d ≤ MAX_DEPTH) :
    (type_of D c = NANOCBOR_TYPE_ARR → 0 ≤ (D.enter_array c).1 →
      ∃ c1 t mid,
        (∀ fuel, 2 * size c + 1 ≤ fuel → _parse_type D p fuel c d = some (1, c1, t)) ∧
        text t = '[' :: mid ++ [']'] ∧
        ((∃ s r, s.walker = true ∧ r < 0 ∧ Ev.ret s r ∈ t) → "Err".data <:+: mid)) ∧
    (type_of D c = NANOCBOR_TYPE_MAP → 0 ≤ (D.enter_map c).1 →
      ∃ c1 t mid,
        (∀ fuel, 2 * size c + 1 ≤ fuel → _parse_type D p fuel c d = some (1, c1, t)) ∧
        text t = '\x7b' :: mid ++ ['\x7d'] ∧
        ((∃ s r, s.walker = true ∧ r < 0 ∧ Ev.ret s r ∈ t) → "Err".data <:+: mid)) := by
  constructor
  · intro ht he
    obtain ⟨hb, hs⟩ := P.enter_array c he
    obtain ⟨⟨arr, t1⟩, hr, -, -⟩ :=
      parse_cbor_total P p (D.enter_array c).2 (d + 1) (2 * size c) (by omega)
    have h1 : _parse_type D p (2 * size c + 1) c d = some (1, D.leave_container c arr,
        Ev.out "[" :: _print_separator p ++ Ev.call Site.arr (d + 1) :: t1 ++
          Ev.ret Site.arr 0 :: _print_indent p d ++ [Ev.out "]"]) := by
      rw [parse_type_arr D p _ c d hd ht, if_pos he, hr]
    refine ⟨_, _, text (_print_separator p) ++ text t1 ++ text (_print_indent p d),
      fun fuel hf => parse_type_fuel D p hf h1, by simp, ?_⟩
    rintro ⟨s, r, hs, hr0, hmem⟩
    have hm : marked t1 := ((good_parse D p _).1 _ _ _ hr).marked
    have hin : Ev.ret s r ∈ t1 := by
      have h2 := text_indent_sep_no_ret p d s r
      simp only [List.mem_cons, List.mem_append, List.mem_singleton, reduceCtorEq,
        false_or, or_false, h2.1, h2.2] at hmem
      rcases hmem with (h | h) | h
      · exact h
      · obtain ⟨rfl, -⟩ := Ev.ret.inj h
        simp [Site.walker] at hs
      · simp at h
    have h3 := marked_err t1 hm s r hs hr0 hin
    exact h3.trans ⟨text (_print_separator p), text (_print_indent p d), rfl⟩
  · intro ht he
    obtain ⟨hb, hs⟩ := P.enter_map c he
    obtain ⟨⟨arr, t1⟩, hr, -, -⟩ :=
      parse_map_total P p (D.enter_map c).2 (d + 1) (2 * size c) (by omega)
    have h1 : _parse_type D p (2 * size c + 1) c d = some (1, D.leave_container c arr,
        Ev.out "\x7b" :: _print_separator p ++ Ev.call Site.map (d + 1) :: t1 ++
          Ev.ret Site.map 0 :: _print_indent p d ++ [Ev.out "\x7d"]) := by
      rw [parse_type_map D p _ c d hd ht, if_pos he, hr]
    refine ⟨_, _, text (_print_separator p) ++ text t1 ++ text (_print_indent p d),
      fun fuel hf => parse_type_fuel D p hf h1, by simp, ?_⟩
    rintro ⟨s, r, hs, hr0, hmem⟩
    have hm : marked t1 := ((good_parse D p _).2.1 _ _ _ hr).marked
    have hin : Ev.ret s r ∈ t1 := by
      have h2 := text_indent_sep_no_ret p d s r
      simp only [List.mem_cons, List.mem_append, List.mem_singleton, reduceCtorEq,
        false_or, or_false, h2.1, h2.2] at hmem
      rcases hmem with (h | h) | h
      · exact h
      · obtain ⟨rfl, -⟩ := Ev.ret.inj h
        simp [Site.walker] at hs
      · simp at h
    have h3 := marked_err t1 hm s r hs hr0 hin
    exact h3.trans ⟨text (_print_separator p), text (_print_indent p d), rfl⟩

set_option maxRecDepth 100000 in
/-- The array `82 01 18`, whose second item is truncated: the dispatch made by the walker
for that item returns -1, the array returns 1 and `Err` stands between the brackets. -/
theorem container_closes_after_failure_witness :
    ∃ c1 t mid,
      _parse_type nanocbor false 8 (nanocbor.decoder_init [0x82, 0x01, 0x18] 3) 0 =
        some (1, c1, t) ∧
      text t = '[' :: mid ++ [']'] ∧ Ev.ret Site.item (-1) ∈ t ∧ "Err".data <:+: mid := by
  obtain ⟨c1, t, mid, hrun, htext, himp⟩ :=
    (container_closes_after_failure nanocbor _ _ nanocbor_progress false
      (nanocbor.decoder_init [0x82, 0x01, 0x18] 3) 0 (by decide)).1 (by decide) (by decide)
  have h8 := hrun 8 (by decide)
  have hev : (_parse_type nanocbor false 8 (nanocbor.decoder_init [0x82, 0x01, 0x18] 3) 0).map
      (fun r => decide (Ev.ret Site.item (-1) ∈ r.2.2)) = some true := by decide
  rw [h8] at hev
  have hin : Ev.ret Site.item (-1) ∈ t := by simpa using hev
  exact ⟨c1, t, mid, h8, htext, hin, himp ⟨Site.item, -1, rfl, by decide, hin⟩⟩

set_option maxRecDepth 100000 in
/-- C2 (evaluation at the failing input `81 c1`, an array whose one item is tag 1 with the
wrapped item missing, and at the map `a1 01 c1`, whose value is that tag): the container
is of the array (map) type and is entered with success at depth 0, the dispatch of the
item wrapped by the tag returns -1, and `_parse_type` returns 1 for the container with
the text `[1(Unsupported type\n)]` (for the map `\x7b1: 1(Unsupported type\n)\x7d`):
the brackets are there, the marker `Err` is not. -/
theorem container_wrapped_failure_no_err :
    (type_of nanocbor (nanocbor.decoder_init [0x81, 0xc1] 2) = NANOCBOR_TYPE_ARR ∧
      0 ≤ (nanocbor.enter_array (nanocbor.decoder_init [0x81, 0xc1] 2)).1 ∧
      (_parse_type nanocbor false 4 (nanocbor.decoder_init [0x81, 0xc1] 2) 0).map
          (fun r => (r.1, r.2.2)) =
        some (1, [Ev.out "[", Ev.call Site.arr 1, Ev.call Site.item 1, Ev.out "1(",
          Ev.call Site.tag 0, Ev.out "Unsupported type\n", Ev.ret Site.tag (-1), Ev.out ")",
          Ev.ret Site.item 1, Ev.ret Site.arr 0, Ev.out "]"]) ∧
      (_parse_type nanocbor false 4 (nanocbor.decoder_init [0x81, 0xc1] 2) 0).map
          (fun r => text r.2.2) = some "[1(Unsupported type\n)]".data ∧
      ¬ "Err".data <:+: "[1(Unsupported type\n)]".data) ∧
    (type_of nanocbor (nanocbor.decoder_init [0xa1, 0x01, 0xc1] 3) = NANOCBOR_TYPE_MAP ∧
      0 ≤ (nanocbor.enter_map (nanocbor.decoder_init [0xa1, 0x01, 0xc1] 3)).1 ∧
      (_parse_type nanocbor false 4 (nanocbor.decoder_init [0xa1, 0x01, 0xc1] 3) 0).map
          (fun r => (r.1, r.2.2)) =
        some (1, [Ev.out "\x7b", Ev.call Site.map 1, Ev.call Site.key 1, Ev.out "1",
          Ev.ret Site.key 1, Ev.out ": ", Ev.call Site.val 1, Ev.out "1(",
          Ev.call Site.tag 0, Ev.out "Unsupported type\n", Ev.ret Site.tag (-1), Ev.out ")",
          Ev.ret Site.val 1, Ev.ret Site.map 0, Ev.out "\x7d"]) ∧
      (_parse_type nanocbor false 4 (nanocbor.decoder_init [0xa1, 0x01, 0xc1] 3) 0).map
          (fun r => text r.2.2) = some "\x7b1: 1(Unsupported type\n)\x7d".data ∧
      ¬ "Err".data <:+: "\x7b1: 1(Unsupported type\n)\x7d".data) ∧
    (nanocbor_print nanocbor 10 [0x81, 0xc1] 2 false).map (fun r => (r.1, text r.2)) =
      some (0, "Start decoding 2 bytes:\n[1(Unsupported type\n)]\n".data) := by
  refine ⟨⟨by decide, by decide, by decide, by decide, by decide⟩,
    ⟨by decide, by decide, by decide, by decide, by decide⟩, by decide⟩

/-- C3 (evaluation at the failing input `c1 18`, tag 1 wrapping a truncated integer): the
dispatch of the wrapped item returns -1 and the next event is the text `)`; the only
marker in the output belongs to the later, failing call made by the walker. -/
theorem tag_item_failure_unmarked :
    nanocbor_print nanocbor 8 [0xc1, 0x18] 2 false =
      some (0, [Ev.out "Start decoding 2 bytes:\n", Ev.call Site.top 0,
        Ev.call Site.item 0, Ev.out "1(", Ev.call Site.tag 0, Ev.ret Site.tag (-1),
        Ev.out ")", Ev.ret Site.item 1, Ev.out ", ",
        Ev.call Site.item 0, Ev.ret Site.item (-1), Ev.out "Err\n",
        Ev.ret Site.top 0, Ev.out "\n"]) := by
  decide

/-- C4: under the progress laws of the decoder, `nanocbor_print` returns for every
buffer, length and pretty flag; the three mutually recursive routines return on every
cursor at every depth and the dry-run loop returns on every cursor, with fuel linear in
the input left; and a dispatch that does not fail (so that the loop of the walker goes
on) leaves strictly less input behind the cursor, as does a successful `skip`. -/
theorem nanocbor_print_terminates {σ : Type} (D : Decoder σ) (size bound : σ → Nat)
    (P : Progress D size bound) :
    (∀ buffer len pretty, ∀ fuel, 2 * size (D.decoder_init buffer len) + 2 ≤ fuel →
      ∃ r, nanocbor_print D fuel buffer len pretty = some r) ∧
    (∀ pretty c d fuel, 2 * size c + 2 ≤ fuel →
      (∃ r, _parse_cbor D pretty fuel c d = some r) ∧
      (∃ r, _parse_map D pretty fuel c d = some r) ∧
      (∃ r, _parse_type D pretty fuel c d = some r)) ∧
    (∀ c fuel, size c < fuel → ∃ r, dry_run D fuel c = some r) ∧
    (∀ pretty fuel c d res c1 t, _parse_type D pretty fuel c d = some (res, c1, t) →
      0 ≤ res → size c1 < size c) ∧
    (∀ c, 0 ≤ (D.skip c).1 → size (D.skip c).2 < size c) := by
  refine ⟨?_, ?_, ?_, ?_, ?_⟩
  · intro buffer len pretty fuel hf
    obtain ⟨it, t, -, h⟩ := nanocbor_print_total P pretty buffer len fuel hf
    exact ⟨_, h⟩
  · intro pretty c d fuel hf
    obtain ⟨r1, h1, -⟩ := parse_cbor_total P pretty c d fuel hf
    obtain ⟨r2, h2, -⟩ := parse_map_total P pretty c d fuel hf
    obtain ⟨r3, h3, -⟩ := parse_type_total P pretty c d fuel (by omega)
    exact ⟨⟨r1, h1⟩, ⟨r2, h2⟩, ⟨r3, h3⟩⟩
  · intro c fuel hf
    exact dry_run_total P fuel c hf
  · intro pretty fuel c d res c1 t h hres
    obtain ⟨r, hr, hfw⟩ := parse_type_total P pretty c d (max fuel (2 * size c + 1))
      (Nat.le_max_right _ _)
    rw [parse_type_fuel D pretty (Nat.le_max_left _ _) h] at hr
    obtain rfl := Option.some.inj hr
    exact hfw.size_lt hres
  · intro c h
    exact (P.skip c).size_lt h

/-- Witness of C4: the byte-level decoder on the array `82 01 02`, with fuel 8. -/
theorem nanocbor_print_terminates_witness :
    Progress nanocbor nanocbor_value_t.left nanocbor_value_t.stop ∧
    2 * (nanocbor.decoder_init [0x82, 0x01, 0x02] 3).left + 2 ≤ 8 ∧
    ∃ r, nanocbor_print nanocbor 8 [0x82, 0x01, 0x02] 3 false = some r :=
  ⟨nanocbor_progress, by decide,
    (nanocbor_print_terminates nanocbor _ _ nanocbor_progress).1 [0x82, 0x01, 0x02] 3 false 8
      (by decide)⟩

/-- C6: at a depth greater than 20 `_parse_type` returns -2, writes nothing and leaves
the cursor where it was; at a depth of at most 20 it never returns -2 (it returns 1, or
-1 on a failure); and at depth exactly 20 the item is dispatched as at any other depth:
an item that is no container gives the same result as at depth 0, and an array or map
that can be entered is entered and reported as a success. -/
theorem depth_guard {σ : Type} (D : Decoder σ) (p : Bool) (c : σ) :
    (∀ fuel d, MAX_DEPTH < d → _parse_type D p (fuel + 1) c d = some (-2, c, [])) ∧
    (∀ fuel d res c1 t, d ≤ MAX_DEPTH → _parse_type D p fuel c d = some (res, c1, t) →
      res = 1 ∨ res = -1) ∧
    (∀ fuel, type_of D c ≠ NANOCBOR_TYPE_ARR → type_of D c ≠ NANOCBOR_TYPE_MAP →
      _parse_type D p fuel c MAX_DEPTH = _parse_type D p fuel c 0) ∧
    (∀ fuel res c1 t, _parse_type D p fuel c MAX_DEPTH = some (res, c1, t) →
      (type_of D c = NANOCBOR_TYPE_ARR ∧ 0 ≤ (D.enter_array c).1 ∨
       type_of D c = NANOCBOR_TYPE_MAP ∧ 0 ≤ (D.enter_map c).1) →
      res = 1 ∧ ∃ a, c1 = D.leave_container c a) := by
  refine ⟨fun fuel d hd => parse_type_deep D p fuel c d hd, ?_, ?_, ?_⟩
  · intro fuel d res c1 t hd h
    cases fuel with
    | zero => simp [_parse_type] at h
    | succ n =>
      rcases type_cases D c d with hd1 | ⟨-, ht | ht | ht | ht | ht | ht | ht | ht | ht⟩
      · omega
      · rw [parse_type_uint D p _ c d hd ht] at h
        split_ifs at h <;> simp at h <;> omega
      · rw [parse_type_nint D p _ c d hd ht] at h
        split_ifs at h <;> simp at h <;> omega
      · rw [parse_type_bstr D p _ c d hd ht] at h
        split_ifs at h
        · cases hb : (D.get_bstr c).2.1 <;> simp [hb] at h <;> omega
        · simp at h; omega
      · rw [parse_type_tstr D p _ c d hd ht] at h
        split_ifs at h <;> simp at h <;> omega
      · rw [parse_type_arr D p _ c d hd ht] at h
        split_ifs at h
        · cases hc : _parse_cbor D p n (D.enter_array c).2 (d + 1) <;> simp [hc] at h
          omega
        · simp at h; omega
      · rw [parse_type_map D p _ c d hd ht] at h
        split_ifs at h
        · cases hc : _parse_map D p n (D.enter_map c).2 (d + 1) <;> simp [hc] at h
          omega
        · simp at h; omega
      · rw [parse_type_float D p _ c d hd ht] at h
        have h1 : (parse_float D c).1 = res := by rw [Option.some.inj h]
        rw [← h1]
        simp only [parse_float]
        split_ifs <;> simp
      · rw [parse_type_tag D p _ c d hd ht] at h
        split_ifs at h
        · cases hc : _parse_type D p n (D.get_tag c).2.2 0 <;> simp [hc] at h
          omega
        · simp at h; omega
      · rw [parse_type_default D p _ c d hd ht] at h
        simp at h; omega
  · intro fuel h4 h5
    cases fuel with
    | zero => rfl
    | succ n =>
      have h0 : (0 : Nat) ≤ MAX_DEPTH := by decide
      rcases type_cases D c 0 with hd1 | ⟨-, ht | ht | ht | ht | ht | ht | ht | ht | ht⟩
      · exact absurd hd1 (by decide)
      · rw [parse_type_uint D p _ c _ le_rfl ht, parse_type_uint D p _ c _ h0 ht]
      · rw [parse_type_nint D p _ c _ le_rfl ht, parse_type_nint D p _ c _ h0 ht]
      · rw [parse_type_bstr D p _ c _ le_rfl ht, parse_type_bstr D p _ c _ h0 ht]
      · rw [parse_type_tstr D p _ c _ le_rfl ht, parse_type_tstr D p _ c _ h0 ht]
      · exact absurd ht h4
      · exact absurd ht h5
      · rw [parse_type_float D p _ c _ le_rfl ht, parse_type_float D p _ c _ h0 ht]
      · rw [parse_type_tag D p _ c _ le_rfl ht, parse_type_tag D p _ c _ h0 ht]
      · rw [parse_type_default D p _ c _ le_rfl ht, parse_type_default D p _ c _ h0 ht]
  · intro fuel res c1 t h hc
    cases fuel with
    | zero => simp [_parse_type] at h
    | succ n =>
      rcases hc with ⟨ht, he⟩ | ⟨ht, he⟩
      · rw [parse_type_arr D p _ c _ le_rfl ht, if_pos he] at h
        cases hc : _parse_cbor D p n (D.enter_array c).2 (MAX_DEPTH + 1) with
        | none => simp [hc] at h
        | some y =>
          simp only [hc, Option.some.injEq, Prod.mk.injEq] at h
          exact ⟨h.1.symm, _, h.2.1.symm⟩
      · rw [parse_type_map D p _ c _ le_rfl ht, if_pos he] at h
        cases hc : _parse_map D p n (D.enter_map c).2 (MAX_DEPTH + 1) with
        | none => simp [hc] at h
        | some y =>
          simp only [hc, Option.some.injEq, Prod.mk.injEq] at h
          exact ⟨h.1.symm, _, h.2.1.symm⟩

/-- Witness of C6: depth 21 on the one-byte input `01`. -/
theorem depth_guard_witness :
    MAX_DEPTH < 21 ∧
    _parse_type nanocbor false 1 (nanocbor.decoder_init [0x01] 1) 21 =
      some (-2, nanocbor.decoder_init [0x01] 1, []) :=
  ⟨by decide, (depth_guard nanocbor false (nanocbor.decoder_init [0x01] 1)).1 0 21 (by decide)⟩

/-! ## Integers and byte strings -/

section hex

theorem hex_digit_val (k : Nat) (h : k < 16) : hex_val (hex_digit k) = k := by
  interval_cases k <;> rfl

theorem hex_digit_mem (k : Nat) (h : k < 16) : hex_digit k ∈ "0123456789abcdef".data := by
  interval_cases k <;> decide

theorem text_hex_events (bs : List Nat) : text (hex_events bs) = bs.flatMap fmt_x2 := by
  induction bs with
  | nil => rfl
  | cons b bs ih => simp [hex_events, ih, List.flatMap_cons]

theorem hex_decode_flatMap (bs : List Nat) :
    hex_decode (bs.flatMap fmt_x2) = bs.map (fun b => b % 256) := by
  induction bs with
  | nil => rfl
  | cons b bs ih =>
    have h1 : b % 256 / 16 < 16 := by omega
    have h2 : b % 256 % 16 < 16 := by omega
    simp only [List.flatMap_cons, fmt_x2, List.cons_append, List.nil_append, hex_decode,
      List.map_cons, ih, hex_digit_val _ h1, hex_digit_val _ h2]
    congr 1
    omega

theorem length_flatMap_hex (bs : List Nat) : (bs.flatMap fmt_x2).length = 2 * bs.length := by
  induction bs with
  | nil => rfl
  | cons b bs ih =>
    simp only [List.flatMap_cons, List.length_append, ih, fmt_x2, List.length_cons,
      List.length_nil]
    omega

theorem mem_flatMap_hex (bs : List Nat) :
    ∀ ch ∈ bs.flatMap fmt_x2, ch ∈ "0123456789abcdef".data := by
  intro ch h
  obtain ⟨b, -, hb⟩ := List.mem_flatMap.mp h
  simp only [fmt_x2, List.mem_cons, List.mem_singleton, List.not_mem_nil, or_false] at hb
  rcases hb with rfl | rfl
  · exact hex_digit_mem _ (by omega)
  · exact hex_digit_mem _ (by omega)

end hex

/-- C9: when the item at the cursor has type unsigned-int and the 64-bit extraction
succeeds with value `v < 2^64`, `_parse_type` at depth at most 20 returns 1 and writes
exactly the decimal representation of `v`: digits only (no sign), denoting `v`, with no
leading zero (the text is `0` for `v = 0` and does not begin with `0` otherwise). -/
theorem uint_decimal {σ : Type} (D : Decoder σ) (p : Bool) (fuel : Nat) (c : σ) (d v : Nat)
    (hd : d ≤ MAX_DEPTH) (ht : type_of D c = NANOCBOR_TYPE_UINT)
    (hs : 0 ≤ (D.get_uint64 c).1) (hv : (D.get_uint64 c).2.1 = v) (hlt : v < 2 ^ 64) :
    ∃ t, _parse_type D p (fuel + 1) c d = some (1, (D.get_uint64 c).2.2, t) ∧
      text t = (Nat.repr v).data ∧
      dec_value (text t) = v ∧
      (∀ ch ∈ text t, ch.isDigit = true) ∧
      (v = 0 → text t = ['0']) ∧
      (∃ ch rest, text t = ch :: rest ∧ (ch = '0' → v = 0)) := by
  refine ⟨_, by rw [parse_type_uint D p _ c d hd ht, if_pos hs], ?_⟩
  have e : text [Ev.out (String.mk (fmt_u64 (D.get_uint64 c).2.1))] = fmt_u v := by
    have h64 : v % 2 ^ 64 = v := Nat.mod_eq_of_lt hlt
    simp only [fmt_u64, hv, h64, text_cons, chars_out, text_nil, List.append_nil]
  rw [e]
  refine ⟨fmt_u_eq_repr v, dec_value_fmt_u v, fmt_u_digits v, ?_, fmt_u_head v⟩
  rintro rfl
  rfl

/-- Witness of C9: the encoding `18 2a` of 42 gives the text `42`. -/
theorem uint_decimal_witness :
    (0 : Nat) ≤ MAX_DEPTH ∧
    type_of nanocbor (nanocbor.decoder_init [0x18, 0x2a] 2) = NANOCBOR_TYPE_UINT ∧
    0 ≤ (nanocbor.get_uint64 (nanocbor.decoder_init [0x18, 0x2a] 2)).1 ∧
    (nanocbor.get_uint64 (nanocbor.decoder_init [0x18, 0x2a] 2)).2.1 = 42 ∧
    42 < 2 ^ 64 ∧
    ∃ t, _parse_type nanocbor false 1 (nanocbor.decoder_init [0x18, 0x2a] 2) 0 =
        some (1, (nanocbor.get_uint64 (nanocbor.decoder_init [0x18, 0x2a] 2)).2.2, t) ∧
      text t = (Nat.repr 42).data ∧
      dec_value (text t) = 42 ∧
      (∀ ch ∈ text t, ch.isDigit = true) ∧
      (42 = 0 → text t = ['0']) ∧
      (∃ ch rest, text t = ch :: rest ∧ (ch = '0' → 42 = 0)) :=
  ⟨by decide, by decide, by decide, by decide, by decide,
    uint_decimal nanocbor false 0 (nanocbor.decoder_init [0x18, 0x2a] 2) 0 42
      (by decide) (by decide) (by decide) (by decide) (by decide)⟩

/-- C10: when the item at the cursor is a byte string and the extraction succeeds with
the `L` bytes `bytes` (for every `L`, zero included), `_parse_type` at depth at most 20
returns 1 and writes exactly `h`, an apostrophe, `2 L` lowercase hexadecimal characters
and an apostrophe; the characters are two digits per byte, in byte order. -/
theorem bstr_hex {σ : Type} (D : Decoder σ) (p : Bool) (fuel : Nat) (c : σ) (d : Nat)
    (bytes : List Nat) (hd : d ≤ MAX_DEPTH) (ht : type_of D c = NANOCBOR_TYPE_BSTR)
    (hs : 0 ≤ (D.get_bstr c).1) (hb : (D.get_bstr c).2.1 = some bytes) :
    ∃ t hex, _parse_type D p (fuel + 1) c d = some (1, (D.get_bstr c).2.2, t) ∧
      text t = "h\x27".data ++ hex ++ "\x27".data ∧
      hex.length = 2 * bytes.length ∧
      (∀ ch ∈ hex, ch ∈ "0123456789abcdef".data) ∧
      hex_decode hex = bytes.map (fun b => b % 256) := by
  refine ⟨_, bytes.flatMap fmt_x2,
    by rw [parse_type_bstr D p _ c d hd ht, if_pos hs, hb], ?_, length_flatMap_hex bytes,
    mem_flatMap_hex bytes, hex_decode_flatMap bytes⟩
  simp [text_hex_events]

/-- Witness of C10: the byte string `42 de ad` gives the text `h'dead'`, and the empty
byte string `40` gives `h''`. -/
theorem bstr_hex_witness :
    ((0 : Nat) ≤ MAX_DEPTH ∧
    type_of nanocbor (nanocbor.decoder_init [0x42, 0xde, 0xad] 3) = NANOCBOR_TYPE_BSTR ∧
    0 ≤ (nanocbor.get_bstr (nanocbor.decoder_init [0x42, 0xde, 0xad] 3)).1 ∧
    (nanocbor.get_bstr (nanocbor.decoder_init [0x42, 0xde, 0xad] 3)).2.1 = some [0xde, 0xad] ∧
    ∃ t hex, _parse_type nanocbor false 1 (nanocbor.decoder_init [0x42, 0xde, 0xad] 3) 0 =
        some (1, (nanocbor.get_bstr (nanocbor.decoder_init [0x42, 0xde, 0xad] 3)).2.2, t) ∧
      text t = "h\x27".data ++ hex ++ "\x27".data ∧
      hex.length = 2 * [0xde, 0xad].length ∧
      (∀ ch ∈ hex, ch ∈ "0123456789abcdef".data) ∧
      hex_decode hex = [0xde, 0xad].map (fun b => b % 256)) ∧
    (type_of nanocbor (nanocbor.decoder_init [0x40] 1) = NANOCBOR_TYPE_BSTR ∧
    0 ≤ (nanocbor.get_bstr (nanocbor.decoder_init [0x40] 1)).1 ∧
    (nanocbor.get_bstr (nanocbor.decoder_init [0x40] 1)).2.1 = some [] ∧
    ∃ t hex, _parse_type nanocbor false 1 (nanocbor.decoder_init [0x40] 1) 0 =
        some (1, (nanocbor.get_bstr (nanocbor.decoder_init [0x40] 1)).2.2, t) ∧
      text t = "h\x27".data ++ hex ++ "\x27".data ∧
      hex.length = 2 * ([] : List Nat).length ∧
      (∀ ch ∈ hex, ch ∈ "0123456789abcdef".data) ∧
      hex_decode hex = ([] : List Nat).map (fun b => b % 256)) :=
  ⟨⟨by decide, by decide, by decide, by decide,
    bstr_hex nanocbor false 0 (nanocbor.decoder_init [0x42, 0xde, 0xad] 3) 0 [0xde, 0xad]
      (by decide) (by decide) (by decide) (by decide)⟩,
   ⟨by decide, by decide, by decide,
    bstr_hex nanocbor false 0 (nanocbor.decoder_init [0x40] 1) 0 []
      (by decide) (by decide) (by decide) (by decide)⟩⟩

set_option maxRecDepth 100000 in
/-- C5 (evaluation at the failing input): the integer 1 enclosed by 21 nested arrays is
not rendered inside them, the innermost walker writes `Err` (the walker at the top
level then dispatches the bytes that were left); with every array wrapped by a tag, the
integer enclosed by the same 21 arrays is rendered inside them and no `Err` is
written. -/
theorem tagged_nesting_rendered :
    (nanocbor_print nanocbor 100 (nested_arrays 21) 22 false).map (fun r => text r.2) =
      some ("Start decoding 22 bytes:\n".data ++ List.replicate 21 '[' ++ "Err\n".data ++
        List.replicate 21 ']' ++ ", 1\n".data) ∧
    (nanocbor_print nanocbor 100 (nested_tagged_arrays 21) 43 false).map
        (fun r => text r.2) =
      some ("Start decoding 43 bytes:\n".data ++ (List.replicate 21 "1([".data).flatten ++
        "1".data ++ (List.replicate 21 "])".data).flatten ++ "\n".data) := by
  constructor <;> decide

/-! ## Depth arguments along the call chains -/

section chain

theorem quiet_nil : quiet [] := fun _ h => absurd h (List.not_mem_nil _)

theorem quiet_out (s : String) {t : List Ev} (h : quiet t) : quiet (Ev.out s :: t) := by
  intro e he
  rcases List.mem_cons.mp he with rfl | h1
  · exact ⟨s, Or.inl rfl⟩
  · exact h e h1

theorem quiet_ws (s : String) {t : List Ev} (h : quiet t) : quiet (Ev.ws s :: t) := by
  intro e he
  rcases List.mem_cons.mp he with rfl | h1
  · exact ⟨s, Or.inr rfl⟩
  · exact h e h1

theorem quiet_append {a b : List Ev} (ha : quiet a) (hb : quiet b) : quiet (a ++ b) := by
  intro e he
  rcases List.mem_append.mp he with h | h
  · exact ha e h
  · exact hb e h

theorem quiet_indent (p : Bool) (d : Nat) : quiet (_print_indent p d) := by
  unfold _print_indent
  split_ifs
  · intro e he
    exact ⟨"  ", Or.inr (List.eq_of_mem_replicate he)⟩
  · exact quiet_nil

theorem quiet_separator (p : Bool) : quiet (_print_separator p) := by
  unfold _print_separator
  split_ifs
  · exact quiet_ws _ quiet_nil
  · exact quiet_nil

theorem quiet_comma {σ : Type} (D : Decoder σ) (c : σ) : quiet (comma D c) := by
  unfold comma
  split_ifs
  · exact quiet_nil
  · exact quiet_out _ quiet_nil

theorem quiet_hex (bs : List Nat) : quiet (hex_events bs) := by
  induction bs with
  | nil => exact quiet_nil
  | cons b bs ih => exact quiet_out _ ih

theorem quiet_float {σ : Type} (D : Decoder σ) (c : σ) : quiet (parse_float D c).2.2 := by
  simp only [parse_float]
  split_ifs <;> first | exact quiet_out _ quiet_nil | exact quiet_nil

theorem Chained.empty (d : Nat) : Chained d [] := fun _ _ => rfl

theorem Chained.concat {d : Nat} {a b : List Ev} (ha : Chained d a) (hb : Chained d b) :
    Chained d (a ++ b) := by
  intro st post
  rw [List.append_assoc, ha, hb]

theorem Chained.text_out {d : Nat} (s : String) {t : List Ev} (h : Chained d t) :
    Chained d (Ev.out s :: t) := fun st post => h st post

theorem Chained.text_ws {d : Nat} (s : String) {t : List Ev} (h : Chained d t) :
    Chained d (Ev.ws s :: t) := fun st post => h st post

theorem Chained.quiet {d : Nat} : ∀ {t : List Ev}, quiet t → Chained d t
  | [], _ => Chained.empty d
  | e :: t, h => by
    have ht : Chained d t := Chained.quiet (fun e he => h e (List.mem_cons_of_mem _ he))
    obtain ⟨s, rfl | rfl⟩ := h e (List.mem_cons_self _ _)
    · exact ht.text_out s
    · exact ht.text_ws s

/-- A call with depth `d1`, its events, its return, and what the caller does next. -/
theorem Chained.sub_call {d d1 : Nat} (s : Site) (r : Int) {t rest : List Ev} (h1 : d1 ≤ 21)
    (hm : d ≤ d1 ∨ s = Site.tag) (ht : Chained d1 t) (hrest : Chained d rest) :
    Chained d (Ev.call s d1 :: (t ++ Ev.ret s r :: rest)) := by
  intro st post
  have e1 : (decide (d1 ≤ 21) && (decide ((d :: st).headD 0 ≤ d1) ||
      (!false && decide (s = Site.tag)))) = true := by
    rcases hm with h | h <;> simp [h1, h]
  have e2 : (Ev.call s d1 :: (t ++ Ev.ret s r :: rest)) ++ post =
      Ev.call s d1 :: (t ++ Ev.ret s r :: (rest ++ post)) := by simp
  rw [e2]
  simp only [chain_ok, e1, Bool.true_and]
  rw [ht (d :: st) (Ev.ret s r :: (rest ++ post))]
  simp only [chain_ok, List.tail_cons]
  exact hrest st post

end chain

section chain2
variable {σ : Type} (D : Decoder σ) (p : Bool)

theorem chained_parse (n : Nat) :
    (∀ c d r, _parse_cbor D p n c d = some r → d ≤ MAX_DEPTH + 1 → Chained d r.2) ∧
    (∀ c d r, _parse_map D p n c d = some r → d ≤ MAX_DEPTH + 1 → Chained d r.2) ∧
    (∀ c d r, _parse_type D p n c d = some r → Chained d r.2.2) := by
  induction n with
  | zero =>
    refine ⟨?_, ?_, ?_⟩ <;> intro c d r h
    · simp [_parse_cbor] at h
    · simp [_parse_map] at h
    · simp [_parse_type] at h
  | succ n ih =>
    obtain ⟨ihc, ihm, iht⟩ := ih
    refine ⟨?_, ?_, ?_⟩
    · intro c d r h hd
      have hd1 : d ≤ 21 := hd
      rw [_parse_cbor] at h
      split_ifs at h with h1
      · obtain rfl := Option.some.inj h
        exact Chained.empty d
      · cases ht : _parse_type D p n c d with
        | none => simp [ht] at h
        | some x =>
          obtain ⟨res, it1, t⟩ := x
          have gt : Chained d t := iht _ _ _ ht
          simp only [ht] at h
          split_ifs at h with h2
          · obtain rfl := Option.some.inj h
            try simp only [List.append_assoc, List.cons_append, List.nil_append, List.append_eq]
            exact (Chained.quiet (quiet_indent p d)).concat
              (Chained.sub_call Site.item res hd1 (Or.inl le_rfl) gt
                (Chained.text_out _ (Chained.empty d)))
          · cases hc : _parse_cbor D p n it1 d with
            | none => simp [hc] at h
            | some y =>
              have gy : Chained d y.2 := ihc _ _ _ hc hd
              simp only [hc] at h
              obtain rfl := Option.some.inj h
              try simp only [List.append_assoc, List.cons_append, List.nil_append, List.append_eq]
              exact (Chained.quiet (quiet_indent p d)).concat
                (Chained.sub_call Site.item res hd1 (Or.inl le_rfl) gt
                  ((Chained.quiet (quiet_comma D it1)).concat
                    ((Chained.quiet (quiet_separator p)).concat gy)))
    · intro c d r h hd
      have hd1 : d ≤ 21 := hd
      rw [_parse_map] at h
      split_ifs at h with h1
      · obtain rfl := Option.some.inj h
        exact Chained.empty d
      · cases ht : _parse_type D p n c d with
        | none => simp [ht] at h
        | some x =>
          obtain ⟨res, it1, t⟩ := x
          have gt : Chained d t := iht _ _ _ ht
          simp only [ht] at h
          split_ifs at h with h2
          · obtain rfl := Option.some.inj h
            try simp only [List.append_assoc, List.cons_append, List.nil_append, List.append_eq]
            exact (Chained.quiet (quiet_indent p d)).concat
              (Chained.sub_call Site.key res hd1 (Or.inl le_rfl) gt
                (Chained.text_out _ (Chained.text_out _ (Chained.empty d))))
          · cases ht2 : _parse_type D p n it1 d with
            | none => simp [ht2] at h
            | some x2 =>
              obtain ⟨res2, it2, t2⟩ := x2
              have gt2 : Chained d t2 := iht _ _ _ ht2
              simp only [ht2] at h
              split_ifs at h with h3
              · obtain rfl := Option.some.inj h
                try simp only [List.append_assoc, List.cons_append, List.nil_append, List.append_eq]
                exact (Chained.quiet (quiet_indent p d)).concat
                  (Chained.sub_call Site.key res hd1 (Or.inl le_rfl) gt
                    (Chained.text_out _ (Chained.sub_call Site.val res2 hd1 (Or.inl le_rfl) gt2
                      (Chained.text_out _ (Chained.empty d)))))
              · cases hc : _parse_map D p n it2 d with
                | none => simp [hc] at h
                | some y =>
                  have gy : Chained d y.2 := ihm _ _ _ hc hd
                  simp only [hc] at h
                  obtain rfl := Option.some.inj h
                  try simp only [List.append_assoc, List.cons_append, List.nil_append, List.append_eq]
                  exact (Chained.quiet (quiet_indent p d)).concat
                    (Chained.sub_call Site.key res hd1 (Or.inl le_rfl) gt
                      (Chained.text_out _ (Chained.sub_call Site.val res2 hd1 (Or.inl le_rfl) gt2
                        ((Chained.quiet (quiet_comma D it2)).concat
                          ((Chained.quiet (quiet_separator p)).concat gy)))))
    · intro c d r h
      rcases type_cases D c d with hd | ⟨hd, ht | ht | ht | ht | ht | ht | ht | ht | ht⟩
      · rw [parse_type_deep D p _ c d hd] at h
        obtain rfl := Option.some.inj h
        exact Chained.empty d
      · rw [parse_type_uint D p _ c d hd ht] at h
        split_ifs at h <;> obtain rfl := Option.some.inj h
        · exact Chained.text_out _ (Chained.empty d)
        · exact Chained.empty d
      · rw [parse_type_nint D p _ c d hd ht] at h
        split_ifs at h <;> obtain rfl := Option.some.inj h
        · exact Chained.text_out _ (Chained.empty d)
        · exact Chained.empty d
      · rw [parse_type_bstr D p _ c d hd ht] at h
        split_ifs at h
        · cases hb : (D.get_bstr c).2.1 with
          | none =>
            simp only [hb] at h
            obtain rfl := Option.some.inj h
            exact Chained.empty d
          | some buf =>
            simp only [hb] at h
            obtain rfl := Option.some.inj h
            try simp only [List.append_assoc, List.cons_append, List.nil_append, List.append_eq]
            exact Chained.text_out _ ((Chained.quiet (quiet_hex buf)).concat
              (Chained.text_out _ (Chained.empty d)))
        · obtain rfl := Option.some.inj h
          exact Chained.empty d
      · rw [parse_type_tstr D p _ c d hd ht] at h
        split_ifs at h <;> obtain rfl := Option.some.inj h
        · exact Chained.text_out _ (Chained.empty d)
        · exact Chained.empty d
      · rw [parse_type_arr D p _ c d hd ht] at h
        split_ifs at h
        · cases hc : _parse_cbor D p n (D.enter_array c).2 (d + 1) with
          | none => simp [hc] at h
          | some y =>
            have gy : Chained (d + 1) y.2 := ihc _ _ _ hc (Nat.succ_le_succ hd)
            simp only [hc] at h
            obtain rfl := Option.some.inj h
            try simp only [List.append_assoc, List.cons_append, List.nil_append, List.append_eq]
            exact Chained.text_out _ ((Chained.quiet (quiet_separator p)).concat
              (Chained.sub_call Site.arr 0 (Nat.succ_le_succ hd) (Or.inl (Nat.le_succ d)) gy
                ((Chained.quiet (quiet_indent p d)).concat (Chained.text_out _ (Chained.empty d)))))
        · obtain rfl := Option.some.inj h
          exact Chained.empty d
      · rw [parse_type_map D p _ c d hd ht] at h
        split_ifs at h
        · cases hc : _parse_map D p n (D.enter_map c).2 (d + 1) with
          | none => simp [hc] at h
          | some y =>
            have gy : Chained (d + 1) y.2 := ihm _ _ _ hc (Nat.succ_le_succ hd)
            simp only [hc] at h
            obtain rfl := Option.some.inj h
            try simp only [List.append_assoc, List.cons_append, List.nil_append, List.append_eq]
            exact Chained.text_out _ ((Chained.quiet (quiet_separator p)).concat
              (Chained.sub_call Site.map 0 (Nat.succ_le_succ hd) (Or.inl (Nat.le_succ d)) gy
                ((Chained.quiet (quiet_indent p d)).concat (Chained.text_out _ (Chained.empty d)))))
        · obtain rfl := Option.some.inj h
          exact Chained.empty d
      · rw [parse_type_float D p _ c d hd ht] at h
        obtain rfl := Option.some.inj h
        exact Chained.quiet (quiet_float D c)
      · rw [parse_type_tag D p _ c d hd ht] at h
        split_ifs at h
        · cases hc : _parse_type D p n (D.get_tag c).2.2 0 with
          | none => simp [hc] at h
          | some y =>
            have gy : Chained 0 y.2.2 := iht _ _ _ hc
            simp only [hc] at h
            obtain rfl := Option.some.inj h
            try simp only [List.append_assoc, List.cons_append, List.nil_append, List.append_eq]
            exact Chained.text_out _ (Chained.sub_call Site.tag y.1 (Nat.zero_le _) (Or.inr rfl) gy
              (Chained.text_out _ (Chained.empty d)))
        · obtain rfl := Option.some.inj h
          exact Chained.empty d
      · rw [parse_type_default D p _ c d hd ht] at h
        obtain rfl := Option.some.inj h
        exact Chained.text_out _ (Chained.empty d)

end chain2

set_option maxRecDepth 100000 in
/-- C7 as stated fails: on 21 nested arrays the walker and the dispatcher are called
with depth 21, and for the item wrapped by a tag inside an array the depth goes from 1
to 0. -/
theorem depth_chain_counterexample :
    (∃ r, nanocbor_print nanocbor 100 (nested_arrays 21) 22 false = some r ∧
      chain_ok 20 true [] r.2 = false ∧
      Ev.call Site.arr 21 ∈ r.2 ∧ Ev.call Site.item 21 ∈ r.2) ∧
    (∃ r, nanocbor_print nanocbor 100 [0x81, 0xc1, 0x01] 3 false = some r ∧
      chain_ok 20 true [] r.2 = false ∧
      [Ev.call Site.item 1, Ev.out "1(", Ev.call Site.tag 0] <:+: r.2) := by
  constructor
  · exact ⟨_, rfl, by decide, by decide, by decide⟩
  · exact ⟨_, rfl, by decide, by decide⟩

/-- C7 (amended): in every run of `nanocbor_print` the depth argument of every call of
the three routines is at most 21, and it is not smaller than the depth of the caller,
except possibly at the dispatch of the item wrapped by a tag. -/
theorem depth_chain {σ : Type} (D : Decoder σ) (fuel : Nat) (buffer : List Nat) (len : Nat)
    (pretty : Bool) (r : Int × List Ev)
    (h : nanocbor_print D fuel buffer len pretty = some r) :
    chain_ok 21 false [] r.2 = true := by
  unfold nanocbor_print at h
  cases hd : dry_run D fuel (D.decoder_init buffer len) with
  | none => simp [hd] at h
  | some c0 =>
    cases hp : _parse_cbor D pretty fuel (D.decoder_init buffer len) 0 with
    | none => simp [hd, hp] at h
    | some x =>
      have hc : Chained 0 x.2 := (chained_parse D pretty fuel).1 _ _ _ hp (Nat.zero_le _)
      simp only [hd, hp] at h
      obtain rfl := Option.some.inj h
      have e := hc [] [Ev.ret Site.top 0, Ev.out "\n"]
      simp only [chain_ok, List.headD_nil, Nat.zero_le, decide_True, Bool.true_and,
        Bool.true_or]
      exact e.trans rfl

set_option maxRecDepth 100000 in
/-- Witness of C7 (amended): the run on 21 nested arrays. -/
theorem depth_chain_witness :
    ∃ r, nanocbor_print nanocbor 100 (nested_arrays 21) 22 false = some r ∧
      chain_ok 21 false [] r.2 = true :=
  ⟨_, rfl, depth_chain nanocbor 100 (nested_arrays 21) 22 false _ rfl⟩

/-! ## The dispatcher and `skip` -/

section skipping

theorem NoFail.left {a b : List Ev} (h : NoFail (a ++ b)) : NoFail a :=
  fun s r hm => h s r (List.mem_append_left _ hm)

theorem NoFail.right {a b : List Ev} (h : NoFail (a ++ b)) : NoFail b :=
  fun s r hm => h s r (List.mem_append_right _ hm)

theorem NoFail.tail {e : Ev} {t : List Ev} (h : NoFail (e :: t)) : NoFail t :=
  fun s r hm => h s r (List.mem_cons_of_mem _ hm)

theorem NoFail.head {s : Site} {r : Int} {t : List Ev} (h : NoFail (Ev.ret s r :: t)) :
    0 ≤ r := h s r (List.mem_cons_self _ _)

variable {σ : Type} (D : Decoder σ) (p : Bool)

/-- At the end of the input or container the dispatcher fails. -/
theorem parse_type_at_end (L : SkipLaws D) (n : Nat) (c : σ) (d : Nat)
    (r : Int × σ × List Ev) (h : _parse_type D p n c d = some r)
    (he : D.at_end c = true) : r.1 < 0 := by
  cases n with
  | zero => simp [_parse_type] at h
  | succ n =>
    have h8 := L.at_end_type c he
    rcases Nat.lt_or_ge MAX_DEPTH d with hd | hd
    · rw [parse_type_deep D p _ c d hd] at h
      obtain rfl := Option.some.inj h
      simp
    · rw [parse_type_default D p _ c d hd h8] at h
      obtain rfl := Option.some.inj h
      simp

theorem parse_float_skip (L : SkipLaws D) (c : σ) (ht : type_of D c = NANOCBOR_TYPE_FLOAT)
    (hres : 0 ≤ (parse_float D c).1) :
    0 ≤ (D.skip c).1 ∧ (D.skip c).2 = (parse_float D c).2.1 := by
  simp only [parse_float, NANOCBOR_OK] at hres ⊢
  by_cases g1 : (D.get_bool c).1 ≥ 0
  · simp only [g1, if_true]
    exact L.skip_bool c ht g1
  · have e1 := L.bool_fail c (by omega)
    simp only [g1, if_false, e1] at hres ⊢
    by_cases g2 : (D.get_null c).1 ≥ 0
    · simp only [g2, if_true]
      exact L.skip_null c ht g2
    · have e2 := L.null_fail c (by omega)
      simp only [g2, if_false, e2] at hres ⊢
      by_cases g3 : (D.get_undefined c).1 ≥ 0
      · simp only [g3, if_true]
        exact L.skip_undefined c ht g3
      · have e3 := L.undefined_fail c (by omega)
        simp only [g3, if_false, e3] at hres ⊢
        by_cases g4 : (D.get_simple c).1 ≥ 0
        · simp only [g4, if_true]
          exact L.skip_simple c ht g4
        · have e4 := L.simple_fail c (by omega)
          simp only [g4, if_false, e4] at hres ⊢
          by_cases g5 : (D.get_float c).1 ≥ 0
          · simp only [g5, if_true]
            exact L.skip_float c ht g5
          · have e5 := L.float_fail c (by omega)
            simp only [g5, if_false, e5] at hres ⊢
            by_cases g6 : (D.get_double c).1 ≥ 0
            · simp only [g6, if_true]
              exact L.skip_double c ht g6
            · simp only [g6, if_false] at hres
              exact absurd hres (by decide)

theorem skip_parse (L : SkipLaws D) (n : Nat) :
    (∀ c d r, _parse_cbor D p n c d = some r → NoFail r.2 → SkipAll D c r.1) ∧
    (∀ c d r, _parse_map D p n c d = some r → NoFail r.2 → SkipAll D c r.1) ∧
    (∀ c d r, _parse_type D p n c d = some r → 0 ≤ r.1 → NoFail r.2.2 →
      0 ≤ (D.skip c).1 ∧ (D.skip c).2 = r.2.1) := by
  induction n with
  | zero =>
    refine ⟨?_, ?_, ?_⟩ <;> intro c d r h
    · simp [_parse_cbor] at h
    · simp [_parse_map] at h
    · simp [_parse_type] at h
  | succ n ih =>
    obtain ⟨ihc, ihm, iht⟩ := ih
    refine ⟨?_, ?_, ?_⟩
    · intro c d r h hn
      rw [_parse_cbor] at h
      split_ifs at h with h1
      · obtain rfl := Option.some.inj h
        exact SkipAll.done c h1
      · cases ht : _parse_type D p n c d with
        | none => simp [ht] at h
        | some x =>
          obtain ⟨res, it1, t⟩ := x
          simp only [ht] at h
          split_ifs at h with h2
          · obtain rfl := Option.some.inj h
            simp only [List.append_assoc, List.cons_append, List.nil_append] at hn
            exact absurd hn.right.tail.right.head (by omega)
          · cases hc : _parse_cbor D p n it1 d with
            | none => simp [hc] at h
            | some y =>
              simp only [hc] at h
              obtain rfl := Option.some.inj h
              simp only [List.append_assoc, List.cons_append, List.nil_append] at hn
              have hs := iht _ _ _ ht (by simpa using h2) hn.right.tail.left
              simp only at hs
              have hy := ihc _ _ _ hc hn.right.tail.right.tail.right.right
              exact SkipAll.step c y.1 (by simpa using h1) hs.1 (by rw [hs.2]; exact hy)
    · intro c d r h hn
      rw [_parse_map] at h
      split_ifs at h with h1
      · obtain rfl := Option.some.inj h
        exact SkipAll.done c h1
      · cases ht : _parse_type D p n c d with
        | none => simp [ht] at h
        | some x =>
          obtain ⟨res, it1, t⟩ := x
          simp only [ht] at h
          split_ifs at h with h2
          · obtain rfl := Option.some.inj h
            simp only [List.append_assoc, List.cons_append, List.nil_append] at hn
            exact absurd hn.right.tail.right.head (by omega)
          · cases ht2 : _parse_type D p n it1 d with
            | none => simp [ht2] at h
            | some x2 =>
              obtain ⟨res2, it2, t2⟩ := x2
              simp only [ht2] at h
              have hend : D.at_end it1 = false := by
                cases he : D.at_end it1 with
                | false => rfl
                | true =>
                  have := parse_type_at_end D p L n it1 d _ ht2 he
                  simp only at this
                  rw [if_pos this] at h
                  obtain rfl := Option.some.inj h
                  simp only [List.append_assoc, List.cons_append, List.nil_append] at hn
                  exact absurd hn.right.tail.right.tail.tail.tail.right.head (by omega)
              split_ifs at h with h3
              · obtain rfl := Option.some.inj h
                simp only [List.append_assoc, List.cons_append, List.nil_append] at hn
                exact absurd hn.right.tail.right.tail.tail.tail.right.head (by omega)
              · cases hc : _parse_map D p n it2 d with
                | none => simp [hc] at h
                | some y =>
                  simp only [hc] at h
                  obtain rfl := Option.some.inj h
                  simp only [List.append_assoc, List.cons_append, List.nil_append] at hn
                  have hs := iht _ _ _ ht (by simpa using h2) hn.right.tail.left
                  have hs2 := iht _ _ _ ht2 (by simpa using h3)
                    hn.right.tail.right.tail.tail.tail.left
                  simp only at hs hs2
                  have hy := ihm _ _ _ hc
                    hn.right.tail.right.tail.tail.tail.right.tail.right.right
                  refine SkipAll.step c y.1 (by simpa using h1) hs.1 ?_
                  rw [hs.2]
                  refine SkipAll.step it1 y.1 hend hs2.1 ?_
                  rw [hs2.2]
                  exact hy
    · intro c d r h hres hn
      rcases type_cases D c d with hd | ⟨hd, ht | ht | ht | ht | ht | ht | ht | ht | ht⟩
      · rw [parse_type_deep D p _ c d hd] at h
        obtain rfl := Option.some.inj h
        simp at hres
      · rw [parse_type_uint D p _ c d hd ht] at h
        split_ifs at h with h1 <;> obtain rfl := Option.some.inj h
        · exact L.skip_uint c ht h1
        · simp at hres
      · rw [parse_type_nint D p _ c d hd ht] at h
        split_ifs at h with h1 <;> obtain rfl := Option.some.inj h
        · exact L.skip_nint c ht h1
        · simp at hres
      · rw [parse_type_bstr D p _ c d hd ht] at h
        split_ifs at h with h1
        · cases hb : (D.get_bstr c).2.1 with
          | none =>
            simp only [hb] at h
            obtain rfl := Option.some.inj h
            simp at hres
          | some buf =>
            simp only [hb] at h
            obtain rfl := Option.some.inj h
            exact L.skip_bstr c ht h1
        · obtain rfl := Option.some.inj h
          simp at hres
      · rw [parse_type_tstr D p _ c d hd ht] at h
        split_ifs at h with h1 <;> obtain rfl := Option.some.inj h
        · exact L.skip_tstr c ht h1
        · simp at hres
      · rw [parse_type_arr D p _ c d hd ht] at h
        split_ifs at h with h1
        · cases hc : _parse_cbor D p n (D.enter_array c).2 (d + 1) with
          | none => simp [hc] at h
          | some y =>
            simp only [hc] at h
            obtain rfl := Option.some.inj h
            simp only [List.append_assoc, List.cons_append, List.nil_append] at hn
            exact L.skip_arr c y.1 ht h1 (ihc _ _ _ hc hn.tail.right.tail.left)
        · obtain rfl := Option.some.inj h
          simp at hres
      · rw [parse_type_map D p _ c d hd ht] at h
        split_ifs at h with h1
        · cases hc : _parse_map D p n (D.enter_map c).2 (d + 1) with
          | none => simp [hc] at h
          | some y =>
            simp only [hc] at h
            obtain rfl := Option.some.inj h
            simp only [List.append_assoc, List.cons_append, List.nil_append] at hn
            exact L.skip_map c y.1 ht h1 (ihm _ _ _ hc hn.tail.right.tail.left)
        · obtain rfl := Option.some.inj h
          simp at hres
      · rw [parse_type_float D p _ c d hd ht] at h
        obtain rfl := Option.some.inj h
        exact parse_float_skip D L c ht hres
      · rw [parse_type_tag D p _ c d hd ht] at h
        split_ifs at h with h1
        · cases hc : _parse_type D p n (D.get_tag c).2.2 0 with
          | none => simp [hc] at h
          | some y =>
            simp only [hc] at h
            obtain rfl := Option.some.inj h
            simp only [List.append_assoc, List.cons_append, List.nil_append] at hn
            have hy := iht _ _ _ hc hn.tail.tail.right.head hn.tail.tail.left
            have hs := L.skip_tag c ht h1 hy.1
            exact ⟨hs.1, hs.2.trans hy.2⟩
        · obtain rfl := Option.some.inj h
          simp at hres
      · rw [parse_type_default D p _ c d hd ht] at h
        obtain rfl := Option.some.inj h
        simp at hres

end skipping

/-! ## The byte-level decoder obeys the laws of `skip` -/

section concrete_skip

theorem byte_lt (c : nanocbor_value_t) (i : Nat) : c.byte i < 256 :=
  Nat.mod_lt _ (by decide)

theorem get_type_of (c : nanocbor_value_t) (k : Nat) (hk : k < 8)
    (h : type_of nanocbor c = k) : nanocbor_get_type c = (k : Int) := by
  have hb := byte_lt c 0
  simp only [type_of, nanocbor] at h
  unfold nanocbor_get_type at h ⊢
  split_ifs at h ⊢ with h1
  · simp at h
    omega
  · omega

theorem at_end_type_of (c : nanocbor_value_t) (h : nanocbor_at_end c = true) :
    8 ≤ type_of nanocbor c := by
  simp only [type_of, nanocbor, nanocbor_get_type, h, if_true]
  decide

theorem get_head_max (c : nanocbor_value_t) (m m1 t : Nat) (hm : m ≤ m1)
    (h : 0 < (get_head c m t).1) : get_head c m1 t = get_head c m t := by
  unfold get_head at h ⊢
  split_ifs at h ⊢ with h1 h2 h3 h4 h5 h6 h7 <;> first | rfl | omega

theorem skip_item_simple (n : Nat) (c : nanocbor_value_t) (h4 : nanocbor_get_type c ≠ 4)
    (h5 : nanocbor_get_type c ≠ 5) (h6 : nanocbor_get_type c ≠ 6) :
    skip_item (n + 1) c = nanocbor_skip_simple c := by
  rw [skip_item]
  simp [h4, h5, h6]

theorem skip_head (c : nanocbor_value_t) (k : Nat) (hk : k < 8) (h2 : k ≠ 2) (h3 : k ≠ 3)
    (h4 : k ≠ 4) (h5 : k ≠ 5) (h6 : k ≠ 6) (ht : nanocbor_get_type c = (k : Int))
    (hh : 0 < (get_head c 27 k).1) :
    0 ≤ (nanocbor_skip c).1 ∧
      (nanocbor_skip c).2 = c.advance (get_head c 27 k).1.toNat := by
  unfold nanocbor_skip
  rw [skip_item_simple _ c (by omega) (by omega) (by omega)]
  unfold nanocbor_skip_simple
  have e : (nanocbor_get_type c).toNat = k := by omega
  simp only [e]
  rw [if_neg (by omega), if_neg (by omega), if_pos hh]
  exact ⟨le_rfl, rfl⟩

theorem skip_str (c : nanocbor_value_t) (k : Nat) (hk : k = 2 ∨ k = 3)
    (ht : nanocbor_get_type c = (k : Int)) :
    nanocbor_skip c = ((get_str c k).1, (get_str c k).2.2) := by
  unfold nanocbor_skip
  rw [skip_item_simple _ c (by omega) (by omega) (by omega)]
  unfold nanocbor_skip_simple
  have e : (nanocbor_get_type c).toNat = k := by omega
  simp only [e]
  rw [if_pos (by omega)]

theorem skip_fuel_succ (n : Nat) :
    (∀ c, 0 ≤ (skip_item n c).1 → skip_item (n + 1) c = skip_item n c) ∧
    (∀ c, 0 ≤ (skip_items n c).1 → skip_items (n + 1) c = skip_items n c) := by
  induction n with
  | zero =>
    constructor <;> intro c h
    · simp [skip_item] at h
    · simp [skip_items] at h
  | succ n ih =>
    obtain ⟨ih1, ih2⟩ := ih
    constructor
    · intro c h
      rw [skip_item] at h
      rw [skip_item, skip_item]
      simp only at h ⊢
      split_ifs at h ⊢ with g1 g2 g3 g4
      · simp only at h
        rw [ih2 _ h]
      · rfl
      · rw [ih1 _ h]
      · rfl
      · rfl
    · intro c h
      by_cases g1 : nanocbor_at_end c = true
      · rw [skip_items, skip_items]
        simp only [g1, if_true]
      · rw [skip_items] at h
        simp only [g1, Bool.false_eq_true, if_false] at h
        by_cases g2 : (skip_item n c).1 < 0
        · simp only [g2, if_true] at h
          omega
        · simp only [g2, if_false] at h
          have e := ih1 c (by omega)
          rw [skip_items, skip_items]
          simp only [g1, Bool.false_eq_true, if_false, e, g2, ih2 _ h]

theorem skip_item_fuel {n m : Nat} (hnm : n ≤ m) (c : nanocbor_value_t)
    (h : 0 ≤ (skip_item n c).1) : skip_item m c = skip_item n c := by
  induction hnm with
  | refl => rfl
  | step _ ih => rw [(skip_fuel_succ _).1 c (by rw [ih]; exact h), ih]

end concrete_skip

section concrete_skip2

theorem skip_items_all {a a1 : nanocbor_value_t} (h : SkipAll nanocbor a a1) :
    ∀ fuel, 2 * a.left + 3 ≤ fuel → skip_items fuel a = (0, a1) := by
  induction h with
  | done a he =>
    intro fuel hf
    obtain ⟨f, rfl⟩ : ∃ f, fuel = f + 1 := ⟨fuel - 1, by omega⟩
    rw [skip_items]
    have he1 : nanocbor_at_end a = true := he
    simp only [he1, if_true]
  | step a a1 he hs _ ih =>
    intro fuel hf
    obtain ⟨f, rfl⟩ : ∃ f, fuel = f + 1 := ⟨fuel - 1, by omega⟩
    have he1 : nanocbor_at_end a = false := he
    have hs1 : 0 ≤ (nanocbor_skip a).1 := hs
    have e : skip_item f a = nanocbor_skip a :=
      skip_item_fuel (n := 2 * (a.stop - a.cur) + 2) (by simp only [nanocbor_value_t.left] at hf; omega) a hs1
    have hlt := (forward_skip_item (2 * (a.stop - a.cur) + 2)).1 a |>.size_lt hs1
    rw [skip_items]
    simp only [he1, Bool.false_eq_true, if_false, e]
    rw [if_neg (by omega)]
    exact ih f (by
      have : (nanocbor_skip a).2.left < a.left := hlt
      have e2 : (nanocbor.skip a).2 = (nanocbor_skip a).2 := rfl
      rw [e2]
      omega)

theorem nanocbor_skip_container (c a1 : nanocbor_value_t) (k : Nat) (hk : k = 4 ∨ k = 5)
    (ht : nanocbor_get_type c = (k : Int)) (he : 0 ≤ (enter_container c k).1)
    (h : SkipAll nanocbor (enter_container c k).2 a1) :
    0 ≤ (nanocbor_skip c).1 ∧ (nanocbor_skip c).2 = nanocbor_leave_container c a1 := by
  have hlt := (enter_container_lt c k he).2
  have e : (nanocbor_get_type c).toNat = k := by omega
  unfold nanocbor_skip
  rw [skip_item]
  simp only [e]
  rw [if_pos (by omega), if_pos he,
    skip_items_all h _ (by simp only [nanocbor_value_t.left] at hlt ⊢; omega)]
  exact ⟨le_rfl, rfl⟩

theorem nanocbor_skip_tag (c : nanocbor_value_t) (ht : nanocbor_get_type c = 6)
    (hg : 0 ≤ (nanocbor_get_tag c).1) (hs : 0 ≤ (nanocbor_skip (nanocbor_get_tag c).2.2).1) :
    nanocbor_skip c = nanocbor_skip (nanocbor_get_tag c).2.2 := by
  have hlt := (forward_get_tag c).size_lt hg
  simp only [nanocbor_value_t.left] at hlt
  unfold nanocbor_skip at hs ⊢
  rw [skip_item]
  rw [if_neg (by omega), if_pos ht]
  simp only
  rw [if_pos hg]
  exact skip_item_fuel (by omega) _ hs

theorem head_small (c : nanocbor_value_t) (m k : Nat) (ht : nanocbor_get_type c = (k : Int))
    (hb : c.byte 0 % 32 < 24) : get_head c m k = (1, c.byte 0 % 32) := by
  unfold get_head
  rw [if_neg (by omega), if_neg (by simp [ht]), if_pos hb]

theorem head_large (c : nanocbor_value_t) (m k : Nat) (ht : nanocbor_get_type c = (k : Int))
    (hb : 24 ≤ c.byte 0 % 32) (hm : c.byte 0 % 32 ≤ m)
    (hs : c.cur + 2 ^ (c.byte 0 % 32 - 24) < c.stop) :
    get_head c m k =
      (((1 + 2 ^ (c.byte 0 % 32 - 24) : Nat) : Int), c.be 1 (2 ^ (c.byte 0 % 32 - 24))) := by
  unfold get_head
  rw [if_neg (by omega), if_neg (by simp [ht]), if_neg (by omega), if_neg (by omega),
    if_neg (by omega)]

theorem skip_match (c : nanocbor_value_t) (v : Nat) (hv : v % 32 < 24)
    (ht : nanocbor_get_type c = 7) (hs : 0 ≤ (value_match_exact c v).1) :
    0 ≤ (nanocbor_skip c).1 ∧ (nanocbor_skip c).2 = (value_match_exact c v).2 := by
  unfold value_match_exact at hs ⊢
  split_ifs at hs ⊢ with h1 h2
  · exact absurd hs (by simp)
  · have e := head_small c 27 7 ht (by rw [h2]; exact hv)
    have := skip_head c 7 (by decide) (by decide) (by decide) (by decide) (by decide)
      (by decide) ht (by rw [e]; simp)
    rw [e] at this
    exact this
  · exact absurd hs (by simp)

/-- The byte-level decoder obeys the laws of `skip`. -/
theorem nanocbor_skip_laws : SkipLaws nanocbor where
  at_end_type := at_end_type_of
  bool_fail := by
    intro c h
    simp only [nanocbor, nanocbor_get_bool, value_match_exact] at h ⊢
    split_ifs at h ⊢ <;> first | rfl | omega
  null_fail := by
    intro c h
    simp only [nanocbor, nanocbor_get_null, value_match_exact] at h ⊢
    split_ifs at h ⊢ <;> first | rfl | omega
  undefined_fail := by
    intro c h
    simp only [nanocbor, nanocbor_get_undefined, value_match_exact] at h ⊢
    split_ifs at h ⊢ <;> first | rfl | omega
  simple_fail := by
    intro c h
    simp only [nanocbor, nanocbor_get_simple] at h ⊢
    split_ifs at h ⊢ <;> first | rfl | omega
  float_fail := by
    intro c h
    simp only [nanocbor, nanocbor_get_float] at h ⊢
    split_ifs at h ⊢ <;> first | rfl | omega
  skip_uint := by
    intro c ht hs
    have ht1 := get_type_of c 0 (by decide) ht
    simp only [nanocbor, nanocbor_get_uint64, NANOCBOR_TYPE_UINT] at hs ⊢
    split_ifs at hs ⊢ with h1
    · exact skip_head c 0 (by decide) (by decide) (by decide) (by decide) (by decide)
        (by decide) ht1 h1
    · exact absurd (get_head_pos c 27 0 hs).1 h1
  skip_nint := by
    intro c ht hs
    have ht1 := get_type_of c 1 (by decide) ht
    have ht2 : nanocbor_get_type c = 1 := ht1
    simp only [nanocbor, nanocbor_get_int64, NANOCBOR_TYPE_NINT, ht2, if_true] at hs ⊢
    split_ifs at hs ⊢ with h1 h2
    · exact skip_head c 1 (by decide) (by decide) (by decide) (by decide) (by decide)
        (by decide) ht1 h1
    · exact absurd hs (by simp)
    · exact absurd (get_head_pos c 27 1 hs).1 h1
  skip_bstr := by
    intro c ht hs
    have ht1 := get_type_of c 2 (by decide) ht
    have e := skip_str c 2 (Or.inl rfl) ht1
    simp only [nanocbor, nanocbor_get_bstr, NANOCBOR_TYPE_BSTR] at hs ⊢
    rw [e]
    split_ifs at hs ⊢ with h1
    · exact ⟨h1, rfl⟩
    · exact absurd hs h1
  skip_tstr := by
    intro c ht hs
    have ht1 := get_type_of c 3 (by decide) ht
    have e := skip_str c 3 (Or.inr rfl) ht1
    simp only [nanocbor, nanocbor_get_tstr, NANOCBOR_TYPE_TSTR] at hs ⊢
    rw [e]
    exact ⟨hs, rfl⟩
  skip_bool := by
    intro c ht hs
    have ht1 : nanocbor_get_type c = 7 := get_type_of c 7 (by decide) ht
    simp only [nanocbor, nanocbor_get_bool] at hs ⊢
    split_ifs at hs ⊢ with h1
    · exact skip_match c 0xf4 (by decide) ht1 h1
    · exact skip_match c 0xf5 (by decide) ht1 hs
  skip_null := by
    intro c ht hs
    exact skip_match c 0xf6 (by decide) (get_type_of c 7 (by decide) ht) hs
  skip_undefined := by
    intro c ht hs
    exact skip_match c 0xf7 (by decide) (get_type_of c 7 (by decide) ht) hs
  skip_simple := by
    intro c ht hs
    have ht1 : nanocbor_get_type c = ((7 : Nat) : Int) := get_type_of c 7 (by decide) ht
    simp only [nanocbor, nanocbor_get_simple, NANOCBOR_TYPE_FLOAT] at hs ⊢
    split_ifs at hs ⊢ with h1
    · have e := get_head_max c 24 27 7 (by decide) h1
      have := skip_head c 7 (by decide) (by decide) (by decide) (by decide) (by decide)
        (by decide) ht1 (by rw [e]; exact h1)
      rw [e] at this
      exact this
    · exact absurd (get_head_pos c 24 7 hs).1 h1
  skip_float := by
    intro c ht hs
    have ht1 : nanocbor_get_type c = ((7 : Nat) : Int) := get_type_of c 7 (by decide) ht
    simp only [nanocbor, nanocbor_get_float] at hs ⊢
    split_ifs at hs ⊢ with h1 h2 h3
    · omega
    · have e := head_large c 27 7 ht1 (by omega) (by omega)
        (by rw [h2]; simp only [Nat.reduceMod, Nat.reduceSub, Nat.reducePow]; omega)
      have := skip_head c 7 (by decide) (by decide) (by decide) (by decide) (by decide)
        (by decide) ht1 (by rw [e]; simp only [h2]; decide)
      rw [e] at this
      simp only [h2] at this
      exact this
    · exact absurd hs (by simp)
    · exact absurd hs (by simp)
  skip_double := by
    intro c ht hs
    have ht1 : nanocbor_get_type c = ((7 : Nat) : Int) := get_type_of c 7 (by decide) ht
    simp only [nanocbor, nanocbor_get_double] at hs ⊢
    split_ifs at hs ⊢ with h1 h2 h3
    · omega
    · have e := head_large c 27 7 ht1 (by omega) (by omega)
        (by rw [h2]; simp only [Nat.reduceMod, Nat.reduceSub, Nat.reducePow]; omega)
      have := skip_head c 7 (by decide) (by decide) (by decide) (by decide) (by decide)
        (by decide) ht1 (by rw [e]; simp only [h2]; decide)
      rw [e] at this
      simp only [h2] at this
      exact this
    · exact absurd hs (by simp)
    · exact absurd hs (by simp)
  skip_tag := by
    intro c ht hg hs
    have ht1 := get_type_of c 6 (by decide) ht
    have e := nanocbor_skip_tag c ht1 hg hs
    exact ⟨by rw [show nanocbor.skip c = nanocbor_skip c from rfl, e]; exact hs,
      by rw [show nanocbor.skip c = nanocbor_skip c from rfl, e]; rfl⟩
  skip_arr := by
    intro c a1 ht he h
    exact nanocbor_skip_container c a1 4 (Or.inl rfl) (get_type_of c 4 (by decide) ht) he h
  skip_map := by
    intro c a1 ht he h
    exact nanocbor_skip_container c a1 5 (Or.inr rfl) (get_type_of c 5 (by decide) ht) he h

end concrete_skip2

set_option maxRecDepth 100000 in
/-- C8 as stated fails: on 21 nested arrays around the integer 1 (22 bytes) the
dispatcher returns success at depth 0 and leaves the cursor at offset 21, in front of
the integer that it did not render, whereas `skip` moves the cursor past the whole
item, to offset 22; on the array `82 01 18`, whose second item is truncated, the
dispatcher returns success although the item cannot be skipped. -/
theorem dispatch_not_past_item :
    (∃ c1 t, _parse_type nanocbor false 100 (nanocbor.decoder_init (nested_arrays 21) 22) 0 =
        some (1, c1, t) ∧ c1.cur = 21 ∧
      0 ≤ (nanocbor.skip (nanocbor.decoder_init (nested_arrays 21) 22)).1 ∧
      (nanocbor.skip (nanocbor.decoder_init (nested_arrays 21) 22)).2.cur = 22 ∧
      (nanocbor.skip (nanocbor.decoder_init (nested_arrays 21) 22)).2 ≠ c1) ∧
    (∃ c1 t, _parse_type nanocbor false 100 (nanocbor.decoder_init [0x82, 0x01, 0x18] 3) 0 =
        some (1, c1, t) ∧
      (nanocbor.skip (nanocbor.decoder_init [0x82, 0x01, 0x18] 3)).1 < 0) := by
  constructor
  · exact ⟨_, _, rfl, by decide, by decide, by decide, by decide⟩
  · exact ⟨_, _, rfl, by decide⟩

/-- C8 (amended): when `_parse_type` returns success and no dispatch made while the item
was rendered failed, the cursor has been advanced past exactly that item: `skip`
succeeds on the starting cursor and reaches the same position. -/
theorem dispatch_advances_as_skip {σ : Type} (D : Decoder σ) (L : SkipLaws D) (p : Bool)
    (fuel : Nat) (c : σ) (d : Nat) (res : Int) (c1 : σ) (t : List Ev)
    (h : _parse_type D p fuel c d = some (res, c1, t)) (hres : 0 ≤ res) (hn : NoFail t) :
    0 ≤ (D.skip c).1 ∧ (D.skip c).2 = c1 :=
  (skip_parse D p L fuel).2.2 c d _ h hres hn

/-- Witness of C8 (amended): the array `82 01 81 c1 02`, that is `[1, [1(2)]]`. -/
theorem dispatch_advances_as_skip_witness :
    SkipLaws nanocbor ∧
    ∃ c1 t, _parse_type nanocbor false 20 (nanocbor.decoder_init [0x82, 0x01, 0x81, 0xc1, 0x02] 5) 0 =
        some (1, c1, t) ∧ c1.cur = 5 ∧ NoFail t ∧
      0 ≤ (nanocbor.skip (nanocbor.decoder_init [0x82, 0x01, 0x81, 0xc1, 0x02] 5)).1 ∧
      (nanocbor.skip (nanocbor.decoder_init [0x82, 0x01, 0x81, 0xc1, 0x02] 5)).2 = c1 := by
  have hn : NoFail [Ev.out "[", Ev.call Site.arr 1, Ev.call Site.item 1, Ev.out "1",
      Ev.ret Site.item 1, Ev.out ", ", Ev.call Site.item 1, Ev.out "[", Ev.call Site.arr 2,
      Ev.call Site.item 2, Ev.out "1(", Ev.call Site.tag 0, Ev.out "2", Ev.ret Site.tag 1,
      Ev.out ")", Ev.ret Site.item 1, Ev.ret Site.arr 0, Ev.out "]", Ev.ret Site.item 1,
      Ev.ret Site.arr 0, Ev.out "]"] := by
    intro s r hm
    simp only [List.mem_cons, reduceCtorEq, false_or, Ev.ret.injEq, List.mem_singleton,
      List.not_mem_nil, or_false] at hm
    omega
  exact ⟨nanocbor_skip_laws, _, _, rfl, by decide, hn,
    dispatch_advances_as_skip nanocbor nanocbor_skip_laws false 20
      (nanocbor.decoder_init [0x82, 0x01, 0x81, 0xc1, 0x02] 5) 0 1 _ _ rfl (by decide) hn⟩

/-! ## The fuel of `nanocbor_skip` -/

section skip_fuel

theorem get_type_range (c : nanocbor_value_t) :
    nanocbor_get_type c = -3 ∨ 0 ≤ nanocbor_get_type c := by
  unfold nanocbor_get_type
  split_ifs
  · exact Or.inl rfl
  · exact Or.inr (Int.ofNat_nonneg _)

theorem get_head_ne (c : nanocbor_value_t) (m t : Nat) : (get_head c m t).1 ≠ -4 := by
  have h := get_type_range c
  unfold get_head
  split_ifs <;> simp only <;>
    first
      | omega
      | exact fun h0 => absurd (Int.natCast_nonneg (1 + 2 ^ (c.byte 0 % 32 - 24)))
          (by rw [h0]; decide)

theorem get_str_ne (c : nanocbor_value_t) (t : Nat) : (get_str c t).1 ≠ -4 := by
  have h := get_head_ne c 27 t
  unfold get_str
  simp only
  split_ifs <;> simp only <;> omega

theorem skip_simple_ne (c : nanocbor_value_t) : (nanocbor_skip_simple c).1 ≠ -4 := by
  have h := get_type_range c
  have h1 := get_head_ne c 27 (nanocbor_get_type c).toNat
  have h2 := get_str_ne c (nanocbor_get_type c).toNat
  unfold nanocbor_skip_simple
  simp only
  split_ifs <;> simp only <;> omega

theorem enter_container_ne (c : nanocbor_value_t) (t : Nat) :
    (enter_container c t).1 ≠ -4 := by
  have h := get_head_ne c 27 t
  unfold enter_container
  simp only
  split_ifs <;> simp only <;> omega

theorem get_tag_ne (c : nanocbor_value_t) : (nanocbor_get_tag c).1 ≠ -4 := by
  have h := get_head_ne c 26 NANOCBOR_TYPE_TAG
  unfold nanocbor_get_tag
  simp only
  split_ifs <;> simp only <;> omega

theorem skip_enough (n : Nat) : ∀ c : nanocbor_value_t, c.left < n →
    (∀ f, 2 * n ≤ f + 1 → (skip_item f c).1 ≠ -4) ∧
    (∀ f, 2 * n ≤ f → (skip_items f c).1 ≠ -4) := by
  induction n with
  | zero => intro c h; exact absurd h (Nat.not_lt_zero _)
  | succ n ih =>
    intro c hc
    have hitem : ∀ f, 2 * (n + 1) ≤ f + 1 → (skip_item f c).1 ≠ -4 := by
      intro f hf
      obtain ⟨g, rfl⟩ : ∃ g, f = g + 1 := ⟨f - 1, by omega⟩
      rw [skip_item]
      simp only
      split_ifs with h1 h2 h3 h4
      · have hlt := (enter_container_lt c _ h2).2
        exact (ih _ (by omega)).2 g (by omega)
      · exact enter_container_ne c _
      · have hlt := (forward_get_tag c).size_lt h4
        exact (ih _ (by omega)).1 g (by omega)
      · exact get_tag_ne c
      · exact skip_simple_ne c
    refine ⟨hitem, ?_⟩
    intro f hf
    obtain ⟨g, rfl⟩ : ∃ g, f = g + 1 := ⟨f - 1, by omega⟩
    rw [skip_items]
    simp only
    split_ifs with h1 h2
    · simp
    · exact hitem g (by omega)
    · have hlt := ((forward_skip_item g).1 c).size_lt (by omega)
      exact (ih _ (by omega)).2 g (by omega)

/-- The fuel that `nanocbor_skip` gives to `skip_item` is never used up. -/
theorem nanocbor_skip_fuel (c : nanocbor_value_t) : (nanocbor_skip c).1 ≠ -4 :=
  (skip_enough (c.left + 1) c (Nat.lt_succ_self _)).1 _
    (by simp only [nanocbor_value_t.left]; omega)

end skip_fuel

/-! ## Text strings, empty byte strings and tags -/

theorem fmt_s_eq (bs : List Nat) :
    fmt_s bs = (bs.takeWhile (fun b => b % 256 != 0)).map byte_char := rfl

theorem takeWhile_all {α : Type} (q : α → Bool) (l : List α) (h : ∀ a ∈ l, q a = true) :
    l.takeWhile q = l := by
  induction l with
  | nil => rfl
  | cons a l ih =>
    rw [List.takeWhile_cons, h a (List.mem_cons_self _ _),
      ih (fun b hb => h b (List.mem_cons_of_mem _ hb))]
    rfl

/-- C11 as stated fails: the text string `a\0b` (`63 61 00 62`) is extracted with its
three bytes, and the text written is `"a"`: the conversion stops at the zero byte. -/
theorem tstr_zero_byte_cut :
    0 ≤ (nanocbor.get_tstr (nanocbor.decoder_init [0x63, 0x61, 0x00, 0x62] 4)).1 ∧
    (nanocbor.get_tstr (nanocbor.decoder_init [0x63, 0x61, 0x00, 0x62] 4)).2.1 =
      [0x61, 0x00, 0x62] ∧
    ∃ c1 t, _parse_type nanocbor false 1 (nanocbor.decoder_init [0x63, 0x61, 0x00, 0x62] 4) 0 =
        some (1, c1, t) ∧
      text t = ['"', 'a', '"'] ∧
      text t ≠ '"' :: [0x61, 0x00, 0x62].map byte_char ++ ['"'] :=
  ⟨by decide, by decide, _, _, rfl, by decide, by decide⟩

/-- C11 (amended): for a text string whose extraction succeeds with the `L` bytes
`bytes`, `_parse_type` at depth at most 20 returns 1 and writes a double quote, the raw
bytes up to (not including) the first zero byte, unchanged and unescaped, and a double
quote; when no byte is zero these are exactly the `L` bytes. -/
theorem tstr_text {σ : Type} (D : Decoder σ) (p : Bool) (fuel : Nat) (c : σ) (d : Nat)
    (bytes : List Nat) (hd : d ≤ MAX_DEPTH) (ht : type_of D c = NANOCBOR_TYPE_TSTR)
    (hs : 0 ≤ (D.get_tstr c).1) (hb : (D.get_tstr c).2.1 = bytes) :
    ∃ t, _parse_type D p (fuel + 1) c d = some (1, (D.get_tstr c).2.2, t) ∧
      text t = '"' :: (bytes.takeWhile (fun b => b % 256 != 0)).map byte_char ++ ['"'] ∧
      ((∀ b ∈ bytes, b % 256 ≠ 0) → text t = '"' :: bytes.map byte_char ++ ['"']) := by
  refine ⟨_, by rw [parse_type_tstr D p _ c d hd ht, if_pos hs], ?_, ?_⟩
  · simp [hb, fmt_s_eq]
  · intro h0
    have e : bytes.takeWhile (fun b => b % 256 != 0) = bytes :=
      takeWhile_all _ _ (fun b hm => by simpa using h0 b hm)
    simp [hb, fmt_s_eq, e]

/-- Witness of C11 (amended): the text string `62 22 0a` (a double quote and a line
feed) is written as it is between the quotes. -/
theorem tstr_text_witness :
    (0 : Nat) ≤ MAX_DEPTH ∧
    type_of nanocbor (nanocbor.decoder_init [0x62, 0x22, 0x0a] 3) = NANOCBOR_TYPE_TSTR ∧
    0 ≤ (nanocbor.get_tstr (nanocbor.decoder_init [0x62, 0x22, 0x0a] 3)).1 ∧
    (nanocbor.get_tstr (nanocbor.decoder_init [0x62, 0x22, 0x0a] 3)).2.1 = [0x22, 0x0a] ∧
    ∃ t, _parse_type nanocbor false 1 (nanocbor.decoder_init [0x62, 0x22, 0x0a] 3) 0 =
        some (1, (nanocbor.get_tstr (nanocbor.decoder_init [0x62, 0x22, 0x0a] 3)).2.2, t) ∧
      text t = '"' :: ([0x22, 0x0a].takeWhile (fun b => b % 256 != 0)).map byte_char ++
        ['"'] ∧
      ((∀ b ∈ [0x22, 0x0a], b % 256 ≠ 0) →
        text t = '"' :: [0x22, 0x0a].map byte_char ++ ['"']) :=
  ⟨by decide, by decide, by decide, by decide,
    tstr_text nanocbor false 0 (nanocbor.decoder_init [0x62, 0x22, 0x0a] 3) 0 [0x22, 0x0a]
      (by decide) (by decide) (by decide) (by decide)⟩

/-- C12 as stated fails: the extraction of the empty byte string `40` succeeds with a
zero-length result, and `_parse_type` returns 1 and writes `h''`. -/
theorem bstr_empty_rendered :
    0 ≤ (nanocbor.get_bstr (nanocbor.decoder_init [0x40] 1)).1 ∧
    (nanocbor.get_bstr (nanocbor.decoder_init [0x40] 1)).2.1 = some [] ∧
    ∃ c1, _parse_type nanocbor false 1 (nanocbor.decoder_init [0x40] 1) 0 =
      some (1, c1, [Ev.out "h\x27", Ev.out "\x27"]) :=
  ⟨by decide, by decide, _, rfl⟩

/-- C12 (amended): when the byte-string extraction succeeds but yields a null buffer,
`_parse_type` treats it as a failure: it returns -1 and writes nothing; a zero-length
result with a buffer that is not null is no failure and is written as `h''`. -/
theorem bstr_null_failure {σ : Type} (D : Decoder σ) (p : Bool) (fuel : Nat) (c : σ) (d : Nat)
    (hd : d ≤ MAX_DEPTH) (ht : type_of D c = NANOCBOR_TYPE_BSTR)
    (hs : 0 ≤ (D.get_bstr c).1) :
    ((D.get_bstr c).2.1 = none →
      _parse_type D p (fuel + 1) c d = some (-1, (D.get_bstr c).2.2, [])) ∧
    ((D.get_bstr c).2.1 = some [] →
      _parse_type D p (fuel + 1) c d =
        some (1, (D.get_bstr c).2.2, [Ev.out "h\x27", Ev.out "\x27"])) := by
  constructor <;> intro hb
  · rw [parse_type_bstr D p _ c d hd ht, if_pos hs, hb]
  · rw [parse_type_bstr D p _ c d hd ht, if_pos hs, hb]
    rfl

/-- Witness of C12 (amended): a decoder that reports success with a null buffer. -/
theorem bstr_null_failure_witness :
    (0 : Nat) ≤ MAX_DEPTH ∧
    type_of null_bstr_decoder (null_bstr_decoder.decoder_init [0x40] 1) =
      NANOCBOR_TYPE_BSTR ∧
    0 ≤ (null_bstr_decoder.get_bstr (null_bstr_decoder.decoder_init [0x40] 1)).1 ∧
    (null_bstr_decoder.get_bstr (null_bstr_decoder.decoder_init [0x40] 1)).2.1 = none ∧
    _parse_type null_bstr_decoder false 1 (null_bstr_decoder.decoder_init [0x40] 1) 0 =
      some (-1, (null_bstr_decoder.get_bstr (null_bstr_decoder.decoder_init [0x40] 1)).2.2,
        []) :=
  ⟨by decide, by decide, by decide, by decide,
    (bstr_null_failure null_bstr_decoder false 0 (null_bstr_decoder.decoder_init [0x40] 1) 0
      (by decide) (by decide) (by decide)).1 (by decide)⟩

/-- C15: for an item of type tag dispatched at depth `d ≤ 20` whose tag number `tv`
(below `2^32`) is extracted with success, `_parse_type` writes the decimal digits of
`tv`, then `(`, then exactly what the dispatch of the wrapped item at depth 0 writes
(whatever `d` is), then `)`; when the extraction of the tag number fails it returns -1
and writes nothing. -/
theorem tag_dispatch {σ : Type} (D : Decoder σ) (p : Bool) (c : σ) (d : Nat)
    (hd : d ≤ MAX_DEPTH) (ht : type_of D c = NANOCBOR_TYPE_TAG) :
    (0 ≤ (D.get_tag c).1 → (D.get_tag c).2.1 < 2 ^ 32 →
      ∀ fuel res c1 t1, _parse_type D p fuel (D.get_tag c).2.2 0 = some (res, c1, t1) →
        ∃ t, _parse_type D p (fuel + 1) c d = some (1, c1, t) ∧
          text t = (Nat.repr (D.get_tag c).2.1).data ++ ['('] ++ text t1 ++ [')']) ∧
    ((D.get_tag c).1 < 0 →
      ∀ fuel, _parse_type D p (fuel + 1) c d = some (-1, (D.get_tag c).2.2, [])) := by
  constructor
  · intro hs hlt fuel res c1 t1 h
    refine ⟨_, by rw [parse_type_tag D p _ c d hd ht, if_pos hs, h], ?_⟩
    have h32 : (D.get_tag c).2.1 % 2 ^ 32 = (D.get_tag c).2.1 := Nat.mod_eq_of_lt hlt
    simp only [fmt_u32, h32, fmt_u_eq_repr, text_cons, text_append, chars_out, chars_call,
      chars_ret, text_nil, List.append_nil, List.nil_append, List.append_assoc]
  · intro hs fuel
    rw [parse_type_tag D p _ c d hd ht, if_neg (by omega)]

/-- Witness of C15: tag 2 wrapping the byte string `01` (`c2 41 01`) gives `2(h'01')`;
inside an array, in pretty mode, the wrapped array of `81 c1 81 01` is written with the
indentation of depth 0. -/
theorem tag_dispatch_witness :
    ((0 : Nat) ≤ MAX_DEPTH ∧
    type_of nanocbor (nanocbor.decoder_init [0xc2, 0x41, 0x01] 3) = NANOCBOR_TYPE_TAG ∧
    0 ≤ (nanocbor.get_tag (nanocbor.decoder_init [0xc2, 0x41, 0x01] 3)).1 ∧
    (nanocbor.get_tag (nanocbor.decoder_init [0xc2, 0x41, 0x01] 3)).2.1 < 2 ^ 32 ∧
    ∃ c1 t1 t,
      _parse_type nanocbor false 1
        (nanocbor.get_tag (nanocbor.decoder_init [0xc2, 0x41, 0x01] 3)).2.2 0 =
        some (1, c1, t1) ∧
      _parse_type nanocbor false 2 (nanocbor.decoder_init [0xc2, 0x41, 0x01] 3) 0 =
        some (1, c1, t) ∧
      text t1 = "h\x2701\x27".data ∧
      text t = (Nat.repr (nanocbor.get_tag
        (nanocbor.decoder_init [0xc2, 0x41, 0x01] 3)).2.1).data ++ ['('] ++ text t1 ++ [')'] ∧
      text t = "2(h\x2701\x27)".data) ∧
    (nanocbor_print nanocbor 20 [0x81, 0xc1, 0x81, 0x01] 4 true).map (fun r => text r.2) =
      some "Start decoding 4 bytes:\n[\n  1([\n  1\n])\n]\n\n".data := by
  refine ⟨⟨by decide, by decide, by decide, by decide, ?_⟩, by decide⟩
  obtain ⟨t, h1, h2⟩ := (tag_dispatch nanocbor false (nanocbor.decoder_init [0xc2, 0x41, 0x01] 3) 0
    (by decide) (by decide)).1 (by decide) (by decide) 1 1 _ _ rfl
  refine ⟨_, _, t, rfl, h1, by decide, h2, ?_⟩
  rw [h2]
  decide

/-- C19: for an item of type tag dispatched at depth at most 20 whose tag number is
extracted with success, `_parse_type` returns 1 whatever the dispatch of the wrapped
item returns: the result `res` of that dispatch is only recorded in the log, the text
`)` is written after it, and the cursor is the one the dispatch of the wrapped item
left.  Under the progress laws the dispatch of the wrapped item returns, so that
`_parse_type` does return 1. -/
theorem tag_discards_failure {σ : Type} (D : Decoder σ) (size bound : σ → Nat)
    (P : Progress D size bound) (p : Bool) (c : σ) (d : Nat)
    (hd : d ≤ MAX_DEPTH) (ht : type_of D c = NANOCBOR_TYPE_TAG) (hs : 0 ≤ (D.get_tag c).1) :
    (∀ fuel res c1 t1, _parse_type D p fuel (D.get_tag c).2.2 0 = some (res, c1, t1) →
      _parse_type D p (fuel + 1) c d = some (1, c1,
        Ev.out (String.mk (fmt_u32 (D.get_tag c).2.1 ++ ['('])) :: Ev.call Site.tag 0 ::
          t1 ++ [Ev.ret Site.tag res, Ev.out ")"])) ∧
    (∃ res c1 t1, ∀ fuel, 2 * size c + 1 ≤ fuel →
      _parse_type D p fuel c d = some (1, c1,
        Ev.out (String.mk (fmt_u32 (D.get_tag c).2.1 ++ ['('])) :: Ev.call Site.tag 0 ::
          t1 ++ [Ev.ret Site.tag res, Ev.out ")"])) := by
  have h1 : ∀ fuel res c1 t1, _parse_type D p fuel (D.get_tag c).2.2 0 = some (res, c1, t1) →
      _parse_type D p (fuel + 1) c d = some (1, c1,
        Ev.out (String.mk (fmt_u32 (D.get_tag c).2.1 ++ ['('])) :: Ev.call Site.tag 0 ::
          t1 ++ [Ev.ret Site.tag res, Ev.out ")"]) := by
    intro fuel res c1 t1 h
    rw [parse_type_tag D p _ c d hd ht, if_pos hs, h]
  refine ⟨h1, ?_⟩
  have hlt := (P.get_tag c).size_lt hs
  obtain ⟨⟨res, c1, t1⟩, hr, -⟩ :=
    parse_type_total P p (D.get_tag c).2.2 0 (2 * size c) (by omega)
  exact ⟨res, c1, t1, fun fuel hf => parse_type_fuel D p hf (h1 _ _ _ _ hr)⟩

/-- Witness of C19: tag 1 in front of a truncated integer (`c1 18`) and tag 1 at the end
of the input (`c1`): the dispatch of the wrapped item returns -1 and the tag returns 1. -/
theorem tag_discards_failure_witness :
    Progress nanocbor nanocbor_value_t.left nanocbor_value_t.stop ∧
    (0 : Nat) ≤ MAX_DEPTH ∧
    type_of nanocbor (nanocbor.decoder_init [0xc1, 0x18] 2) = NANOCBOR_TYPE_TAG ∧
    0 ≤ (nanocbor.get_tag (nanocbor.decoder_init [0xc1, 0x18] 2)).1 ∧
    (∃ c1, _parse_type nanocbor false 2 (nanocbor.decoder_init [0xc1, 0x18] 2) 0 =
      some (1, c1, [Ev.out "1(", Ev.call Site.tag 0, Ev.ret Site.tag (-1), Ev.out ")"])) ∧
    (∃ c1, _parse_type nanocbor false 2 (nanocbor.decoder_init [0xc1] 1) 0 =
      some (1, c1, [Ev.out "1(", Ev.call Site.tag 0, Ev.out "Unsupported type\n",
        Ev.ret Site.tag (-1), Ev.out ")"])) :=
  ⟨nanocbor_progress, by decide, by decide, by decide,
    ⟨_, (tag_discards_failure nanocbor _ _ nanocbor_progress false
      (nanocbor.decoder_init [0xc1, 0x18] 2) 0 (by decide) (by decide) (by decide)).1
        1 (-1) _ [] rfl⟩,
    ⟨_, (tag_discards_failure nanocbor _ _ nanocbor_progress false
      (nanocbor.decoder_init [0xc1] 1) 0 (by decide) (by decide) (by decide)).1
        1 (-1) _ [Ev.out "Unsupported type\n"] rfl⟩⟩

section float_cases
variable {σ : Type} (D : Decoder σ) (c : σ)

theorem parse_float_bool (g1 : 0 ≤ (D.get_bool c).1) :
    parse_float D c = (1, (D.get_bool c).2.2, [Ev.out (print_bool (D.get_bool c).2.1)]) := by
  simp only [parse_float, NANOCBOR_OK]
  rw [if_pos g1]

theorem parse_float_null (g1 : (D.get_bool c).1 < 0)
    (g2 : 0 ≤ (D.get_null (cur_null D c)).1) :
    parse_float D c = (1, (D.get_null (cur_null D c)).2, [Ev.out "null"]) := by
  simp only [parse_float, NANOCBOR_OK, cur_null] at g2 ⊢
  rw [if_neg (by omega), if_pos g2]

theorem parse_float_undefined (g1 : (D.get_bool c).1 < 0)
    (g2 : (D.get_null (cur_null D c)).1 < 0)
    (g3 : 0 ≤ (D.get_undefined (cur_undefined D c)).1) :
    parse_float D c =
      (1, (D.get_undefined (cur_undefined D c)).2, [Ev.out "\"undefined\""]) := by
  simp only [parse_float, NANOCBOR_OK, cur_null, cur_undefined] at g2 g3 ⊢
  rw [if_neg (by omega), if_neg (by omega), if_pos g3]

theorem parse_float_simple (g1 : (D.get_bool c).1 < 0)
    (g2 : (D.get_null (cur_null D c)).1 < 0)
    (g3 : (D.get_undefined (cur_undefined D c)).1 < 0)
    (g4 : 0 ≤ (D.get_simple (cur_simple D c)).1) :
    parse_float D c =
      (1, (D.get_simple (cur_simple D c)).2.2,
        [Ev.out (String.mk ("\"simple(".data ++
          fmt_u ((D.get_simple (cur_simple D c)).2.1 % 256) ++ ")\"".data))]) := by
  simp only [parse_float, NANOCBOR_OK, cur_null, cur_undefined, cur_simple] at g2 g3 g4 ⊢
  rw [if_neg (by omega), if_neg (by omega), if_neg (by omega), if_pos g4]

theorem parse_float_float (g1 : (D.get_bool c).1 < 0)
    (g2 : (D.get_null (cur_null D c)).1 < 0)
    (g3 : (D.get_undefined (cur_undefined D c)).1 < 0)
    (g4 : (D.get_simple (cur_simple D c)).1 < 0)
    (g5 : 0 ≤ (D.get_float (cur_float D c)).1) :
    parse_float D c =
      (1, (D.get_float (cur_float D c)).2.2,
        [Ev.out (D.printk_float (D.get_float (cur_float D c)).2.1)]) := by
  simp only [parse_float, NANOCBOR_OK, cur_null, cur_undefined, cur_simple, cur_float]
    at g2 g3 g4 g5 ⊢
  rw [if_neg (by omega), if_neg (by omega), if_neg (by omega), if_neg (by omega), if_pos g5]

theorem parse_float_double (g1 : (D.get_bool c).1 < 0)
    (g2 : (D.get_null (cur_null D c)).1 < 0)
    (g3 : (D.get_undefined (cur_undefined D c)).1 < 0)
    (g4 : (D.get_simple (cur_simple D c)).1 < 0)
    (g5 : (D.get_float (cur_float D c)).1 < 0)
    (g6 : 0 ≤ (D.get_double (cur_double D c)).1) :
    parse_float D c =
      (1, (D.get_double (cur_double D c)).2.2,
        [Ev.out (D.printk_double (D.get_double (cur_double D c)).2.1)]) := by
  simp only [parse_float, NANOCBOR_OK, cur_null, cur_undefined, cur_simple, cur_float,
    cur_double] at g2 g3 g4 g5 g6 ⊢
  rw [if_neg (by omega), if_neg (by omega), if_neg (by omega), if_neg (by omega),
    if_neg (by omega), if_pos g6]

theorem parse_float_none (g1 : (D.get_bool c).1 < 0)
    (g2 : (D.get_null (cur_null D c)).1 < 0)
    (g3 : (D.get_undefined (cur_undefined D c)).1 < 0)
    (g4 : (D.get_simple (cur_simple D c)).1 < 0)
    (g5 : (D.get_float (cur_float D c)).1 < 0)
    (g6 : (D.get_double (cur_double D c)).1 < 0) :
    parse_float D c = (-1, (D.get_double (cur_double D c)).2.2, []) := by
  simp only [parse_float, NANOCBOR_OK, cur_null, cur_undefined, cur_simple, cur_float,
    cur_double] at g2 g3 g4 g5 g6 ⊢
  rw [if_neg (by omega), if_neg (by omega), if_neg (by omega), if_neg (by omega),
    if_neg (by omega), if_neg (by omega)]

end float_cases

/-- C18: for an item of the float/simple type dispatched at depth at most 20,
`_parse_type` tries `get_bool`, `get_null`, `get_undefined`, `get_simple`, `get_float`
and `get_double` in this order, each on the cursor the failed ones before it left, and
writes the text of the first that succeeds and nothing else: `true` or `false`, `null`,
`"undefined"`, `"simple(N)"` with `N` in decimal, or the `%f` conversion of the value;
it returns -1 and writes nothing exactly when none of the six succeeds. -/
theorem float_simple_dispatch {σ : Type} (D : Decoder σ) (p : Bool) (fuel : Nat) (c : σ)
    (d : Nat) (hd : d ≤ MAX_DEPTH) (ht : type_of D c = NANOCBOR_TYPE_FLOAT) :
    ∃ res c1 t, _parse_type D p (fuel + 1) c d = some (res, c1, t) ∧
      (0 ≤ (D.get_bool c).1 →
        res = 1 ∧ c1 = (D.get_bool c).2.2 ∧
        t = [Ev.out (print_bool (D.get_bool c).2.1)]) ∧
      ((D.get_bool c).1 < 0 → 0 ≤ (D.get_null (cur_null D c)).1 →
        res = 1 ∧ c1 = (D.get_null (cur_null D c)).2 ∧ t = [Ev.out "null"]) ∧
      ((D.get_bool c).1 < 0 → (D.get_null (cur_null D c)).1 < 0 →
        0 ≤ (D.get_undefined (cur_undefined D c)).1 →
        res = 1 ∧ c1 = (D.get_undefined (cur_undefined D c)).2 ∧
        t = [Ev.out "\"undefined\""]) ∧
      ((D.get_bool c).1 < 0 → (D.get_null (cur_null D c)).1 < 0 →
        (D.get_undefined (cur_undefined D c)).1 < 0 →
        0 ≤ (D.get_simple (cur_simple D c)).1 →
        res = 1 ∧ c1 = (D.get_simple (cur_simple D c)).2.2 ∧
        text t = "\"simple(".data ++
          (Nat.repr ((D.get_simple (cur_simple D c)).2.1 % 256)).data ++ ")\"".data) ∧
      ((D.get_bool c).1 < 0 → (D.get_null (cur_null D c)).1 < 0 →
        (D.get_undefined (cur_undefined D c)).1 < 0 →
        (D.get_simple (cur_simple D c)).1 < 0 → 0 ≤ (D.get_float (cur_float D c)).1 →
        res = 1 ∧ c1 = (D.get_float (cur_float D c)).2.2 ∧
        t = [Ev.out (D.printk_float (D.get_float (cur_float D c)).2.1)]) ∧
      ((D.get_bool c).1 < 0 → (D.get_null (cur_null D c)).1 < 0 →
        (D.get_undefined (cur_undefined D c)).1 < 0 →
        (D.get_simple (cur_simple D c)).1 < 0 → (D.get_float (cur_float D c)).1 < 0 →
        0 ≤ (D.get_double (cur_double D c)).1 →
        res = 1 ∧ c1 = (D.get_double (cur_double D c)).2.2 ∧
        t = [Ev.out (D.printk_double (D.get_double (cur_double D c)).2.1)]) ∧
      (res < 0 ↔
        (D.get_bool c).1 < 0 ∧ (D.get_null (cur_null D c)).1 < 0 ∧
        (D.get_undefined (cur_undefined D c)).1 < 0 ∧
        (D.get_simple (cur_simple D c)).1 < 0 ∧ (D.get_float (cur_float D c)).1 < 0 ∧
        (D.get_double (cur_double D c)).1 < 0) ∧
      (res < 0 → res = -1 ∧ t = []) := by
  rw [parse_type_float D p _ c d hd ht]
  by_cases g1 : 0 ≤ (D.get_bool c).1
  · rw [parse_float_bool D c g1]
    exact ⟨_, _, _, rfl, fun _ => ⟨rfl, rfl, rfl⟩, fun h _ => absurd g1 (by omega),
      fun h _ _ => absurd g1 (by omega), fun h _ _ _ => absurd g1 (by omega),
      fun h _ _ _ _ => absurd g1 (by omega), fun h _ _ _ _ _ => absurd g1 (by omega),
      ⟨fun h => absurd h (by decide), fun h => absurd g1 (by omega)⟩,
      fun h => absurd h (by decide)⟩
  by_cases g2 : 0 ≤ (D.get_null (cur_null D c)).1
  · rw [parse_float_null D c (by omega) g2]
    exact ⟨_, _, _, rfl, fun h => absurd h g1, fun _ _ => ⟨rfl, rfl, rfl⟩,
      fun _ h _ => absurd g2 (by omega), fun _ h _ _ => absurd g2 (by omega),
      fun _ h _ _ _ => absurd g2 (by omega), fun _ h _ _ _ _ => absurd g2 (by omega),
      ⟨fun h => absurd h (by decide), fun h => absurd g2 (by omega)⟩,
      fun h => absurd h (by decide)⟩
  by_cases g3 : 0 ≤ (D.get_undefined (cur_undefined D c)).1
  · rw [parse_float_undefined D c (by omega) (by omega) g3]
    exact ⟨_, _, _, rfl, fun h => absurd h g1, fun _ h => absurd h g2,
      fun _ _ _ => ⟨rfl, rfl, rfl⟩, fun _ _ h _ => absurd g3 (by omega),
      fun _ _ h _ _ => absurd g3 (by omega), fun _ _ h _ _ _ => absurd g3 (by omega),
      ⟨fun h => absurd h (by decide), fun h => absurd g3 (by omega)⟩,
      fun h => absurd h (by decide)⟩
  by_cases g4 : 0 ≤ (D.get_simple (cur_simple D c)).1
  · rw [parse_float_simple D c (by omega) (by omega) (by omega) g4]
    exact ⟨_, _, _, rfl, fun h => absurd h g1, fun _ h => absurd h g2,
      fun _ _ h => absurd h g3,
      fun _ _ _ _ => ⟨rfl, rfl, by simp [fmt_u_eq_repr]⟩,
      fun _ _ _ h _ => absurd g4 (by omega), fun _ _ _ h _ _ => absurd g4 (by omega),
      ⟨fun h => absurd h (by decide), fun h => absurd g4 (by omega)⟩,
      fun h => absurd h (by decide)⟩
  by_cases g5 : 0 ≤ (D.get_float (cur_float D c)).1
  · rw [parse_float_float D c (by omega) (by omega) (by omega) (by omega) g5]
    exact ⟨_, _, _, rfl, fun h => absurd h g1, fun _ h => absurd h g2,
      fun _ _ h => absurd h g3, fun _ _ _ h => absurd h g4,
      fun _ _ _ _ _ => ⟨rfl, rfl, rfl⟩, fun _ _ _ _ h _ => absurd g5 (by omega),
      ⟨fun h => absurd h (by decide), fun h => absurd g5 (by omega)⟩,
      fun h => absurd h (by decide)⟩
  by_cases g6 : 0 ≤ (D.get_double (cur_double D c)).1
  · rw [parse_float_double D c (by omega) (by omega) (by omega) (by omega) (by omega) g6]
    exact ⟨_, _, _, rfl, fun h => absurd h g1, fun _ h => absurd h g2,
      fun _ _ h => absurd h g3, fun _ _ _ h => absurd h g4, fun _ _ _ _ h => absurd h g5,
      fun _ _ _ _ _ _ => ⟨rfl, rfl, rfl⟩,
      ⟨fun h => absurd h (by decide), fun h => absurd g6 (by omega)⟩,
      fun h => absurd h (by decide)⟩
  · rw [parse_float_none D c (by omega) (by omega) (by omega) (by omega) (by omega)
      (by omega)]
    exact ⟨_, _, _, rfl, fun h => absurd h g1, fun _ h => absurd h g2,
      fun _ _ h => absurd h g3, fun _ _ _ h => absurd h g4, fun _ _ _ _ h => absurd h g5,
      fun _ _ _ _ _ h => absurd h g6,
      ⟨fun _ => ⟨by omega, by omega, by omega, by omega, by omega, by omega⟩,
        fun _ => by decide⟩,
      fun _ => ⟨rfl, rfl⟩⟩

/-- Witness of C18: the simple value 16 (`f0`) is neither a boolean nor null nor
undefined; the fourth extraction succeeds and `"simple(16)"` is written. -/
theorem float_simple_dispatch_witness :
    (0 : Nat) ≤ MAX_DEPTH ∧
    type_of nanocbor (nanocbor.decoder_init [0xf0] 1) = NANOCBOR_TYPE_FLOAT ∧
    ∃ res c1 t, _parse_type nanocbor false 1 (nanocbor.decoder_init [0xf0] 1) 0 =
        some (res, c1, t) ∧ res = 1 ∧ text t = "\"simple(16)\"".data := by
  obtain ⟨res, c1, t, h, -, -, -, h4, -⟩ :=
    float_simple_dispatch nanocbor false 0 (nanocbor.decoder_init [0xf0] 1) 0
      (by decide) (by decide)
  obtain ⟨r1, -, r3⟩ := h4 (by decide) (by decide) (by decide) (by decide)
  exact ⟨by decide, by decide, res, c1, t, h, r1, by rw [r3]; decide⟩

/-! ## The pretty flag -/

section pretty_flag

@[simp] theorem erase_ws_nil : erase_ws [] = [] := rfl
@[simp] theorem erase_ws_ws (s : String) (es : List Ev) :
    erase_ws (Ev.ws s :: es) = erase_ws es := rfl
@[simp] theorem erase_ws_out (s : String) (es : List Ev) :
    erase_ws (Ev.out s :: es) = Ev.out s :: erase_ws es := rfl
@[simp] theorem erase_ws_call (s : Site) (d : Nat) (es : List Ev) :
    erase_ws (Ev.call s d :: es) = Ev.call s d :: erase_ws es := rfl
@[simp] theorem erase_ws_ret (s : Site) (r : Int) (es : List Ev) :
    erase_ws (Ev.ret s r :: es) = Ev.ret s r :: erase_ws es := rfl

@[simp] theorem erase_ws_append (a b : List Ev) :
    erase_ws (a ++ b) = erase_ws a ++ erase_ws b := by
  induction a with
  | nil => rfl
  | cons e a ih => cases e <;> simp [ih]

@[simp] theorem erase_ws_indent (d : Nat) : erase_ws (_print_indent true d) = [] := by
  simp only [_print_indent, if_true]
  induction d with
  | zero => rfl
  | succ d ih => simpa [List.replicate_succ] using ih

@[simp] theorem erase_ws_separator : erase_ws (_print_separator true) = [] := rfl

@[simp] theorem indent_false (d : Nat) : _print_indent false d = [] := rfl

@[simp] theorem separator_false : _print_separator false = [] := rfl

@[simp] theorem erase_ws_comma {σ : Type} (D : Decoder σ) (c : σ) :
    erase_ws (comma D c) = comma D c := by
  unfold comma
  split_ifs <;> rfl

@[simp] theorem erase_ws_hex (bs : List Nat) : erase_ws (hex_events bs) = hex_events bs := by
  induction bs with
  | nil => rfl
  | cons b bs ih => simp [hex_events, ih]

@[simp] theorem erase_ws_float {σ : Type} (D : Decoder σ) (c : σ) :
    erase_ws (parse_float D c).2.2 = (parse_float D c).2.2 := by
  simp only [parse_float]
  split_ifs <;> rfl

variable {σ : Type} (D : Decoder σ)

theorem erase_parse (n : Nat) :
    (∀ c d, _parse_cbor D false n c d =
      (_parse_cbor D true n c d).map (fun r => (r.1, erase_ws r.2))) ∧
    (∀ c d, _parse_map D false n c d =
      (_parse_map D true n c d).map (fun r => (r.1, erase_ws r.2))) ∧
    (∀ c d, _parse_type D false n c d =
      (_parse_type D true n c d).map (fun r => (r.1, r.2.1, erase_ws r.2.2))) := by
  induction n with
  | zero => exact ⟨fun _ _ => rfl, fun _ _ => rfl, fun _ _ => rfl⟩
  | succ n ih =>
    obtain ⟨ihc, ihm, iht⟩ := ih
    refine ⟨?_, ?_, ?_⟩
    · intro c d
      rw [_parse_cbor, _parse_cbor, iht]
      split_ifs with h1
      · rfl
      · cases ht : _parse_type D true n c d with
        | none => rfl
        | some x =>
          obtain ⟨res, it1, t⟩ := x
          simp only [Option.map_some']
          split_ifs with h2
          · simp
          · rw [ihc]
            cases hc : _parse_cbor D true n it1 d with
            | none => rfl
            | some y => simp
    · intro c d
      rw [_parse_map, _parse_map, iht]
      split_ifs with h1
      · rfl
      · cases ht : _parse_type D true n c d with
        | none => rfl
        | some x =>
          obtain ⟨res, it1, t⟩ := x
          simp only [Option.map_some']
          split_ifs with h2
          · simp
          · rw [iht]
            cases ht2 : _parse_type D true n it1 d with
            | none => rfl
            | some x2 =>
              obtain ⟨res2, it2, t2⟩ := x2
              simp only [Option.map_some']
              split_ifs with h3
              · simp
              · rw [ihm]
                cases hc : _parse_map D true n it2 d with
                | none => rfl
                | some y => simp
    · intro c d
      rcases type_cases D c d with hd | ⟨hd, ht | ht | ht | ht | ht | ht | ht | ht | ht⟩
      · rw [parse_type_deep D _ _ c d hd, parse_type_deep D _ _ c d hd]
        rfl
      · rw [parse_type_uint D _ _ c d hd ht, parse_type_uint D _ _ c d hd ht]
        split_ifs <;> rfl
      · rw [parse_type_nint D _ _ c d hd ht, parse_type_nint D _ _ c d hd ht]
        split_ifs <;> rfl
      · rw [parse_type_bstr D _ _ c d hd ht, parse_type_bstr D _ _ c d hd ht]
        split_ifs
        · cases hb : (D.get_bstr c).2.1 <;> simp
        · rfl
      · rw [parse_type_tstr D _ _ c d hd ht, parse_type_tstr D _ _ c d hd ht]
        split_ifs <;> rfl
      · rw [parse_type_arr D _ _ c d hd ht, parse_type_arr D _ _ c d hd ht, ihc]
        split_ifs
        · cases hc : _parse_cbor D true n (D.enter_array c).2 (d + 1) with
          | none => rfl
          | some y => simp
        · rfl
      · rw [parse_type_map D _ _ c d hd ht, parse_type_map D _ _ c d hd ht, ihm]
        split_ifs
        · cases hc : _parse_map D true n (D.enter_map c).2 (d + 1) with
          | none => rfl
          | some y => simp
        · rfl
      · rw [parse_type_float D _ _ c d hd ht, parse_type_float D _ _ c d hd ht]
        simp
      · rw [parse_type_tag D _ _ c d hd ht, parse_type_tag D _ _ c d hd ht, iht]
        split_ifs
        · cases hc : _parse_type D true n (D.get_tag c).2.2 0 with
          | none => rfl
          | some y => simp
        · rfl
      · rw [parse_type_default D _ _ c d hd ht, parse_type_default D _ _ c d hd ht]
        rfl

end pretty_flag

theorem erase_ws_idem (t : List Ev) : erase_ws (erase_ws t) = erase_ws t := by
  induction t with
  | nil => rfl
  | cons e t ih => cases e <;> simp [ih]

/-- C20: the pretty flag changes whitespace only.  For every decoder, fuel, buffer and
length the run of `nanocbor_print` with `pretty = false` returns the status of the run
with `pretty = true` and its log without the text written by `_print_indent` and
`_print_separator` (so the calls of the three routines, their depths and their results
are the same, and the text is the same up to that whitespace); the run with
`pretty = false` writes no such text at all; the walker of the formatted pass reaches
the same final cursor; and for a decoder that records its operations in the cursor the
recorded sequences of operations and statuses are the same.  Under the progress laws
both runs return, with status 0, when the fuel is at least twice the size of the input
plus two. -/
theorem pretty_whitespace_only {σ : Type} (D : Decoder σ) (fuel : Nat) (buffer : List Nat)
    (len : Nat) :
    nanocbor_print D fuel buffer len false =
      (nanocbor_print D fuel buffer len true).map (fun r => (r.1, erase_ws r.2)) ∧
    (∀ r, nanocbor_print D fuel buffer len true = some r →
      ∃ r0, nanocbor_print D fuel buffer len false = some r0 ∧ r0.1 = r.1 ∧
        text r0.2 = text (erase_ws r.2) ∧ erase_ws r0.2 = r0.2) ∧
    (_parse_cbor D false fuel (D.decoder_init buffer len) 0).map (fun r => r.1) =
      (_parse_cbor D true fuel (D.decoder_init buffer len) 0).map (fun r => r.1) ∧
    (_parse_cbor (logged D) false fuel ((logged D).decoder_init buffer len) 0).map
        (fun r => r.1.2) =
      (_parse_cbor (logged D) true fuel ((logged D).decoder_init buffer len) 0).map
        (fun r => r.1.2) ∧
    (∀ size bound, Progress D size bound →
      2 * size (D.decoder_init buffer len) + 2 ≤ fuel →
      ∃ t, nanocbor_print D fuel buffer len true = some (0, t) ∧
        nanocbor_print D fuel buffer len false = some (0, erase_ws t)) := by
  have h1 : nanocbor_print D fuel buffer len false =
      (nanocbor_print D fuel buffer len true).map (fun r => (r.1, erase_ws r.2)) := by
    unfold nanocbor_print
    cases hd : dry_run D fuel (D.decoder_init buffer len) with
    | none => rfl
    | some c0 =>
      simp only [(erase_parse D fuel).1]
      cases hp : _parse_cbor D true fuel (D.decoder_init buffer len) 0 with
      | none => rfl
      | some x => simp
  refine ⟨h1, ?_, ?_, ?_, ?_⟩
  · intro r hr
    rw [hr] at h1
    exact ⟨_, h1, rfl, rfl, erase_ws_idem _⟩
  · rw [(erase_parse D fuel).1]
    cases _parse_cbor D true fuel (D.decoder_init buffer len) 0 <;> rfl
  · rw [(erase_parse (logged D) fuel).1]
    cases _parse_cbor (logged D) true fuel ((logged D).decoder_init buffer len) 0 <;> rfl
  · intro size bound P hf
    obtain ⟨it, t, -, h⟩ := nanocbor_print_total P true buffer len fuel hf
    rw [h] at h1
    exact ⟨_, h, h1⟩

set_option maxRecDepth 100000 in
/-- A witness for C20: the array `82 01 02` with and without the pretty flag on the
byte-level decoder, and the operations recorded by the recording decoder in the
formatted pass. -/
theorem pretty_whitespace_only_witness :
    (∃ t, nanocbor_print nanocbor 10 [0x82, 0x01, 0x02] 3 true = some (0, t) ∧
      nanocbor_print nanocbor 10 [0x82, 0x01, 0x02] 3 false = some (0, erase_ws t)) ∧
    (nanocbor_print nanocbor 10 [0x82, 0x01, 0x02] 3 true).map (fun r => text r.2) =
      some "Start decoding 3 bytes:\n[\n  1, \n  2\n]\n\n".data ∧
    (nanocbor_print nanocbor 10 [0x82, 0x01, 0x02] 3 false).map (fun r => text r.2) =
      some "Start decoding 3 bytes:\n[1, 2]\n".data ∧
    (_parse_cbor (logged nanocbor) true 10
        ((logged nanocbor).decoder_init [0x82, 0x01, 0x02] 3) 0).map (fun r => r.1.2) =
      some [("enter_array", 0), ("get_uint64", 1), ("get_uint64", 1),
        ("leave_container", 0)] :=
  ⟨(pretty_whitespace_only nanocbor 10 [0x82, 0x01, 0x02] 3).2.2.2.2 _ _ nanocbor_progress
      (by decide), by decide, by decide, by decide⟩

/-! ## Iterations of the walkers -/

section walked
variable {σ : Type} (D : Decoder σ) (p : Bool)

theorem parse_cbor_end (n : Nat) (c : σ) (d : Nat) (h : D.at_end c = true) :
    _parse_cbor D p (n + 1) c d = some (c, []) := by
  simp [_parse_cbor, h]

theorem parse_map_end (n : Nat) (c : σ) (d : Nat) (h : D.at_end c = true) :
    _parse_map D p (n + 1) c d = some (c, []) := by
  simp [_parse_map, h]

theorem parse_cbor_fail (n : Nat) (c : σ) (d : Nat) (h : D.at_end c = false)
    (res : Int) (c1 : σ) (t : List Ev) (ht : _parse_type D p n c d = some (res, c1, t))
    (hr : res < 0) :
    _parse_cbor D p (n + 1) c d = some (c1, _print_indent p d ++ Ev.call Site.item d :: t ++
      [Ev.ret Site.item res, Ev.out "Err\n"]) := by
  simp [_parse_cbor, h, ht, hr]

theorem parse_cbor_item (n : Nat) (c : σ) (d : Nat) (h : D.at_end c = false)
    (res : Int) (c1 : σ) (t : List Ev) (ht : _parse_type D p n c d = some (res, c1, t))
    (hr : 0 ≤ res) (c2 : σ) (t2 : List Ev) (h2 : _parse_cbor D p n c1 d = some (c2, t2)) :
    _parse_cbor D p (n + 1) c d = some (c2, item_events D p d res c1 t ++ t2) := by
  simp [_parse_cbor, h, ht, not_lt.mpr hr, h2, item_events]

theorem parse_map_key_fail (n : Nat) (c : σ) (d : Nat) (h : D.at_end c = false)
    (res : Int) (c1 : σ) (t : List Ev) (ht : _parse_type D p n c d = some (res, c1, t))
    (hr : res < 0) :
    _parse_map D p (n + 1) c d = some (c1, _print_indent p d ++ Ev.call Site.key d :: t ++
      [Ev.ret Site.key res, Ev.out ": ", Ev.out "Err\n"]) := by
  simp [_parse_map, h, ht, hr]

theorem parse_map_val_fail (n : Nat) (c : σ) (d : Nat) (h : D.at_end c = false)
    (res : Int) (c1 : σ) (t : List Ev) (ht : _parse_type D p n c d = some (res, c1, t))
    (hr : 0 ≤ res) (res2 : Int) (c2 : σ) (t2 : List Ev)
    (ht2 : _parse_type D p n c1 d = some (res2, c2, t2)) (hr2 : res2 < 0) :
    _parse_map D p (n + 1) c d = some (c2, _print_indent p d ++ Ev.call Site.key d :: t ++
      Ev.ret Site.key res :: Ev.out ": " :: Ev.call Site.val d :: t2 ++
      [Ev.ret Site.val res2, Ev.out "Err\n"]) := by
  simp [_parse_map, h, ht, not_lt.mpr hr, ht2, hr2]

theorem parse_map_pair (n : Nat) (c : σ) (d : Nat) (h : D.at_end c = false)
    (res : Int) (c1 : σ) (t : List Ev) (ht : _parse_type D p n c d = some (res, c1, t))
    (hr : 0 ≤ res) (res2 : Int) (c2 : σ) (t2 : List Ev)
    (ht2 : _parse_type D p n c1 d = some (res2, c2, t2)) (hr2 : 0 ≤ res2)
    (c3 : σ) (t3 : List Ev) (h3 : _parse_map D p n c2 d = some (c3, t3)) :
    _parse_map D p (n + 1) c d = some (c3, pair_events D p d res res2 c2 t t2 ++ t3) := by
  simp [_parse_map, h, ht, not_lt.mpr hr, ht2, not_lt.mpr hr2, h3, pair_events]

/-- A walk of successful iterations followed by a run of the walker from where the walk
stands is a run of the walker from where the walk started. -/
theorem walked_run {d : Nat} {c ck : σ} {rs : List (List Char)} {tr : List Ev}
    (hw : Walked D p d c rs tr ck) (n : Nat) (c9 : σ) (t9 : List Ev)
    (h9 : _parse_cbor D p n ck d = some (c9, t9)) :
    ∃ fuel, _parse_cbor D p fuel c d = some (c9, tr ++ t9) := by
  induction hw with
  | done c => exact ⟨n, h9⟩
  | item c c1 ck fuel res t rs tr he ht hr _ ih =>
    obtain ⟨f1, hf1⟩ := ih h9
    refine ⟨max fuel f1 + 1, ?_⟩
    rw [parse_cbor_item D p _ c d he res c1 t
      (parse_type_fuel D p (le_max_left _ _) ht) hr c9 (tr ++ t9)
      (parse_cbor_fuel D p (le_max_right _ _) hf1)]
    simp only [List.append_assoc]

theorem walked_map_run {d : Nat} {c ck : σ} {rs : List (List Char × List Char)}
    {tr : List Ev} (hw : WalkedMap D p d c rs tr ck) (n : Nat) (c9 : σ) (t9 : List Ev)
    (h9 : _parse_map D p n ck d = some (c9, t9)) :
    ∃ fuel, _parse_map D p fuel c d = some (c9, tr ++ t9) := by
  induction hw with
  | done c => exact ⟨n, h9⟩
  | pair c c1 c2 ck fuel fuel2 res res2 t t2 rs tr he ht hr ht2 hr2 _ ih =>
    obtain ⟨f1, hf1⟩ := ih h9
    refine ⟨max (max fuel fuel2) f1 + 1, ?_⟩
    rw [parse_map_pair D p _ c d he res c1 t
      (parse_type_fuel D p (le_trans (le_max_left _ _) (le_max_left _ _)) ht) hr
      res2 c2 t2
      (parse_type_fuel D p (le_trans (le_max_right _ _) (le_max_left _ _)) ht2) hr2
      c9 (tr ++ t9) (parse_map_fuel D p (le_max_right _ _) hf1)]
    simp only [List.append_assoc]

end walked

/-- C17: in both walkers the first failing dispatch ends the walk.  After any number of
iterations whose dispatches succeeded (log `tr`), if the next dispatch of `_parse_cbor`
fails, the walker returns and its log is `tr`, the log of the failing dispatch and
`Err\n`, with nothing after it: no later item is dispatched and no `, ` follows.  In
`_parse_map`, if the key dispatch fails the log ends with `: ` and `Err\n` right after
the key dispatch, with no value dispatch; if the value dispatch fails after a successful
key, the log ends with `Err\n` right after the value dispatch, with no later pair. -/
theorem first_failure_ends_walk {σ : Type} (D : Decoder σ) (p : Bool) (d : Nat) :
    (∀ c rs tr ck fuel res c1 t, Walked D p d c rs tr ck → D.at_end ck = false →
      _parse_type D p fuel ck d = some (res, c1, t) → res < 0 →
      ∃ fuel1, _parse_cbor D p fuel1 c d = some (c1, tr ++ (_print_indent p d ++
        Ev.call Site.item d :: t ++ [Ev.ret Site.item res, Ev.out "Err\n"]))) ∧
    (∀ c rs tr ck fuel res c1 t, WalkedMap D p d c rs tr ck → D.at_end ck = false →
      _parse_type D p fuel ck d = some (res, c1, t) → res < 0 →
      ∃ fuel1, _parse_map D p fuel1 c d = some (c1, tr ++ (_print_indent p d ++
        Ev.call Site.key d :: t ++ [Ev.ret Site.key res, Ev.out ": ", Ev.out "Err\n"]))) ∧
    (∀ c rs tr ck fuel res c1 t fuel2 res2 c2 t2, WalkedMap D p d c rs tr ck →
      D.at_end ck = false →
      _parse_type D p fuel ck d = some (res, c1, t) → 0 ≤ res →
      _parse_type D p fuel2 c1 d = some (res2, c2, t2) → res2 < 0 →
      ∃ fuel1, _parse_map D p fuel1 c d = some (c2, tr ++ (_print_indent p d ++
        Ev.call Site.key d :: t ++ Ev.ret Site.key res :: Ev.out ": " ::
        Ev.call Site.val d :: t2 ++ [Ev.ret Site.val res2, Ev.out "Err\n"]))) := by
  refine ⟨?_, ?_, ?_⟩
  · intro c rs tr ck fuel res c1 t hw he ht hr
    exact walked_run D p hw (fuel + 1) c1 _ (parse_cbor_fail D p fuel ck d he res c1 t ht hr)
  · intro c rs tr ck fuel res c1 t hw he ht hr
    exact walked_map_run D p hw (fuel + 1) c1 _
      (parse_map_key_fail D p fuel ck d he res c1 t ht hr)
  · intro c rs tr ck fuel res c1 t fuel2 res2 c2 t2 hw he ht hr ht2 hr2
    exact walked_map_run D p hw (max fuel fuel2 + 1) c2 _
      (parse_map_val_fail D p _ ck d he res c1 t
        (parse_type_fuel D p (le_max_left _ _) ht) hr res2 c2 t2
        (parse_type_fuel D p (le_max_right _ _) ht2) hr2)

set_option maxRecDepth 100000 in
/-- A witness for C17: the sequence `01 18` (the second item is cut short), the map
body `01 02 18` (the second key is cut short) and the map body `01 02 03 18` (the
second value is cut short), each walked by the concrete decoder. -/
theorem first_failure_ends_walk_witness :
    (∃ fuel1, (_parse_cbor nanocbor false fuel1 (nanocbor.decoder_init [0x01, 0x18] 2) 0).map
        (fun r => r.2) =
      some [Ev.call Site.item 0, Ev.out "1", Ev.ret Site.item 1, Ev.out ", ",
        Ev.call Site.item 0, Ev.ret Site.item (-1), Ev.out "Err\n"]) ∧
    (∃ fuel1, (_parse_map nanocbor false fuel1
        (nanocbor.decoder_init [0x01, 0x02, 0x18] 3) 0).map (fun r => r.2) =
      some [Ev.call Site.key 0, Ev.out "1", Ev.ret Site.key 1, Ev.out ": ",
        Ev.call Site.val 0, Ev.out "2", Ev.ret Site.val 1, Ev.out ", ",
        Ev.call Site.key 0, Ev.ret Site.key (-1), Ev.out ": ", Ev.out "Err\n"]) ∧
    (∃ fuel1, (_parse_map nanocbor false fuel1
        (nanocbor.decoder_init [0x01, 0x02, 0x03, 0x18] 4) 0).map (fun r => r.2) =
      some [Ev.call Site.key 0, Ev.out "1", Ev.ret Site.key 1, Ev.out ": ",
        Ev.call Site.val 0, Ev.out "2", Ev.ret Site.val 1, Ev.out ", ",
        Ev.call Site.key 0, Ev.out "3", Ev.ret Site.key 1, Ev.out ": ",
        Ev.call Site.val 0, Ev.ret Site.val (-1), Ev.out "Err\n"]) := by
  have W := first_failure_ends_walk nanocbor false 0
  refine ⟨?_, ?_, ?_⟩
  · obtain ⟨f, hf⟩ := W.1 (nanocbor.decoder_init [0x01, 0x18] 2) _ _ _ 1 (-1) _ []
      (Walked.item _ _ _ 1 1 _ _ _ (by decide) (by rfl) (by decide) (Walked.done _))
      (by decide) (by rfl) (by decide)
    exact ⟨f, by rw [hf]; rfl⟩
  · obtain ⟨f, hf⟩ := W.2.1 (nanocbor.decoder_init [0x01, 0x02, 0x18] 3) _ _ _ 1 (-1) _ []
      (WalkedMap.pair _ _ _ _ 1 1 1 1 _ _ _ _ (by decide) (by rfl) (by decide) (by rfl)
        (by decide) (WalkedMap.done _))
      (by decide) (by rfl) (by decide)
    exact ⟨f, by rw [hf]; rfl⟩
  · obtain ⟨f, hf⟩ := W.2.2 (nanocbor.decoder_init [0x01, 0x02, 0x03, 0x18] 4) _ _ _ 1 1 _ _
      1 (-1) _ []
      (WalkedMap.pair _ _ _ _ 1 1 1 1 _ _ _ _ (by decide) (by rfl) (by decide) (by rfl)
        (by decide) (WalkedMap.done _))
      (by decide) (by rfl) (by decide) (by rfl) (by decide)
    exact ⟨f, by rw [hf]; rfl⟩

/-! ## The text of a walk -/

theorem text_print_indent (d : Nat) : text (_print_indent true d) = List.replicate (2 * d) ' ' := by
  induction d with
  | zero => rfl
  | succ d ih =>
    have h : _print_indent true (d + 1) = Ev.ws "  " :: _print_indent true d := by
      simp [_print_indent, List.replicate_succ]
    rw [h, text_cons, ih, Nat.mul_succ, List.replicate_add]
    simp only [chars_ws]
    rw [← List.replicate_add, Nat.add_comm, List.replicate_add]
    rfl

theorem layout_flat (d : Nat) (rs : List (List Char)) :
    layout false d rs = (", ".data).intercalate rs := by
  induction rs with
  | nil => rfl
  | cons r rs ih =>
    cases rs with
    | nil => simp [layout, _print_indent, _print_separator, List.intercalate]
    | cons r2 rs =>
      rw [layout, ih]
      simp [_print_indent, _print_separator, List.intercalate]

theorem layout_pretty (d : Nat) (rs : List (List Char)) :
    layout true d rs = pretty_lines (2 * d) rs := by
  induction rs with
  | nil => rfl
  | cons r rs ih =>
    cases rs with
    | nil =>
      rw [layout, pretty_lines, text_print_indent]
      rfl
    | cons r2 rs =>
      rw [layout, pretty_lines, ih, text_print_indent]
      rfl

section walked_text
variable {σ : Type} (D : Decoder σ) (p : Bool)

theorem walked_tail {d : Nat} {c ck : σ} {rs : List (List Char)} {tr : List Ev}
    (hw : Walked D p d c rs tr ck) (hend : D.at_end ck = true) :
    (D.at_end c = true → rs = []) ∧ (D.at_end c = false → ∃ r rs1, rs = r :: rs1) := by
  cases hw with
  | done => exact ⟨fun _ => rfl, fun h => (by rw [h] at hend; cases hend)⟩
  | item =>
    exact ⟨fun h => (by simp_all), fun _ => ⟨_, _, rfl⟩⟩

theorem walked_map_tail {d : Nat} {c ck : σ} {rs : List (List Char × List Char)}
    {tr : List Ev} (hw : WalkedMap D p d c rs tr ck) (hend : D.at_end ck = true) :
    (D.at_end c = true → rs = []) ∧ (D.at_end c = false → ∃ r rs1, rs = r :: rs1) := by
  cases hw with
  | done => exact ⟨fun _ => rfl, fun h => (by rw [h] at hend; cases hend)⟩
  | pair =>
    exact ⟨fun h => (by simp_all), fun _ => ⟨_, _, rfl⟩⟩

theorem walked_text {d : Nat} {c ck : σ} {rs : List (List Char)} {tr : List Ev}
    (hw : Walked D p d c rs tr ck) (hend : D.at_end ck = true) :
    text tr = layout p d rs := by
  induction hw with
  | done c => rfl
  | item c c1 ck fuel res t rs tr he ht hr hw1 ih =>
    have tl := walked_tail D p hw1 hend
    cases h1 : D.at_end c1 with
    | true =>
      have h0 := tl.1 h1
      subst h0
      have ih1 := ih hend
      simp only [layout] at ih1
      simp [item_events, comma, h1, layout, ih1]
    | false =>
      obtain ⟨r, rs1, h0⟩ := tl.2 h1
      subst h0
      simp [item_events, comma, h1, layout, ih hend]

theorem walked_map_text {d : Nat} {c ck : σ} {rs : List (List Char × List Char)}
    {tr : List Ev} (hw : WalkedMap D p d c rs tr ck) (hend : D.at_end ck = true) :
    text tr = layout p d (rs.map pair_text) := by
  induction hw with
  | done c => rfl
  | pair c c1 c2 ck fuel fuel2 res res2 t t2 rs tr he ht hr ht2 hr2 hw1 ih =>
    have tl := walked_map_tail D p hw1 hend
    cases h1 : D.at_end c2 with
    | true =>
      have h0 := tl.1 h1
      subst h0
      have ih1 := ih hend
      simp only [List.map_nil, layout] at ih1
      simp [pair_events, comma, h1, layout, ih1, pair_text]
    | false =>
      obtain ⟨r, rs1, h0⟩ := tl.2 h1
      subst h0
      simp [pair_events, comma, h1, layout, ih hend, pair_text]

end walked_text

/-! ## Brackets -/

theorem bracket_step_plain (st : List String) (s : String) (h : plain s) :
    bracket_step st s = some st := by
  obtain ⟨h1, h2, h3, h4⟩ := h
  simp [bracket_step, h1, h2, h3, h4]

theorem plain_mk (l : List Char) (h : l.length ≠ 1 ∨ ∃ ch rest, l = ch :: rest ∧
    ch ≠ '[' ∧ ch ≠ ']' ∧ ch ≠ '\x7b' ∧ ch ≠ '\x7d') : plain (String.mk l) := by
  have key : ∀ x : Char, (x = '[' ∨ x = ']' ∨ x = '\x7b' ∨ x = '\x7d') →
      String.mk l ≠ String.mk [x] := by
    intro x hx e
    have e1 : l = [x] := by simpa using congrArg String.data e
    rcases h with h | ⟨ch, rest, hl, a, b, c, d⟩
    · exact h (by rw [e1]; rfl)
    · rw [hl] at e1
      have e2 : ch = x := by simpa using (List.cons.inj e1).1
      rcases hx with hx | hx | hx | hx <;> simp_all
  exact ⟨key '[' (by simp), key ']' (by simp), key '\x7b' (by simp), key '\x7d' (by simp)⟩

theorem plain_digits (n : Nat) (rest : List Char) : plain (String.mk (fmt_u n ++ rest)) := by
  obtain ⟨ch, r, h, _⟩ := fmt_u_head n
  have hd : ch.isDigit = true := fmt_u_digits n ch (by rw [h]; simp)
  refine plain_mk _ (Or.inr ⟨ch, r ++ rest, by rw [h]; rfl, ?_, ?_, ?_, ?_⟩) <;>
    · intro e
      rw [e] at hd
      exact absurd hd (by decide)

theorem plain_fmt_i64 (i : Int) : plain (String.mk (fmt_i64 i)) := by
  unfold fmt_i64
  split_ifs
  · exact plain_mk _ (Or.inr ⟨'-', _, rfl, by decide, by decide, by decide, by decide⟩)
  · have := plain_digits (wrap_i64 i).toNat []
    rwa [List.append_nil] at this

theorem plain_printk_f (b : Nat) : plain (printk_f b) := by
  have := plain_digits b []
  rwa [List.append_nil] at this

theorem matched_nil : Matched [] := fun _ _ => rfl

theorem matched_append {a b : List Ev} (ha : Matched a) (hb : Matched b) :
    Matched (a ++ b) := by
  intro st post
  rw [List.append_assoc, ha, hb]

theorem matched_out (s : String) (hs : plain s) {t : List Ev} (h : Matched t) :
    Matched (Ev.out s :: t) := by
  intro st post
  simp only [List.cons_append, brackets, bracket_step_plain st s hs]
  exact h st post

theorem matched_ws (s : String) {t : List Ev} (h : Matched t) : Matched (Ev.ws s :: t) := by
  intro st post
  simp only [List.cons_append, brackets]
  exact h st post

theorem matched_call (s : Site) (d : Nat) {t : List Ev} (h : Matched t) :
    Matched (Ev.call s d :: t) := by
  intro st post
  simp only [List.cons_append, brackets]
  exact h st post

theorem matched_ret (s : Site) (r : Int) {t : List Ev} (h : Matched t) :
    Matched (Ev.ret s r :: t) := by
  intro st post
  simp only [List.cons_append, brackets]
  exact h st post

theorem matched_square {t : List Ev} (h : Matched t) :
    Matched (Ev.out "[" :: (t ++ [Ev.out "]"])) := by
  intro st post
  have e1 : bracket_step st "[" = some ("]" :: st) := by simp [bracket_step]
  have e2 : bracket_step ("]" :: st) "]" = some st := by simp [bracket_step]
  have e3 : Ev.out "[" :: (t ++ [Ev.out "]"]) ++ post = Ev.out "[" :: (t ++ Ev.out "]" :: post) := by
    simp
  rw [e3]
  simp only [brackets, e1]
  rw [h]
  simp only [brackets, e2]

theorem matched_curly {t : List Ev} (h : Matched t) :
    Matched (Ev.out "\x7b" :: (t ++ [Ev.out "\x7d"])) := by
  intro st post
  have e1 : bracket_step st "\x7b" = some ("\x7d" :: st) := by simp [bracket_step]
  have e2 : bracket_step ("\x7d" :: st) "\x7d" = some st := by simp [bracket_step]
  have e3 : Ev.out "\x7b" :: (t ++ [Ev.out "\x7d"]) ++ post = Ev.out "\x7b" :: (t ++ Ev.out "\x7d" :: post) := by
    simp
  rw [e3]
  simp only [brackets, e1]
  rw [h]
  simp only [brackets, e2]

theorem matched_indent (p : Bool) (d : Nat) : Matched (_print_indent p d) := by
  unfold _print_indent
  split_ifs
  · induction d with
    | zero => exact matched_nil
    | succ d ih => exact matched_ws _ ih
  · exact matched_nil

theorem matched_separator (p : Bool) : Matched (_print_separator p) := by
  unfold _print_separator
  split_ifs
  · exact matched_ws _ matched_nil
  · exact matched_nil

theorem matched_comma {σ : Type} (D : Decoder σ) (c : σ) : Matched (comma D c) := by
  unfold comma
  split_ifs
  · exact matched_nil
  · exact matched_out _ (by simp [plain]) matched_nil

theorem matched_hex (bs : List Nat) : Matched (hex_events bs) := by
  induction bs with
  | nil => exact matched_nil
  | cons b bs ih => exact matched_out _ (plain_mk _ (Or.inl (by simp [fmt_x2]))) ih

section matching
variable {σ : Type} (D : Decoder σ) (p : Bool)
variable (hfmt : ∀ b, plain (D.printk_float b) ∧ plain (D.printk_double b))
include hfmt

theorem matched_float (c : σ) : Matched (parse_float D c).2.2 := by
  simp only [parse_float]
  split_ifs
  · refine matched_out _ ?_ matched_nil
    cases (D.get_bool c).2.1 <;> simp [plain, print_bool]
  · exact matched_out _ (by simp [plain]) matched_nil
  · exact matched_out _ (by simp [plain]) matched_nil
  · exact matched_out _ (plain_mk _ (Or.inr ⟨'"', _, rfl, by decide, by decide, by decide,
      by decide⟩)) matched_nil
  · exact matched_out _ (hfmt _).1 matched_nil
  · exact matched_out _ (hfmt _).2 matched_nil
  · exact matched_nil

theorem matched_parse (n : Nat) :
    (∀ c d r, _parse_cbor D p n c d = some r → Matched r.2) ∧
    (∀ c d r, _parse_map D p n c d = some r → Matched r.2) ∧
    (∀ c d r, _parse_type D p n c d = some r → Matched r.2.2) := by
  have perr : plain "Err\n" := by simp [plain]
  have pcol : plain ": " := by simp [plain]
  induction n with
  | zero =>
    refine ⟨?_, ?_, ?_⟩ <;> intro c d r h
    · simp [_parse_cbor] at h
    · simp [_parse_map] at h
    · simp [_parse_type] at h
  | succ n ih =>
    obtain ⟨ihc, ihm, iht⟩ := ih
    refine ⟨?_, ?_, ?_⟩
    · intro c d r h
      rw [_parse_cbor] at h
      split_ifs at h with h1
      · obtain rfl := Option.some.inj h
        exact matched_nil
      · cases ht : _parse_type D p n c d with
        | none => simp [ht] at h
        | some x =>
          obtain ⟨res, it1, t⟩ := x
          have gt : Matched t := iht _ _ _ ht
          simp only [ht] at h
          split_ifs at h with h2
          · obtain rfl := Option.some.inj h
            try simp only [List.append_assoc, List.cons_append, List.nil_append, List.append_eq]
            exact matched_append (matched_indent p d) (matched_call _ _ (matched_append gt
              (matched_ret _ _ (matched_out _ perr matched_nil))))
          · cases hc : _parse_cbor D p n it1 d with
            | none => simp [hc] at h
            | some y =>
              have gy : Matched y.2 := ihc _ _ _ hc
              simp only [hc] at h
              obtain rfl := Option.some.inj h
              try simp only [List.append_assoc, List.cons_append, List.nil_append, List.append_eq]
              exact matched_append (matched_indent p d) (matched_call _ _ (matched_append gt
                (matched_ret _ _ (matched_append (matched_comma D it1)
                  (matched_append (matched_separator p) gy)))))
    · intro c d r h
      rw [_parse_map] at h
      split_ifs at h with h1
      · obtain rfl := Option.some.inj h
        exact matched_nil
      · cases ht : _parse_type D p n c d with
        | none => simp [ht] at h
        | some x =>
          obtain ⟨res, it1, t⟩ := x
          have gt : Matched t := iht _ _ _ ht
          simp only [ht] at h
          split_ifs at h with h2
          · obtain rfl := Option.some.inj h
            try simp only [List.append_assoc, List.cons_append, List.nil_append, List.append_eq]
            exact matched_append (matched_indent p d) (matched_call _ _ (matched_append gt
              (matched_ret _ _ (matched_out _ pcol (matched_out _ perr matched_nil)))))
          · cases ht2 : _parse_type D p n it1 d with
            | none => simp [ht2] at h
            | some x2 =>
              obtain ⟨res2, it2, t2⟩ := x2
              have gt2 : Matched t2 := iht _ _ _ ht2
              simp only [ht2] at h
              split_ifs at h with h3
              · obtain rfl := Option.some.inj h
                try simp only [List.append_assoc, List.cons_append, List.nil_append, List.append_eq]
                exact matched_append (matched_indent p d) (matched_call _ _ (matched_append gt
                  (matched_ret _ _ (matched_out _ pcol (matched_call _ _
                    (matched_append gt2 (matched_ret _ _ (matched_out _ perr matched_nil))))))))
              · cases hc : _parse_map D p n it2 d with
                | none => simp [hc] at h
                | some y =>
                  have gy : Matched y.2 := ihm _ _ _ hc
                  simp only [hc] at h
                  obtain rfl := Option.some.inj h
                  try simp only [List.append_assoc, List.cons_append, List.nil_append, List.append_eq]
                  exact matched_append (matched_indent p d) (matched_call _ _ (matched_append gt
                    (matched_ret _ _ (matched_out _ pcol (matched_call _ _
                      (matched_append gt2 (matched_ret _ _ (matched_append (matched_comma D it2)
                        (matched_append (matched_separator p) gy)))))))))
    · intro c d r h
      rcases type_cases D c d with hd | ⟨hd, ht | ht | ht | ht | ht | ht | ht | ht | ht⟩
      · rw [parse_type_deep D p _ c d hd] at h
        obtain rfl := Option.some.inj h
        exact matched_nil
      · rw [parse_type_uint D p _ c d hd ht] at h
        split_ifs at h <;> obtain rfl := Option.some.inj h
        · refine matched_out _ ?_ matched_nil
          have := plain_digits ((D.get_uint64 c).2.1 % 2 ^ 64) []
          rwa [List.append_nil] at this
        · exact matched_nil
      · rw [parse_type_nint D p _ c d hd ht] at h
        split_ifs at h <;> obtain rfl := Option.some.inj h
        · exact matched_out _ (plain_fmt_i64 _) matched_nil
        · exact matched_nil
      · rw [parse_type_bstr D p _ c d hd ht] at h
        split_ifs at h
        · cases hb : (D.get_bstr c).2.1 with
          | none =>
            simp only [hb] at h
            obtain rfl := Option.some.inj h
            exact matched_nil
          | some buf =>
            simp only [hb] at h
            obtain rfl := Option.some.inj h
            try simp only [List.append_assoc, List.cons_append, List.nil_append, List.append_eq]
            exact matched_out _ (by simp [plain]) (matched_append (matched_hex buf)
              (matched_out _ (by simp [plain]) matched_nil))
        · obtain rfl := Option.some.inj h
          exact matched_nil
      · rw [parse_type_tstr D p _ c d hd ht] at h
        split_ifs at h <;> obtain rfl := Option.some.inj h
        · exact matched_out _ (plain_mk _ (Or.inr ⟨'"', _, rfl, by decide, by decide,
            by decide, by decide⟩)) matched_nil
        · exact matched_nil
      · rw [parse_type_arr D p _ c d hd ht] at h
        split_ifs at h
        · cases hc : _parse_cbor D p n (D.enter_array c).2 (d + 1) with
          | none => simp [hc] at h
          | some y =>
            have gy : Matched y.2 := ihc _ _ _ hc
            simp only [hc] at h
            obtain rfl := Option.some.inj h
            have := matched_square (matched_append (matched_separator p)
              (matched_call Site.arr (d + 1) (matched_append gy
                (matched_ret Site.arr 0 (matched_indent p d)))))
            simpa only [List.append_assoc, List.cons_append, List.nil_append,
              List.append_eq] using this
        · obtain rfl := Option.some.inj h
          exact matched_nil
      · rw [parse_type_map D p _ c d hd ht] at h
        split_ifs at h
        · cases hc : _parse_map D p n (D.enter_map c).2 (d + 1) with
          | none => simp [hc] at h
          | some y =>
            have gy : Matched y.2 := ihm _ _ _ hc
            simp only [hc] at h
            obtain rfl := Option.some.inj h
            have := matched_curly (matched_append (matched_separator p)
              (matched_call Site.map (d + 1) (matched_append gy
                (matched_ret Site.map 0 (matched_indent p d)))))
            simpa only [List.append_assoc, List.cons_append, List.nil_append,
              List.append_eq] using this
        · obtain rfl := Option.some.inj h
          exact matched_nil
      · rw [parse_type_float D p _ c d hd ht] at h
        obtain rfl := Option.some.inj h
        exact matched_float D hfmt c
      · rw [parse_type_tag D p _ c d hd ht] at h
        split_ifs at h
        · cases hc : _parse_type D p n (D.get_tag c).2.2 0 with
          | none => simp [hc] at h
          | some y =>
            have gy : Matched y.2.2 := iht _ _ _ hc
            simp only [hc] at h
            obtain rfl := Option.some.inj h
            try simp only [List.append_assoc, List.cons_append, List.nil_append, List.append_eq]
            exact matched_out _ (plain_digits _ _) (matched_call _ _ (matched_append gy
              (matched_ret _ _ (matched_out _ (by simp [plain]) matched_nil))))
        · obtain rfl := Option.some.inj h
          exact matched_nil
      · rw [parse_type_default D p _ c d hd ht] at h
        obtain rfl := Option.some.inj h
        exact matched_out _ (by simp [plain]) matched_nil

end matching

/-! ## The text of arrays and maps -/

section containers
variable {σ : Type} (D : Decoder σ) (p : Bool)

/-- The dispatch of an array whose walk is given: the run, its cursor and its text. -/
theorem array_run (c : σ) (d : Nat) (hd : d ≤ MAX_DEPTH)
    (ht : type_of D c = NANOCBOR_TYPE_ARR) (he : 0 ≤ (D.enter_array c).1)
    (rs : List (List Char)) (tr : List Ev) (ck : σ)
    (hw : Walked D p (d + 1) (D.enter_array c).2 rs tr ck) (hend : D.at_end ck = true) :
    ∃ fuel t, _parse_type D p fuel c d = some (1, D.leave_container c ck, t) ∧
      text t = '[' :: text (_print_separator p) ++ layout p (d + 1) rs ++
        text (_print_indent p d) ++ [']'] := by
  obtain ⟨f, hf⟩ := walked_run D p hw 1 ck [] (parse_cbor_end D p 0 ck (d + 1) hend)
  rw [List.append_nil] at hf
  refine ⟨f + 1, Ev.out "[" :: _print_separator p ++ Ev.call Site.arr (d + 1) :: tr ++
    Ev.ret Site.arr 0 :: _print_indent p d ++ [Ev.out "]"], ?_, ?_⟩
  · rw [parse_type_arr D p f c d hd ht, if_pos he, hf]
  · simp [walked_text D p hw hend]

/-- The dispatch of a map whose walk is given: the run, its cursor and its text. -/
theorem map_run (c : σ) (d : Nat) (hd : d ≤ MAX_DEPTH)
    (ht : type_of D c = NANOCBOR_TYPE_MAP) (he : 0 ≤ (D.enter_map c).1)
    (rs : List (List Char × List Char)) (tr : List Ev) (ck : σ)
    (hw : WalkedMap D p (d + 1) (D.enter_map c).2 rs tr ck) (hend : D.at_end ck = true) :
    ∃ fuel t, _parse_type D p fuel c d = some (1, D.leave_container c ck, t) ∧
      text t = '\x7b' :: text (_print_separator p) ++ layout p (d + 1) (rs.map pair_text) ++
        text (_print_indent p d) ++ ['\x7d'] := by
  obtain ⟨f, hf⟩ := walked_map_run D p hw 1 ck [] (parse_map_end D p 0 ck (d + 1) hend)
  rw [List.append_nil] at hf
  refine ⟨f + 1, Ev.out "\x7b" :: _print_separator p ++ Ev.call Site.map (d + 1) :: tr ++
    Ev.ret Site.map 0 :: _print_indent p d ++ [Ev.out "\x7d"], ?_, ?_⟩
  · rw [parse_type_map D p f c d hd ht, if_pos he, hf]
  · simp [walked_map_text D p hw hend]

end containers

/-- C13: without the pretty flag, the dispatch of an array (not deeper than the limit,
entered with success) whose `rs.length` items all dispatch successfully returns 1 and
writes exactly `[`, the texts `rs` of the items in order joined by `, `, and `]`; no
newline, no indentation and no trailing separator are written. -/
theorem array_joined {σ : Type} (D : Decoder σ) (c : σ) (d : Nat) (hd : d ≤ MAX_DEPTH)
    (ht : type_of D c = NANOCBOR_TYPE_ARR) (he : 0 ≤ (D.enter_array c).1)
    (rs : List (List Char)) (tr : List Ev) (ck : σ)
    (hw : Walked D false (d + 1) (D.enter_array c).2 rs tr ck) (hend : D.at_end ck = true) :
    ∃ fuel t, _parse_type D false fuel c d = some (1, D.leave_container c ck, t) ∧
      text t = '[' :: (", ".data).intercalate rs ++ [']'] := by
  obtain ⟨fuel, t, h, e⟩ := array_run D false c d hd ht he rs tr ck hw hend
  refine ⟨fuel, t, h, ?_⟩
  rw [e, layout_flat]
  simp [_print_separator, _print_indent]

/-- C14: without the pretty flag, the dispatch of a map (not deeper than the limit,
entered with success) whose `rs.length` key/value pairs all dispatch successfully returns
1 and writes exactly an opening brace, the pairs in order, each as the text of the key,
`: ` and the text of the value (`pair_text`), joined by `, `, and a closing brace. -/
theorem map_joined {σ : Type} (D : Decoder σ) (c : σ) (d : Nat) (hd : d ≤ MAX_DEPTH)
    (ht : type_of D c = NANOCBOR_TYPE_MAP) (he : 0 ≤ (D.enter_map c).1)
    (rs : List (List Char × List Char)) (tr : List Ev) (ck : σ)
    (hw : WalkedMap D false (d + 1) (D.enter_map c).2 rs tr ck)
    (hend : D.at_end ck = true) :
    ∃ fuel t, _parse_type D false fuel c d = some (1, D.leave_container c ck, t) ∧
      text t = '\x7b' :: (", ".data).intercalate (rs.map pair_text) ++ ['\x7d'] := by
  obtain ⟨fuel, t, h, e⟩ := map_run D false c d hd ht he rs tr ck hw hend
  refine ⟨fuel, t, h, ?_⟩
  rw [e, layout_flat]
  simp [_print_separator, _print_indent]

set_option maxRecDepth 100000 in
/-- A witness for C13: the array `82 01 02` is written as `[1, 2]` and the empty array
`80` as `[]`. -/
theorem array_joined_witness :
    (∃ fuel, (_parse_type nanocbor false fuel (nanocbor.decoder_init [0x82, 0x01, 0x02] 3)
        0).map (fun r => (r.1, text r.2.2)) = some (1, "[1, 2]".data)) ∧
    (∃ fuel, (_parse_type nanocbor false fuel (nanocbor.decoder_init [0x80] 1)
        0).map (fun r => (r.1, text r.2.2)) = some (1, "[]".data)) := by
  constructor
  · obtain ⟨fuel, t, h, e⟩ := array_joined nanocbor (nanocbor.decoder_init [0x82, 0x01, 0x02] 3)
      0 (by decide) (by decide) (by decide) _ _ _
      (Walked.item _ _ _ 1 1 _ _ _ (by decide) (by rfl) (by decide)
        (Walked.item _ _ _ 1 1 _ _ _ (by decide) (by rfl) (by decide) (Walked.done _)))
      (by decide)
    refine ⟨fuel, ?_⟩
    rw [h]
    show some ((1 : Int), text t) = _
    rw [e]
    rfl
  · obtain ⟨fuel, t, h, e⟩ := array_joined nanocbor (nanocbor.decoder_init [0x80] 1)
      0 (by decide) (by decide) (by decide) _ _ _ (Walked.done _) (by decide)
    refine ⟨fuel, ?_⟩
    rw [h]
    show some ((1 : Int), text t) = _
    rw [e]
    rfl

set_option maxRecDepth 100000 in
/-- A witness for C14: the map `a1 01 61 61` is written as `{1: "a"}` and the empty map
`a0` as `{}`. -/
theorem map_joined_witness :
    (∃ fuel, (_parse_type nanocbor false fuel
        (nanocbor.decoder_init [0xa1, 0x01, 0x61, 0x61] 4) 0).map
          (fun r => (r.1, text r.2.2)) = some (1, "\x7b1: \"a\"\x7d".data)) ∧
    (∃ fuel, (_parse_type nanocbor false fuel (nanocbor.decoder_init [0xa0] 1)
        0).map (fun r => (r.1, text r.2.2)) = some (1, "\x7b\x7d".data)) := by
  constructor
  · obtain ⟨fuel, t, h, e⟩ := map_joined nanocbor
      (nanocbor.decoder_init [0xa1, 0x01, 0x61, 0x61] 4)
      0 (by decide) (by decide) (by decide) _ _ _
      (WalkedMap.pair _ _ _ _ 1 1 1 1 _ _ _ _ (by decide) (by rfl) (by decide) (by rfl)
        (by decide) (WalkedMap.done _))
      (by decide)
    refine ⟨fuel, ?_⟩
    rw [h]
    show some ((1 : Int), text t) = _
    rw [e]
    rfl
  · obtain ⟨fuel, t, h, e⟩ := map_joined nanocbor (nanocbor.decoder_init [0xa0] 1)
      0 (by decide) (by decide) (by decide) _ _ _ (WalkedMap.done _) (by decide)
    refine ⟨fuel, ?_⟩
    rw [h]
    show some ((1 : Int), text t) = _
    rw [e]
    rfl

/-- C16: with the pretty flag, the dispatch at depth `d` of an array or a map (not deeper
than the limit, entered with success) whose items, or key/value pairs, all dispatch
successfully returns 1 and writes the opening bracket, a newline, then for each item
(or pair, written as key, `: `, value) exactly `2 * (d + 1)` spaces, the item, `, ` if
and only if more items remain, and a newline, and finally exactly `2 * d` spaces and the
closing bracket.  In every log of the dispatcher each opening bracket written by the
dispatcher is matched by its closing bracket: the log leaves every stack of open
brackets as it found it (the `%f` conversion is assumed not to write a bare bracket). -/
theorem pretty_container {σ : Type} (D : Decoder σ)
    (hfmt : ∀ b, plain (D.printk_float b) ∧ plain (D.printk_double b))
    (c : σ) (d : Nat) (hd : d ≤ MAX_DEPTH) :
    (type_of D c = NANOCBOR_TYPE_ARR → 0 ≤ (D.enter_array c).1 →
      ∀ rs tr ck, Walked D true (d + 1) (D.enter_array c).2 rs tr ck →
        D.at_end ck = true →
        ∃ fuel t, _parse_type D true fuel c d = some (1, D.leave_container c ck, t) ∧
          text t = '[' :: '\n' :: pretty_lines (2 * (d + 1)) rs ++
            List.replicate (2 * d) ' ' ++ [']']) ∧
    (type_of D c = NANOCBOR_TYPE_MAP → 0 ≤ (D.enter_map c).1 →
      ∀ rs tr ck, WalkedMap D true (d + 1) (D.enter_map c).2 rs tr ck →
        D.at_end ck = true →
        ∃ fuel t, _parse_type D true fuel c d = some (1, D.leave_container c ck, t) ∧
          text t = '\x7b' :: '\n' :: pretty_lines (2 * (d + 1)) (rs.map pair_text) ++
            List.replicate (2 * d) ' ' ++ ['\x7d']) ∧
    (∀ fuel r, _parse_type D true fuel c d = some r →
      ∀ st, brackets st r.2.2 = some st) := by
  refine ⟨?_, ?_, ?_⟩
  · intro ht he rs tr ck hw hend
    obtain ⟨fuel, t, h, e⟩ := array_run D true c d hd ht he rs tr ck hw hend
    refine ⟨fuel, t, h, ?_⟩
    rw [e, layout_pretty, text_print_indent]
    rfl
  · intro ht he rs tr ck hw hend
    obtain ⟨fuel, t, h, e⟩ := map_run D true c d hd ht he rs tr ck hw hend
    refine ⟨fuel, t, h, ?_⟩
    rw [e, layout_pretty, text_print_indent]
    rfl
  · intro fuel r h st
    have := (matched_parse D true hfmt fuel).2.2 c d r h st []
    rwa [List.append_nil] at this

set_option maxRecDepth 100000 in
/-- A witness for C16: with the pretty flag the array `82 01 02` is written on four
lines, the map `a1 01 61 61` on three, and the log of `81 a1 01 80` has matched
brackets. -/
theorem pretty_container_witness :
    (∃ fuel, (_parse_type nanocbor true fuel (nanocbor.decoder_init [0x82, 0x01, 0x02] 3)
        0).map (fun r => (r.1, text r.2.2)) = some (1, "[\n  1, \n  2\n]".data)) ∧
    (∃ fuel, (_parse_type nanocbor true fuel
        (nanocbor.decoder_init [0xa1, 0x01, 0x61, 0x61] 4) 0).map
          (fun r => (r.1, text r.2.2)) = some (1, "\x7b\n  1: \"a\"\n\x7d".data)) ∧
    (_parse_type nanocbor true 9 (nanocbor.decoder_init [0x81, 0xa1, 0x01, 0x80] 4) 0).map
        (fun r => (text r.2.2, brackets [] r.2.2)) =
      some ("[\n  \x7b\n    1: [\n    ]\n  \x7d\n]".data, some []) := by
  have hf : ∀ b, plain (nanocbor.printk_float b) ∧ plain (nanocbor.printk_double b) :=
    fun b => ⟨plain_printk_f b, plain_printk_f b⟩
  refine ⟨?_, ?_, ?_⟩
  · obtain ⟨fuel, t, h, e⟩ := (pretty_container nanocbor hf
      (nanocbor.decoder_init [0x82, 0x01, 0x02] 3) 0 (by decide)).1 (by decide) (by decide)
      _ _ _
      (Walked.item _ _ _ 1 1 _ _ _ (by decide) (by rfl) (by decide)
        (Walked.item _ _ _ 1 1 _ _ _ (by decide) (by rfl) (by decide) (Walked.done _)))
      (by decide)
    refine ⟨fuel, ?_⟩
    rw [h]
    show some ((1 : Int), text t) = _
    rw [e]
    rfl
  · obtain ⟨fuel, t, h, e⟩ := (pretty_container nanocbor hf
      (nanocbor.decoder_init [0xa1, 0x01, 0x61, 0x61] 4) 0 (by decide)).2.1 (by decide)
      (by decide) _ _ _
      (WalkedMap.pair _ _ _ _ 1 1 1 1 _ _ _ _ (by decide) (by rfl) (by decide) (by rfl)
        (by decide) (WalkedMap.done _))
      (by decide)
    refine ⟨fuel, ?_⟩
    rw [h]
    show some ((1 : Int), text t) = _
    rw [e]
    rfl
  · obtain ⟨r, hr⟩ : ∃ r, _parse_type nanocbor true 9
        (nanocbor.decoder_init [0x81, 0xa1, 0x01, 0x80] 4) 0 = some r := ⟨_, rfl⟩
    have hb := (pretty_container nanocbor hf (nanocbor.decoder_init [0x81, 0xa1, 0x01, 0x80] 4)
      0 (by decide)).2.2 9 r hr []
    have ht : (_parse_type nanocbor true 9
        (nanocbor.decoder_init [0x81, 0xa1, 0x01, 0x80] 4) 0).map (fun r => text r.2.2) =
        some "[\n  \x7b\n    1: [\n    ]\n  \x7d\n]".data := by decide
    rw [hr] at ht ⊢
    simp only [Option.map_some', Option.some.injEq] at ht ⊢
    rw [hb, ht]

end NanoCBOR
